import Mathlib

/-!
# The hierarchical resource state store of `internal/server/singleprocess/state`

A shallow embedding of the catalog ("box"), project and target stores
(`box.go`, `project.go`, `target.go`).  The relational engine is a record of
tables (lists of rows); a query is a filter over a table, and `First` returns
the matching row with the least primary key.  Go results `(*T, error)` are
`Except Error T`; a result that can be `(nil, nil)` is `Except Error (Option T)`.
-/

namespace state

/-! ## Errors -/

/-- The three status-wrapping helpers used by the store's public methods. -/
inductive StatusKind where
  | lookup
  | save
  | delete
deriving DecidableEq, Repr

/-- Errors that the store produces.  The first three are the sentinel values
`gorm.ErrRecordNotFound`, `ErrEmptyProtoArgument` and `ErrMissingProtoParent`. -/
inductive Error where
  | ErrRecordNotFound
  | ErrEmptyProtoArgument
  | ErrMissingProtoParent
  | Errorf (msg : String)
  | Malformed (input : String)
  | Validation (errs : List (String × String))
  | NilDereference
  | Wrap (cause : Error)
  | Status (kind : StatusKind) (typeName : String) (cause : Error)
  | StatusOfNil (kind : StatusKind) (typeName : String)
  | ErrMissingWhereClause
  | RecursionLimit
deriving DecidableEq, Repr

/-- The test `errors.Is(err, gorm.ErrRecordNotFound)`; it looks through an
error wrapped with `%w` (`Wrap`), and a status error wraps nothing. -/
def Error.isNotFound : Error → Bool
  | .ErrRecordNotFound => true
  | .Wrap cause => cause.isNotFound
  | _ => false

/-- Modelled from the spec: `lookupErrorToStatus` is not in the sources; it turns
a lookup failure into a (non-nil) status error that records the entity name and
the cause. -/
def lookupErrorToStatus (typeName : String) (err : Error) : Error :=
  .Status .lookup typeName err

/-- Modelled from the spec: `saveErrorToStatus` is not in the sources; it turns
a failed write into a (non-nil) status error recording the entity and the cause. -/
def saveErrorToStatus (typeName : String) (err : Error) : Error :=
  .Status .save typeName err

/-- Modelled from the spec: `deleteErrorToStatus` is not in the sources; it turns
a failed delete into a (non-nil) status error recording the entity and the cause. -/
def deleteErrorToStatus (typeName : String) (err : Error) : Error :=
  .Status .delete typeName err

/-- Modelled from the spec: what `deleteErrorToStatus` is handed when the error
variable it is called with holds nil: the status then records no cause. -/
def deleteErrorToStatusOfNil (typeName : String) : Error :=
  .StatusOfNil .delete typeName

/-! ## The version library (`github.com/hashicorp/go-version`)

The library is an external collaborator; the store is parametric in it. -/

/-- The four operations of the version library that `BoxFind` calls. -/
structure VersionLib where
  Version : Type
  Constraints : Type
  NewVersion : String → Option Version
  NewConstraint : String → Option Constraints
  Check : Constraints → Version → Bool
  GreaterThan : Version → Version → Bool

/-- What the store takes from its surroundings: the version library, the
scoping of a `for ... range` loop variable (one variable per iteration from
Go 1.22 on, one variable for the whole loop before), and the `LIKE` operator
of the relational engine (pattern first, value second). -/
structure Platform where
  versions : VersionLib
  loopVarPerIteration : Bool
  like : String → String → Bool

/-! ### A concrete instance on plain numeric versions -/

namespace numeric

/-- Value of a decimal digit. -/
def digit? (c : Char) : Option Nat :=
  if c = '0' then some 0 else if c = '1' then some 1 else if c = '2' then some 2
  else if c = '3' then some 3 else if c = '4' then some 4 else if c = '5' then some 5
  else if c = '6' then some 6 else if c = '7' then some 7 else if c = '8' then some 8
  else if c = '9' then some 9 else none

/-- Reads a run of digits, most significant first. -/
def number? : List Char → Option Nat → Option Nat
  | [], acc => acc
  | c :: cs, acc =>
    match digit? c with
    | none => none
    | some d => number? cs (some (acc.getD 0 * 10 + d))

/-- Splits at every occurrence of `sep`. -/
def splitAt (sep : Char) : List Char → List (List Char)
  | [] => [[]]
  | c :: cs =>
    if c = sep then [] :: splitAt sep cs
    else
      match splitAt sep cs with
      | [] => [[c]]
      | w :: ws => (c :: w) :: ws

/-- Removes blanks at both ends. -/
def trim (cs : List Char) : List Char :=
  ((cs.dropWhile (· = ' ')).reverse.dropWhile (· = ' ')).reverse

/-- Segments of a dotted numeric version, padded with zeros to three. -/
def segments? (cs : List Char) : Option (List Nat) :=
  let body := match cs with
    | 'v' :: rest => rest
    | _ => cs
  match (splitAt '.' body).mapM (fun w => number? w none) with
  | none => none
  | some segs => some (segs ++ List.replicate (3 - segs.length) 0)

/-- Three-way comparison of segment lists; a missing segment counts as zero. -/
def compare : List Nat → List Nat → Ordering
  | [], bs => if bs.all (· = 0) then .eq else .lt
  | a :: as, [] => if (a :: as).all (· = 0) then .eq else .gt
  | a :: as, b :: bs => if a < b then .lt else if b < a then .gt else compare as bs

/-- Comparison operators of a constraint. -/
inductive Op where
  | eq | ne | gt | lt | ge | le
deriving DecidableEq, Repr

/-- Splits one constraint into its operator and the remaining text. -/
def operator : List Char → Op × List Char
  | '>' :: '=' :: rest => (.ge, rest)
  | '<' :: '=' :: rest => (.le, rest)
  | '!' :: '=' :: rest => (.ne, rest)
  | '>' :: rest => (.gt, rest)
  | '<' :: rest => (.lt, rest)
  | '=' :: rest => (.eq, rest)
  | rest => (.eq, rest)

/-- One comma-separated part of a constraint expression. -/
def single? (cs : List Char) : Option (Op × List Nat) :=
  match operator (trim cs) with
  | (op, rest) =>
    match segments? (trim rest) with
    | none => none
    | some v => some (op, v)

/-- Whether a version satisfies one constraint. -/
def holds (c : Op × List Nat) (v : List Nat) : Bool :=
  match c.1, compare v c.2 with
  | .eq, .eq => true
  | .ne, .lt => true
  | .ne, .gt => true
  | .gt, .gt => true
  | .lt, .lt => true
  | .ge, .gt => true
  | .ge, .eq => true
  | .le, .lt => true
  | .le, .eq => true
  | _, _ => false

/-- The `LIKE` operator: `%` stands for any run of characters, `_` for any
single character, every other character for itself. -/
def like : List Char → List Char → Bool
  | [], v => v.isEmpty
  | p :: ps, v =>
    if p = '%' then v.tails.any (fun t => like ps t)
    else
      match v with
      | [] => false
      | c :: cs => (p = '_' || p = c) && like ps cs

end numeric

/-- The version library restricted to plain numeric versions (`1.5.0`, `v2`,
`1.0`) and to constraints built from `=`, `!=`, `>`, `<`, `>=`, `<=` joined by
commas.  Pre-release and metadata suffixes and the pessimistic operator are
left out: the instance rejects them. -/
def numericVersions : VersionLib where
  Version := List Nat
  Constraints := List (numeric.Op × List Nat)
  NewVersion := fun s => numeric.segments? s.data
  NewConstraint := fun s => (numeric.splitAt ',' s.data).mapM numeric.single?
  Check := fun cs v => cs.all (fun c => numeric.holds c v)
  GreaterThan := fun a b => numeric.compare a b = .gt

/-- A platform for evaluation: numeric versions, case-sensitive `LIKE`, and the
chosen scoping of loop variables. -/
def numericPlatform (perIteration : Bool) : Platform where
  versions := numericVersions
  loopVarPerIteration := perIteration
  like := fun pat value => numeric.like pat.data value.data

/-! ## Rows and tables -/

/-- Serialized values (`ProtoValue`); the store never looks inside them. -/
abbrev ProtoValue := String

end state

namespace vagrant_plugin_sdk

/-- Reference to a catalog entry (`vagrant_plugin_sdk.Ref_Box`). -/
structure Ref_Box where
  ResourceId : String := ""
  Name : String := ""
  Version : String := ""
  Provider : String := ""
deriving DecidableEq, Repr

/-- Reference to a root scope (`vagrant_plugin_sdk.Ref_Basis`). -/
structure Ref_Basis where
  ResourceId : String := ""
  Name : String := ""
  Path : String := ""
deriving DecidableEq, Repr

/-- Reference to a project (`vagrant_plugin_sdk.Ref_Project`). -/
structure Ref_Project where
  ResourceId : String := ""
  Name : String := ""
  Path : String := ""
  Basis : Option Ref_Basis := none
deriving DecidableEq, Repr

/-- Reference to a target (`vagrant_plugin_sdk.Ref_Target`). -/
structure Ref_Target where
  ResourceId : String := ""
  Name : String := ""
  Project : Option Ref_Project := none
deriving DecidableEq, Repr

end vagrant_plugin_sdk

namespace vagrant_server

/-- Full projection of a catalog entry (`vagrant_server.Box`). -/
structure Box where
  ResourceId : String := ""
  Directory : String := ""
  Name : String := ""
  Version : String := ""
  Provider : String := ""
  Metadata : Option state.ProtoValue := none
  MetadataUrl : Option String := none
deriving DecidableEq, Repr

/-- The enum `Operation_PhysicalState`; its zero value is `UNKNOWN`. -/
abbrev Operation_PhysicalState := Nat

def Operation_PhysicalState_UNKNOWN : Operation_PhysicalState := 0

/-- Configuration of a project (`vagrant_server.Vagrantfile`). -/
structure Vagrantfile where
  Unfinalized : Option state.ProtoValue := none
  Finalized : Option state.ProtoValue := none
deriving DecidableEq, Repr

/-- Full projection of a project (`vagrant_server.Project`). -/
structure Project where
  ResourceId : String := ""
  Name : String := ""
  Path : String := ""
  Basis : Option vagrant_plugin_sdk.Ref_Basis := none
  RemoteEnabled : Bool := false
  DataSource : Option state.ProtoValue := none
  Configuration : Option Vagrantfile := none
deriving DecidableEq, Repr

/-- Full projection of a target (`vagrant_server.Target`). -/
structure Target where
  ResourceId : String := ""
  Name : String := ""
  Project : Option vagrant_plugin_sdk.Ref_Project := none
  Uuid : String := ""
  Provider : String := ""
  State : Operation_PhysicalState := 0
  Record : Option state.ProtoValue := none
  Configuration : Option state.ProtoValue := none
  Parent : Option vagrant_plugin_sdk.Ref_Target := none
deriving DecidableEq, Repr

end vagrant_server

namespace state

def DEFAULT_BOX_VERSION : String := "0.0.0"

def DEFAULT_BOX_CONSTRAINT : String := "> 0"

/-- A row of the catalog table (`Box`); `ID` is the primary key of the embedded
`Model`, zero for a record that was never saved. -/
structure Box where
  ID : Nat := 0
  Directory : String := ""
  Metadata : Option ProtoValue := none
  MetadataUrl : Option String := none
  Name : String := ""
  Provider : String := ""
  ResourceId : String := ""
  Version : String := ""
deriving DecidableEq, Repr

/-- A row of the root-scope table (`Basis`, declared outside these sources). -/
structure Basis where
  ID : Nat := 0
  Name : String := ""
  Path : String := ""
  ResourceId : String := ""
deriving DecidableEq, Repr

/-- A row of the configuration table (`Vagrantfile`, declared outside these
sources). -/
structure Vagrantfile where
  ID : Nat := 0
  Unfinalized : Option ProtoValue := none
  Finalized : Option ProtoValue := none
deriving DecidableEq, Repr

/-- A project record (`Project`).  `Basis` and `Vagrantfile` are the associated
objects, nil in a stored row and filled in when a query preloads them; the
has-many associations `Targets` and `Jobs` are read off the tables where the
code uses them. -/
structure Project where
  ID : Nat := 0
  Basis : Option Basis := none
  BasisID : Nat := 0
  Vagrantfile : Option Vagrantfile := none
  VagrantfileID : Option Nat := none
  DataSource : Option ProtoValue := none
  Name : String := ""
  Path : String := ""
  RemoteEnabled : Bool := false
  ResourceId : String := ""
deriving DecidableEq, Repr

/-- The parent of a target, itself a `Target` in the code, with the fields
that the store reads of it: its key, its identifier, its `ProjectID` column and
its associated project. -/
structure ParentTarget where
  ID : Nat := 0
  ResourceId : String := ""
  ProjectID : Nat := 0
  Project : Option Project := none
deriving DecidableEq, Repr

/-- A target record (`Target`).  `Project` and `Parent` are the associated
objects, nil in a stored row; `Subtargets` and `Jobs` are read off the tables
where the code uses them. -/
structure Target where
  ID : Nat := 0
  Configuration : Option ProtoValue := none
  Name : String := ""
  Parent : Option ParentTarget := none
  ParentID : Option Nat := none
  Project : Option Project := none
  ProjectID : Nat := 0
  Provider : Option String := none
  Record : Option ProtoValue := none
  ResourceId : String := ""
  State : vagrant_server.Operation_PhysicalState := 0
  Uuid : Option String := none
deriving DecidableEq, Repr

/-- Modelled from the spec: `InternalJob` is declared outside these sources; a
job belongs to its owner through the polymorphic association `Scope`, the
columns `ScopeID` (key of the owner) and `ScopeType` (table of the owner). -/
structure InternalJob where
  ID : Nat := 0
  ScopeID : Nat := 0
  ScopeType : String := ""
deriving DecidableEq, Repr

/-- A row of the configuration table matched against `&Vagrantfile{...}`. -/
def Vagrantfile.cond (q row : Vagrantfile) : Bool :=
  (q.ID = 0 || row.ID = q.ID) &&
  (q.Unfinalized.isNone || row.Unfinalized = q.Unfinalized) &&
  (q.Finalized.isNone || row.Finalized = q.Finalized)

/-- A struct condition `&Box{...}`: every non-zero field of the query must be
equal in the row, a zero field is no condition. -/
def Box.cond (q row : Box) : Bool :=
  (q.ID = 0 || row.ID = q.ID) &&
  (q.Directory = "" || row.Directory = q.Directory) &&
  (q.Metadata.isNone || row.Metadata = q.Metadata) &&
  (q.MetadataUrl.isNone || row.MetadataUrl = q.MetadataUrl) &&
  (q.Name = "" || row.Name = q.Name) &&
  (q.Provider = "" || row.Provider = q.Provider) &&
  (q.ResourceId = "" || row.ResourceId = q.ResourceId) &&
  (q.Version = "" || row.Version = q.Version)

/-- A struct condition `&Basis{...}`. -/
def Basis.cond (q row : Basis) : Bool :=
  (q.ID = 0 || row.ID = q.ID) &&
  (q.Name = "" || row.Name = q.Name) &&
  (q.Path = "" || row.Path = q.Path) &&
  (q.ResourceId = "" || row.ResourceId = q.ResourceId)

/-- A struct condition `&Project{...}` on the columns of the project table. -/
def Project.cond (q row : Project) : Bool :=
  (q.ID = 0 || row.ID = q.ID) &&
  (q.BasisID = 0 || row.BasisID = q.BasisID) &&
  (q.VagrantfileID.isNone || row.VagrantfileID = q.VagrantfileID) &&
  (q.DataSource.isNone || row.DataSource = q.DataSource) &&
  (q.Name = "" || row.Name = q.Name) &&
  (q.Path = "" || row.Path = q.Path) &&
  (!q.RemoteEnabled || row.RemoteEnabled) &&
  (q.ResourceId = "" || row.ResourceId = q.ResourceId)

/-- A struct condition `&Target{...}` on the columns of the target table. -/
def Target.cond (q row : Target) : Bool :=
  (q.ID = 0 || row.ID = q.ID) &&
  (q.Configuration.isNone || row.Configuration = q.Configuration) &&
  (q.Name = "" || row.Name = q.Name) &&
  (q.ParentID.isNone || row.ParentID = q.ParentID) &&
  (q.ProjectID = 0 || row.ProjectID = q.ProjectID) &&
  (q.Provider.isNone || row.Provider = q.Provider) &&
  (q.Record.isNone || row.Record = q.Record) &&
  (q.ResourceId = "" || row.ResourceId = q.ResourceId) &&
  (q.State = 0 || row.State = q.State) &&
  (q.Uuid.isNone || row.Uuid = q.Uuid)

/-- Conversion `decode(b, &p)` of a row to its projection. -/
def Box.ToProto (b : Box) : vagrant_server.Box :=
  { ResourceId := b.ResourceId, Directory := b.Directory, Name := b.Name,
    Version := b.Version, Provider := b.Provider, Metadata := b.Metadata,
    MetadataUrl := b.MetadataUrl }

/-- The row with the least primary key, as `First` orders by it. -/
def leastBy {α : Type} (key : α → Nat) : List α → Option α
  | [] => none
  | r :: rs =>
    match leastBy key rs with
    | none => some r
    | some m => if key m < key r then some m else some r

/-- The query `First(dest, cond)`: the first matching row in primary-key order,
`ErrRecordNotFound` when no row matches. -/
def First {α : Type} (key : α → Nat) (cond : α → Bool) (rows : List α) : Except Error α :=
  match leastBy key (rows.filter cond) with
  | none => .error .ErrRecordNotFound
  | some r => .ok r

/-- The tables of the relational engine this development reads and writes. -/
structure DB where
  bases : List Basis := []
  vagrantfiles : List Vagrantfile := []
  projects : List Project := []
  targets : List Target := []
  boxes : List Box := []
  jobs : List InternalJob := []
deriving DecidableEq, Repr

/-- The store: a handle on the database. -/
structure State where
  db : DB := {}
deriving DecidableEq, Repr

/-! ## Catalog entries (`box.go`) -/

def State.BoxFromProtoRef (s : State) (b : Option vagrant_plugin_sdk.Ref_Box) :
    Except Error Box :=
  match b with
  | none => .error .ErrEmptyProtoArgument
  | some b =>
    if b.ResourceId = "" then .error .ErrRecordNotFound
    else First Box.ID (Box.cond { ResourceId := b.ResourceId }) s.db.boxes

def State.BoxFromProtoRefFuzzy (s : State) (b : Option vagrant_plugin_sdk.Ref_Box) :
    Except Error Box :=
  match s.BoxFromProtoRef b with
  | .ok box => .ok box
  | .error err =>
    if !err.isNotFound then .error err
    else
      match b with
      | none => .error .NilDereference
      | some b =>
        if b.Name = "" || b.Provider = "" || b.Version = "" then .error .ErrRecordNotFound
        else
          First Box.ID
            (Box.cond { Name := b.Name, Provider := b.Provider, Version := b.Version })
            s.db.boxes

/-- The loop of `BoxFind` over the candidates: `acc` holds the box last assigned
to `match` (if any) and `highestVersion`, which is nil when the library
rejected the literal it was parsed from (`GreaterThan` then dereferences nil). -/
def boxFindLoop (L : VersionLib) (versionConstraint : L.Constraints) :
    List Box → Option Box × Option L.Version →
      Except Error (Option Box × Option L.Version)
  | [], acc => .ok acc
  | box :: rest, acc =>
    match L.NewVersion box.Version with
    | none => .error (lookupErrorToStatus "box" (.Malformed box.Version))
    | some boxVersion =>
      if !L.Check versionConstraint boxVersion then
        boxFindLoop L versionConstraint rest acc
      else
        match acc.2 with
        | none => .error .NilDereference
        | some highestVersion =>
          if L.GreaterThan boxVersion highestVersion then
            boxFindLoop L versionConstraint rest (some box, some boxVersion)
          else
            boxFindLoop L versionConstraint rest acc

/-- What `match` points to after the loop.  `match = &box` takes the address of
the loop variable: with one variable per iteration it keeps the box assigned,
with one variable for the whole loop it reads the last box iterated. -/
def boxFindMatch (perIteration : Bool) (boxes : List Box) (assigned : Option Box) :
    Option Box :=
  match assigned with
  | none => none
  | some box => if perIteration then some box else boxes.getLast?

/-- The part of `BoxFind` that follows the defaulting of the literal `0`: the
direct lookup of a concrete version with a provider, else the matcher. -/
def State.boxFindNamed (P : Platform) (s : State) (b : vagrant_plugin_sdk.Ref_Box) :
    Except Error (Option vagrant_server.Box) :=
  if (P.versions.NewVersion b.Version).isSome && b.Provider ≠ "" then
    match s.BoxFromProtoRefFuzzy (some b) with
    | .error err =>
      if err.isNotFound then .ok none else .error (lookupErrorToStatus "box" err)
    | .ok box => .ok (some box.ToProto)
  else
    let q : Box := { Name := b.Name, Provider := b.Provider }
    let boxes := s.db.boxes.filter (Box.cond q)
    if boxes.length < 1 then .ok none
    else
      let b := if b.Version = "" then { b with Version := DEFAULT_BOX_CONSTRAINT } else b
      let highestVersion := P.versions.NewVersion "0.0.0"
      match P.versions.NewConstraint b.Version with
      | none => .error (lookupErrorToStatus "box" (.Malformed b.Version))
      | some versionConstraint =>
        match boxFindLoop P.versions versionConstraint boxes (none, highestVersion) with
        | .error err => .error err
        | .ok acc =>
          match boxFindMatch P.loopVarPerIteration boxes acc.1 with
          | some box => .ok (some box.ToProto)
          | none => .ok none

def State.BoxFind (P : Platform) (s : State) (ref : Option vagrant_plugin_sdk.Ref_Box) :
    Except Error (Option vagrant_server.Box) :=
  -- mapstructure.Decode(ref, b): a nil input leaves b at its zero value
  let b : vagrant_plugin_sdk.Ref_Box := ref.getD {}
  if b.ResourceId ≠ "" then
    match s.BoxFromProtoRef (some b) with
    | .error err => .error (lookupErrorToStatus "box" err)
    | .ok box => .ok (some box.ToProto)
  else if b.Name = "" then
    .error (lookupErrorToStatus "box" (.Errorf "no name given for box lookup"))
  else
    s.boxFindNamed P (if b.Version = "0" then { b with Version := DEFAULT_BOX_VERSION } else b)

/-! ## Associations -/

def Basis.ToProtoRef (b : Basis) : vagrant_plugin_sdk.Ref_Basis :=
  { ResourceId := b.ResourceId, Name := b.Name, Path := b.Path }

def Vagrantfile.ToProto (v : Vagrantfile) : vagrant_server.Vagrantfile :=
  { Unfinalized := v.Unfinalized, Finalized := v.Finalized }

def Project.ToProtoRef (p : Project) : vagrant_plugin_sdk.Ref_Project :=
  { ResourceId := p.ResourceId, Name := p.Name, Path := p.Path,
    Basis := p.Basis.map Basis.ToProtoRef }

def Project.ToProto (p : Project) : vagrant_server.Project :=
  { ResourceId := p.ResourceId, Name := p.Name, Path := p.Path,
    Basis := p.Basis.map Basis.ToProtoRef, RemoteEnabled := p.RemoteEnabled,
    DataSource := p.DataSource, Configuration := p.Vagrantfile.map Vagrantfile.ToProto }

def Target.ToProtoRef (t : Target) : vagrant_plugin_sdk.Ref_Target :=
  { ResourceId := t.ResourceId, Name := t.Name, Project := t.Project.map Project.ToProtoRef }

/-- Conversion `decode(t, &target)`; the parent is projected to a reference by
its identifier. -/
def Target.ToProto (t : Target) : vagrant_server.Target :=
  { ResourceId := t.ResourceId, Name := t.Name, Project := t.Project.map Project.ToProtoRef,
    Uuid := t.Uuid.getD "", Provider := t.Provider.getD "", State := t.State,
    Record := t.Record, Configuration := t.Configuration,
    Parent := t.Parent.map (fun parent => { ResourceId := parent.ResourceId }) }

/-- The root scope that a project row points to. -/
def State.basisOf (s : State) (row : Project) : Option Basis :=
  s.db.bases.find? (fun b => b.ID = row.BasisID)

/-- The project that a target row points to. -/
def State.projectOf (s : State) (row : Target) : Option Project :=
  s.db.projects.find? (fun p => p.ID = row.ProjectID)

/-- Modelled from the spec: `search` is not in the sources; a query through it
returns rows with their direct associations preloaded.  For a project these
are the root scope and the configuration record. -/
def State.loadProject (s : State) (row : Project) : Project :=
  { row with
    Basis := s.basisOf row
    Vagrantfile :=
      match row.VagrantfileID with
      | none => none
      | some id => s.db.vagrantfiles.find? (fun v => v.ID = id) }

/-- Modelled from the spec: `search` is not in the sources; for a target the
preloaded associations are its project (with the project's root scope, as
`Preload("Project.Basis")` asks) and its parent. -/
def State.loadTarget (s : State) (row : Target) : Target :=
  { row with
    Project := (s.projectOf row).map s.loadProject
    Parent :=
      match row.ParentID with
      | none => none
      | some id =>
        (s.db.targets.find? (fun p => p.ID = id)).map
          (fun p => { ID := p.ID, ResourceId := p.ResourceId, ProjectID := p.ProjectID }) }

/-- The clause `Joins("Basis", &Basis{...})`.  The persistence engine joins an
association by a `LEFT JOIN` on its foreign key and builds a condition only
from an argument that is a query of its own; a struct is not one, and a
`LEFT JOIN` drops no row.  The clause keeps every project row, whatever the
struct holds and whatever the root scope of the row is. -/
def State.joinsBasis (_s : State) (_q : Basis) (_row : Project) : Bool :=
  true

/-- The clause `Joins("Project", &Project{...})`: as for `Joins("Basis", ...)`,
the struct adds no condition and the clause keeps every target row. -/
def State.joinsProject (_s : State) (_q : Project) (_row : Target) : Bool :=
  true

/-- The clause `Joins("Project").Where("Project.resource_id = ?", id)`: here the
condition is a `WHERE` on the joined table, which does filter. -/
def State.projectResourceIdIs (s : State) (id : String) (row : Target) : Bool :=
  match s.projectOf row with
  | none => false
  | some p => p.ResourceId = id

/-! ## Projects (`project.go`) -/

def State.ProjectFromProtoRef (s : State) (ref : Option vagrant_plugin_sdk.Ref_Project) :
    Except Error Project :=
  match ref with
  | none => .error .ErrEmptyProtoArgument
  | some ref =>
    if ref.ResourceId = "" then .error .ErrRecordNotFound
    else
      match First Project.ID (Project.cond { ResourceId := ref.ResourceId }) s.db.projects with
      | .error err => .error err
      | .ok project => .ok (s.loadProject project)

/-- The lookup by root scope and natural keys that ends `ProjectFromProtoRefFuzzy`. -/
def State.projectByScope (s : State) (basis : vagrant_plugin_sdk.Ref_Basis)
    (ref : vagrant_plugin_sdk.Ref_Project) : Except Error Project :=
  if ref.Name = "" && ref.Path = "" then .error .ErrRecordNotFound
  else
    let query : Project :=
      { Name := if ref.Name ≠ "" then ref.Name else ""
        Path := if ref.Path ≠ "" then ref.Path else "" }
    match First Project.ID
        (fun row => s.joinsBasis { ResourceId := basis.ResourceId } row && Project.cond query row)
        s.db.projects with
    | .error err => .error err
    | .ok project => .ok (s.loadProject project)

def State.ProjectFromProtoRefFuzzy (s : State) (ref : Option vagrant_plugin_sdk.Ref_Project) :
    Except Error Project :=
  -- the record found by identifier is not returned here: the code goes on
  let continue_ : Except Error Project :=
    match ref with
    | none => .error .NilDereference
    | some ref =>
      match ref.Basis with
      | none => .error .ErrMissingProtoParent
      | some basis => s.projectByScope basis ref
  match s.ProjectFromProtoRef ref with
  | .ok _ => continue_
  | .error err => if !err.isNotFound then .error err else continue_

def State.ProjectFromProto (s : State) (p : Option vagrant_server.Project) :
    Except Error Project :=
  match p with
  | none => .error .ErrEmptyProtoArgument
  | some p => s.ProjectFromProtoRef (some { ResourceId := p.ResourceId })

def State.ProjectFromProtoFuzzy (s : State) (p : Option vagrant_server.Project) :
    Except Error Project :=
  match p with
  | none => .error .ErrEmptyProtoArgument
  | some p =>
    s.ProjectFromProtoRefFuzzy
      (some { ResourceId := p.ResourceId, Basis := p.Basis, Name := p.Name, Path := p.Path })

def State.ProjectFind (s : State) (p : Option vagrant_server.Project) :
    Except Error (Option vagrant_server.Project) :=
  match s.ProjectFromProtoFuzzy p with
  | .error err => .error (lookupErrorToStatus "project" (.Wrap err))
  | .ok project => .ok (some project.ToProto)

/-! ## Targets (`target.go`) -/

def State.TargetFromProtoRef (s : State) (ref : Option vagrant_plugin_sdk.Ref_Target) :
    Except Error Target :=
  match ref with
  | none => .error .ErrEmptyProtoArgument
  | some ref =>
    if ref.ResourceId = "" then .error .ErrRecordNotFound
    else
      match First Target.ID (Target.cond { ResourceId := ref.ResourceId }) s.db.targets with
      | .error err => .error err
      | .ok target => .ok (s.loadTarget target)

/-- The lookup by project scope and name that ends `TargetFromProtoRefFuzzy`. -/
def State.targetByScope (s : State) (project : vagrant_plugin_sdk.Ref_Project)
    (ref : vagrant_plugin_sdk.Ref_Target) : Except Error Target :=
  if ref.Name = "" then .error .ErrRecordNotFound
  else
    match First Target.ID
        (fun row => s.joinsProject { ResourceId := project.ResourceId } row &&
          Target.cond { Name := ref.Name } row)
        s.db.targets with
    | .error err => .error err
    | .ok target => .ok (s.loadTarget target)

def State.TargetFromProtoRefFuzzy (s : State) (ref : Option vagrant_plugin_sdk.Ref_Target) :
    Except Error Target :=
  -- the record found by identifier is not returned here: the code goes on
  let continue_ : Except Error Target :=
    match ref with
    | none => .error .NilDereference
    | some ref =>
      match ref.Project with
      | none => .error .ErrMissingProtoParent
      | some project => s.targetByScope project ref
  match s.TargetFromProtoRef ref with
  | .ok _ => continue_
  | .error err => if !err.isNotFound then .error err else continue_

def State.TargetFromProto (s : State) (t : Option vagrant_server.Target) :
    Except Error Target :=
  match t with
  | none => .error .NilDereference
  | some t => s.TargetFromProtoRef (some { ResourceId := t.ResourceId })

/-- The lookup of `TargetFromProtoFuzzy` when a project is supplied: the first
target of the given name under the project with the given identifier. -/
def State.targetInProject (s : State) (project : vagrant_plugin_sdk.Ref_Project)
    (t : vagrant_server.Target) : Except Error Target :=
  match First Target.ID
      (fun row => s.projectResourceIdIs project.ResourceId row &&
        Target.cond { Name := t.Name } row)
      s.db.targets with
  | .error err => .error err
  | .ok target => .ok (s.loadTarget target)

/-- The lookup of `TargetFromProtoFuzzy` when no project is supplied: the first
target whose `uuid` column is `LIKE` the query's UUID between two `%`. -/
def State.targetByUuidLike (P : Platform) (s : State) (t : vagrant_server.Target) :
    Except Error Target :=
  match First Target.ID
      (fun row =>
        match row.Uuid with
        | none => false
        | some uuid => P.like ("%" ++ t.Uuid ++ "%") uuid)
      s.db.targets with
  | .error err => .error err
  | .ok target => .ok (s.loadTarget target)

def State.TargetFromProtoFuzzy (P : Platform) (s : State) (t : Option vagrant_server.Target) :
    Except Error Target :=
  match s.TargetFromProto t with
  | .ok target => .ok target
  | .error err =>
    if !err.isNotFound then .error err
    else
      match t with
      | none => .error .NilDereference
      | some t =>
        if t.Uuid = "" && t.Name = "" then .error .ErrRecordNotFound
        else if t.Project.isNone && t.Uuid = "" then .error .ErrMissingProtoParent
        else
          match t.Project with
          | some project => s.targetInProject project t
          | none => s.targetByUuidLike P t

def State.TargetFind (P : Platform) (s : State) (t : Option vagrant_server.Target) :
    Except Error (Option vagrant_server.Target) :=
  match s.TargetFromProtoFuzzy P t with
  | .error .NilDereference => .error .NilDereference
  | .error err => .error (lookupErrorToStatus "target" err)
  | .ok target => .ok (some target.ToProto)

/-! ### Validation and saving of targets -/

/-- The rule `validation.Required`: a zero value is rejected. -/
def required (blank : Bool) : Option String :=
  if blank then some "cannot be blank" else none

/-- The rule `validation.When(cond, rule)`. -/
def when_ (cond : Bool) (rule : Option String) : Option String :=
  if cond then rule else none

/-- Modelled from the spec: `checkUnique` is not in the sources; it fails when
the query it is given (which leaves out the record itself on update) finds a
row. -/
def checkUnique (conflict : Bool) : Option String :=
  if conflict then some "must be unique" else none

/-- Modelled from the spec: `checkNotModified` is not in the sources; it fails
when the field was modified in the pending change. -/
def checkNotModified (changed : Bool) : Option String :=
  if changed then some "cannot be modified" else none

/-- Modelled from the spec: `checkSameProject` is not in the sources; it fails
when the project identifier under validation differs from the parent's. -/
def checkSameProject (parentProjectID : Nat) (projectID : Nat) : Option String :=
  if projectID ≠ parentProjectID then some "project must match parent project" else none

/-- The rules of one `validation.Field`: the first failing rule gives the
error of the field. -/
def field (name : String) (rules : List (Option String)) : List (String × String) :=
  match rules.findSome? id with
  | none => []
  | some msg => [(name, msg)]

/-- The result of `validation.ValidateStruct`: the errors of all fields. -/
def validateStruct (fields : List (List (String × String))) : Except Error Unit :=
  match fields.flatten with
  | [] => .ok ()
  | errs => .error (.Validation errs)

/-- The call `tx.Statement.Changed("ResourceId")` of the persistence engine
compares the value that is being written with the model of the statement.
`upsertFull` saves one record, which is both, so no field of it counts as
changed, whatever the stored row holds. -/
def State.targetResourceIdChanged (_s : State) (_t : Target) : Bool :=
  false

/-- The value `projectID` at the head of `Target.validate`: the key of the
associated project when one is set, else the column `ProjectID`. -/
def Target.effectiveProjectID (t : Target) : Nat :=
  match t.Project with
  | some project => project.ID
  | none => t.ProjectID

/-- The value `parentProjectID` of `Target.validate`, computed of the parent in
the same way. -/
def ParentTarget.effectiveProjectID (parent : ParentTarget) : Nat :=
  match parent.Project with
  | some project => project.ID
  | none => parent.ProjectID

/-- The parent that `Target.validate` reads: the associated object when it is
set, else the row of the key `ParentID`, loaded without associations, else an
empty record. -/
def Target.resolveParent (s : state.State) (t : Target) : Except Error ParentTarget :=
  match t.Parent with
  | some parent => .ok parent
  | none =>
    match t.ParentID with
    | some parentID =>
      match First Target.ID (Target.cond { ID := parentID }) s.db.targets with
      | .error err => .error err
      | .ok row =>
        .ok { ID := row.ID, ResourceId := row.ResourceId, ProjectID := row.ProjectID }
    | none => .ok {}

def Target.validate (s : state.State) (t : Target) : Except Error Unit :=
  let projectID := t.effectiveProjectID
  match t.resolveParent s with
  | .error err => .error err
  | .ok parent =>
    let parentProjectID := parent.effectiveProjectID
    validateStruct
      [ field "Name"
          [ required (t.Name = ""),
            when_ (t.ID ≠ 0) (checkUnique (s.db.targets.any (fun row =>
              Target.cond { Name := t.Name, ProjectID := projectID } row &&
                !Target.cond { ID := t.ID } row))),
            when_ (t.ID = 0) (checkUnique (s.db.targets.any
              (Target.cond { Name := t.Name, ProjectID := projectID }))) ],
        field "ResourceId"
          [ required (t.ResourceId = ""),
            when_ (t.ID = 0) (checkUnique (s.db.targets.any
              (Target.cond { ResourceId := t.ResourceId }))),
            when_ (t.ID ≠ 0) (checkNotModified (s.targetResourceIdChanged t)) ],
        field "Uuid"
          [ when_ (t.Uuid.isSome && t.ID ≠ 0) (checkUnique (s.db.targets.any (fun row =>
              Target.cond { Uuid := t.Uuid } row && !Target.cond { ID := t.ID } row))),
            when_ (t.Uuid.isSome && t.ID = 0) (checkUnique (s.db.targets.any
              (Target.cond { Uuid := t.Uuid }))) ],
        field "ProjectID"
          [ when_ t.Project.isNone (required (t.ProjectID = 0)),
            when_ (t.ProjectID ≠ 0 && parentProjectID ≠ 0)
              (checkSameProject parentProjectID t.ProjectID) ],
        field "Project"
          [ when_ (t.ProjectID = 0) (required t.Project.isNone),
            when_ (t.Project.isSome && parentProjectID ≠ 0)
              (checkSameProject parentProjectID ((t.Project.map Project.ID).getD 0)) ] ]

/-- The identifier generator `server.Id()` is outside these sources; `newId` is
what it returns for this call. -/
def Target.setId (newId : Except Error String) (t : Target) : Except Error Target :=
  match newId with
  | .error err => .error err
  | .ok id => .ok { t with ResourceId := id }

def Target.BeforeSave (s : state.State) (newId : Except Error String) (t : Target) :
    Except Error Target :=
  let withId := if t.ResourceId = "" then t.setId newId else .ok t
  match withId with
  | .error err => .error err
  | .ok t =>
    match t.validate s with
    | .error err => .error err
    | .ok _ => .ok t

/-- The primary key given to a created row. -/
def nextID (ids : List Nat) : Nat :=
  ids.foldl max 0 + 1

/-- The columns written for a target: the associated objects are not columns,
and the foreign keys follow them when they are set. -/
def Target.row (t : Target) : Target :=
  { t with
    Project := none
    Parent := none
    ProjectID := match t.Project with
      | some project => project.ID
      | none => t.ProjectID
    ParentID := match t.Parent with
      | some parent => some parent.ID
      | none => t.ParentID }

/-- Modelled from the spec: `upsertFull` is not in the sources.  It is one
atomic create-or-save: the `BeforeSave` hook runs first and its error aborts
the write; a record without primary key is created under a new one; a record
with a primary key replaces its row, where `ResourceId`, tagged `<-:create`,
keeps the stored value.  Associated records are not written. -/
def State.upsertFullTarget (s : State) (newId : Except Error String) (target : Target) :
    Except Error (State × Target) :=
  match target.BeforeSave s newId with
  | .error err => .error err
  | .ok target =>
    if target.ID = 0 then
      let target := { target with ID := nextID (s.db.targets.map Target.ID) }
      .ok ({ s with db := { s.db with targets := s.db.targets ++ [target.row] } }, target)
    else if s.db.targets.any (fun row => row.ID = target.ID) then
      .ok ({ s with db := { s.db with targets := s.db.targets.map (fun row =>
          if row.ID = target.ID then { target.row with ResourceId := row.ResourceId }
          else row) } }, target)
    else
      .ok ({ s with db := { s.db with targets := s.db.targets ++ [target.row] } }, target)

/-- Modelled from the spec: `softDecode` is not in the sources.  Every field
present (non-default) in the external record overwrites the field of the
internal record and every absent field is left untouched; a reference to a
project or to a parent target is resolved to the stored record. -/
def State.softDecodeTarget (s : State) (t : vagrant_server.Target) (target : Target) :
    Except Error Target :=
  let project : Except Error (Option Project) :=
    match t.Project with
    | none => .ok target.Project
    | some ref =>
      match s.ProjectFromProtoRef (some ref) with
      | .error err => .error err
      | .ok project => .ok (some project)
  let parent : Except Error (Option ParentTarget) :=
    match t.Parent with
    | none => .ok target.Parent
    | some ref =>
      match s.TargetFromProtoRef (some ref) with
      | .error err => .error err
      | .ok p =>
        .ok (some { ID := p.ID, ResourceId := p.ResourceId, ProjectID := p.ProjectID,
                    Project := p.Project })
  match project, parent with
  | .error err, _ => .error err
  | .ok _, .error err => .error err
  | .ok project, .ok parent =>
    .ok { target with
      ResourceId := if t.ResourceId ≠ "" then t.ResourceId else target.ResourceId
      Name := if t.Name ≠ "" then t.Name else target.Name
      Project := project
      Parent := parent
      Uuid := if t.Uuid ≠ "" then some t.Uuid else target.Uuid
      Provider := if t.Provider ≠ "" then some t.Provider else target.Provider
      State := if t.State ≠ 0 then t.State else target.State
      Record := if t.Record.isSome then t.Record else target.Record
      Configuration := if t.Configuration.isSome then t.Configuration else target.Configuration }

/-- The second half of `TargetPut`, from the reset of `Record` to the save:
`t` is the incoming record (its project reference already dropped when a
target was found) and `target` the record it is merged onto. -/
def State.targetPutOnto (s : State) (newId : Except Error String)
    (t : vagrant_server.Target) (target : Target) :
    Except Error (State × vagrant_server.Target) :=
  let target := if t.Record.isSome then { target with Record := none } else target
  match s.softDecodeTarget t target with
  | .error err => .error (saveErrorToStatus "target" err)
  | .ok target =>
    if target.Project.isNone then
      .error (saveErrorToStatus "target" .ErrMissingProtoParent)
    else
      let target := { target with State := t.State }
      match s.upsertFullTarget newId target with
      | .error err => .error (saveErrorToStatus "target" err)
      | .ok (s, target) => .ok (s, target.ToProto)

def State.TargetPut (P : Platform) (s : State) (newId : Except Error String)
    (t : Option vagrant_server.Target) : Except Error (State × vagrant_server.Target) :=
  match t with
  | none => .error .NilDereference
  | some t =>
    match s.TargetFromProtoFuzzy P (some t) with
    | .error err =>
      if !err.isNotFound then .error (lookupErrorToStatus "target" err)
      else s.targetPutOnto newId t {}
    | .ok target => s.targetPutOnto newId { t with Project := none } target

/-! ## Saving and deleting catalog entries (`box.go`) -/

def State.BoxFromProto (s : State) (b : Option vagrant_server.Box) : Except Error Box :=
  match b with
  | none => .error .NilDereference
  | some b => s.BoxFromProtoRef (some { ResourceId := b.ResourceId })

def State.BoxFromProtoFuzzy (s : State) (b : Option vagrant_server.Box) : Except Error Box :=
  match b with
  | none => .error .NilDereference
  | some b =>
    s.BoxFromProtoRefFuzzy
      (some { Name := b.Name, Provider := b.Provider, ResourceId := b.ResourceId,
              Version := b.Version })

/-- The clause `Not(&Box{Model: Model{ID: id}})`: rows under another key; a zero
key is a struct without non-zero field and adds no condition. -/
def notID (id rowID : Nat) : Bool :=
  id = 0 || rowID ≠ id

/-- Modelled from the spec: `checkValidVersion` is not in the sources; it fails
when the version library does not parse the value. -/
def checkValidVersion (L : VersionLib) (version : String) : Option String :=
  if (L.NewVersion version).isSome then none else some "must be a valid version"

/-- The call `tx.Statement.Changed("ResourceId")` in the save of a catalog
entry: as for a target, nothing counts as changed. -/
def State.boxResourceIdChanged (_s : State) (_b : Box) : Bool :=
  false

/-- The field rules of `Box.Validate` (its `validation.ValidateStruct`). -/
def Box.fields (L : VersionLib) (s : state.State) (b : Box) : List (List (String × String)) :=
  [ field "Directory"
      [ required (b.Directory = ""),
        checkUnique (s.db.boxes.any (fun row =>
          Box.cond { Directory := b.Directory } row && notID b.ID row.ID)) ],
    field "Name" [ required (b.Name = "") ],
    field "Provider" [ required (b.Provider = "") ],
    field "ResourceId"
      [ required (b.ResourceId = ""),
        checkUnique (s.db.boxes.any (fun row =>
          Box.cond { ResourceId := b.ResourceId } row && notID b.ID row.ID)),
        when_ (b.ID ≠ 0) (checkNotModified (s.boxResourceIdChanged b)) ],
    field "Version"
      [ required (b.Version = ""),
        checkValidVersion L b.Version ] ]

/-- The query of the triple check of `Box.Validate`: another row with the name,
provider and version of the record. -/
def Box.tripleTaken (s : state.State) (b : Box) : Bool :=
  s.db.boxes.any (fun row =>
    Box.cond { Name := b.Name, Provider := b.Provider, Version := b.Version } row &&
      notID b.ID row.ID)

def Box.Validate (L : VersionLib) (s : state.State) (b : Box) : Except Error Unit :=
  match validateStruct (b.fields L s) with
  | .error err => .error err
  | .ok _ =>
    match checkUnique (b.tripleTaken s) with
    | some err => .error (.Errorf ("name, provider and version " ++ err))
    | none => .ok ()

def Box.setId (newId : Except Error String) (b : Box) : Except Error Box :=
  match newId with
  | .error err => .error err
  | .ok id => .ok { b with ResourceId := id }

def Box.BeforeSave (L : VersionLib) (s : state.State) (newId : Except Error String)
    (b : Box) : Except Error Box :=
  let withId := if b.ResourceId = "" then b.setId newId else .ok b
  match withId with
  | .error err => .error err
  | .ok b =>
    -- If version is not set, default it to 0
    let b := if b.Version = "" || b.Version = "0" then
      { b with Version := DEFAULT_BOX_VERSION } else b
    match b.Validate L s with
    | .error err => .error err
    | .ok _ => .ok b

/-- Modelled from the spec: `upsertFull` for a catalog entry, as for a target;
no column of a catalog entry is tagged `<-:create`, so the whole row is
written. -/
def State.upsertFullBox (L : VersionLib) (s : State) (newId : Except Error String)
    (box : Box) : Except Error (State × Box) :=
  match box.BeforeSave L s newId with
  | .error err => .error err
  | .ok box =>
    if box.ID = 0 then
      let box := { box with ID := nextID (s.db.boxes.map Box.ID) }
      .ok ({ s with db := { s.db with boxes := s.db.boxes ++ [box] } }, box)
    else if s.db.boxes.any (fun row => row.ID = box.ID) then
      .ok ({ s with db := { s.db with boxes := s.db.boxes.map (fun row =>
          if row.ID = box.ID then box else row) } }, box)
    else
      .ok ({ s with db := { s.db with boxes := s.db.boxes ++ [box] } }, box)

/-- Modelled from the spec: `softDecode` for a catalog entry: every field
present in the external record overwrites, every absent field is kept. -/
def softDecodeBox (b : vagrant_server.Box) (box : Box) : Box :=
  { box with
    Directory := if b.Directory ≠ "" then b.Directory else box.Directory
    Metadata := if b.Metadata.isSome then b.Metadata else box.Metadata
    MetadataUrl := if b.MetadataUrl.isSome then b.MetadataUrl else box.MetadataUrl
    Name := if b.Name ≠ "" then b.Name else box.Name
    Provider := if b.Provider ≠ "" then b.Provider else box.Provider
    ResourceId := if b.ResourceId ≠ "" then b.ResourceId else box.ResourceId
    Version := if b.Version ≠ "" then b.Version else box.Version }

/-- The second half of `BoxPut`: the merge of the incoming record onto `box`
and the save. -/
def State.boxPutOnto (L : VersionLib) (s : State) (newId : Except Error String)
    (b : vagrant_server.Box) (box : Box) : Except Error State :=
  match s.upsertFullBox L newId (softDecodeBox b box) with
  | .error err => .error (saveErrorToStatus "box" err)
  | .ok (s, _) => .ok s

/-- The result is the store after the write; an error leaves the store as it
was. -/
def State.BoxPut (L : VersionLib) (s : State) (newId : Except Error String)
    (b : Option vagrant_server.Box) : Except Error State :=
  match b with
  | none => .error .NilDereference
  | some b =>
    match s.BoxFromProto (some b) with
    | .error err =>
      if !err.isNotFound then .error (lookupErrorToStatus "box" err)
      else s.boxPutOnto L newId b {}
    | .ok box => s.boxPutOnto L newId b box

/-- The statement `DELETE ... WHERE id = key`; without a key there is no
condition and the engine refuses (`ErrMissingWhereClause`). -/
def deleteByID {α : Type} (key : α → Nat) (id : Nat) (rows : List α) :
    Except Error (List α) :=
  if id = 0 then .error .ErrMissingWhereClause
  else .ok (rows.filter (fun row => key row ≠ id))

/-- The result is the store after the delete; an error leaves the store as it
was. -/
def State.BoxDelete (s : State) (b : Option vagrant_plugin_sdk.Ref_Box) :
    Except Error State :=
  match s.BoxFromProtoRef b with
  | .error err =>
    if err.isNotFound then .ok s else .error (deleteErrorToStatus "box" err)
  | .ok box =>
    match deleteByID Box.ID box.ID s.db.boxes with
    | .error err => .error (deleteErrorToStatus "box" err)
    | .ok boxes => .ok { s with db := { s.db with boxes := boxes } }

/-! ## Deleting targets (`target.go`) -/

/-- The chain `Where(q).Or(q').Or(q'')...` of struct conditions: a struct without
non-zero field adds no condition, the others are alternatives. -/
def orChain {α : Type} [DecidableEq α] (zero : α) (cond : α → α → Bool) (qs : List α)
    (row : α) : Bool :=
  match qs.filter (fun q => q ≠ zero) with
  | [] => true
  | alternatives => alternatives.any (fun q => cond q row)

def Target.find (s : state.State) (t : Target) : Except Error Target :=
  match First Target.ID
      (orChain {} Target.cond
        [ { ResourceId := t.ResourceId },
          { Uuid := t.Uuid },
          { ProjectID := t.ProjectID, Name := t.Name },
          { ID := t.ID } ])
      s.db.targets with
  | .error err => .error err
  | .ok target => .ok (s.loadTarget target)

/-- The association `Subtargets` as a query preloads it: the rows whose
`ParentID` is the key of the target. -/
def State.subtargetsOf (s : State) (t : Target) : List Target :=
  s.db.targets.filter (fun row => row.ParentID = some t.ID)

/-- The hook runs inside a delete; `delete` is `tx.Delete` on a list of
targets. -/
def Target.BeforeDelete (delete : state.State → List Target → Except Error state.State)
    (s : state.State) (t : Target) : Except Error state.State :=
  match t.find s with
  | .error err => .error err
  | .ok target =>
    if (s.subtargetsOf target).length > 0 then delete s (s.subtargetsOf target)
    else .ok s

/-- The rows left by `DELETE ... WHERE id IN (keys)`; zero keys are no keys, and
without a key there is no condition and the engine refuses. -/
def deleteByIDs {α : Type} (key : α → Nat) (ids : List Nat) (rows : List α) :
    Except Error (List α) :=
  if ids.all (fun id => id = 0) then .error .ErrMissingWhereClause
  else .ok (rows.filter (fun row => !ids.contains (key row) || key row = 0))

/-- The operation `tx.Delete(targets)`: the hook `BeforeDelete` of every target
of the list runs, in order, and then the rows of the list are deleted.  The
hook deletes subtargets through the same operation; `fuel` bounds the depth of
that nesting, and `RecursionLimit` stands for a nesting that does not end. -/
def State.deleteTargets : Nat → State → List Target → Except Error State
  | 0, _, _ => .error .RecursionLimit
  | fuel + 1, s, targets =>
    match targets.foldlM
        (fun s t => Target.BeforeDelete (State.deleteTargets fuel) s t) s with
    | .error err => .error err
    | .ok s =>
      match deleteByIDs Target.ID (targets.map Target.ID) s.db.targets with
      | .error err => .error err
      | .ok rows => .ok { s with db := { s.db with targets := rows } }

/-- The operation `s.db.Delete(target)`.  A nesting of subtargets deeper than
the number of stored targets passes through one target twice and does not end,
so that number bounds every nesting that ends. -/
def State.deleteTarget (s : State) (target : Target) : Except Error State :=
  s.deleteTargets (s.db.targets.length + 1) [target]

/-- The result is the store after the delete; an error leaves the store as it
was. -/
def State.TargetDelete (s : State) (t : Option vagrant_plugin_sdk.Ref_Target) :
    Except Error State :=
  match s.TargetFromProtoRef t with
  | .error err =>
    if err.isNotFound then .ok s else .error (lookupErrorToStatus "target" err)
  | .ok target =>
    match s.deleteTarget target with
    | .error err => .error (deleteErrorToStatus "target" err)
    | .ok s => .ok s

/-! ## Saving and deleting projects (`project.go`) -/

def Project.find (s : state.State) (p : Project) : Except Error Project :=
  match First Project.ID
      (orChain {} Project.cond
        [ { ResourceId := p.ResourceId },
          { BasisID := p.BasisID, Name := p.Name },
          { BasisID := p.BasisID, Path := p.Path },
          { ID := p.ID } ])
      s.db.projects with
  | .error err => .error err
  | .ok project => .ok (s.loadProject project)

/-- The association `Targets` as a query preloads it: the rows whose
`ProjectID` is the key of the project. -/
def State.targetsOf (s : State) (p : Project) : List Target :=
  s.db.targets.filter (fun row => row.ProjectID = p.ID)

/-- Modelled from the spec: the value of `ScopeType` for a job owned by a
project is the name of the project table. -/
def projectScopeType : String := "projects"

/-- The association `Jobs` as a query preloads it: the rows scoped to the
project. -/
def State.jobsOf (s : State) (p : Project) : List InternalJob :=
  s.db.jobs.filter (fun row => row.ScopeType = projectScopeType && row.ScopeID = p.ID)

/-- The first step of `Project.BeforeDelete`: the delete of the configuration
record under the key `VagrantfileID`, when the project has one. -/
def State.deleteConfiguration (s : State) (key : Option Nat) : Except Error State :=
  match key with
  | some id =>
    if id = 0 then .error .ErrMissingWhereClause
    else
      let rows := s.db.vagrantfiles.filter (fun row => !Vagrantfile.cond { ID := id } row)
      .ok { s with db := { s.db with vagrantfiles := rows } }
  | none => .ok s

/-- The second step of `Project.BeforeDelete`: `tx.Delete(project.Targets)` when
the project has targets. -/
def State.deleteTargetsOf (s : State) (targets : List Target) : Except Error State :=
  if targets.length > 0 then s.deleteTargets (s.db.targets.length + 1) targets
  else .ok s

/-- The third step of `Project.BeforeDelete`: `tx.Delete(project.Jobs)` when the
project has jobs. -/
def State.deleteJobsOf (s : State) (jobs : List InternalJob) : Except Error State :=
  if jobs.length > 0 then
    match deleteByIDs InternalJob.ID (jobs.map InternalJob.ID) s.db.jobs with
    | .error err => .error err
    | .ok rows => .ok { s with db := { s.db with jobs := rows } }
  else .ok s

def Project.BeforeDelete (s : state.State) (p : Project) : Except Error state.State :=
  match p.find s with
  | .error err => .error err
  | .ok project =>
    -- the associations were preloaded by `find`
    let targets := s.targetsOf project
    let jobs := s.jobsOf project
    match s.deleteConfiguration project.VagrantfileID with
    | .error err => .error err
    | .ok s =>
      match s.deleteTargetsOf targets with
      | .error err => .error err
      | .ok s => s.deleteJobsOf jobs

/-- The operation `s.db.Delete(project)`: the hook, then the row. -/
def State.deleteProject (s : State) (project : Project) : Except Error State :=
  match project.BeforeDelete s with
  | .error err => .error err
  | .ok s =>
    match deleteByID Project.ID project.ID s.db.projects with
    | .error err => .error err
    | .ok rows => .ok { s with db := { s.db with projects := rows } }

/-- The result is the store after the delete; an error leaves the store as it
was.  When the delete fails the code hands `err` to `deleteErrorToStatus`, the
variable of the resolution, which is nil at that point, not `result.Error`. -/
def State.ProjectDelete (s : State) (p : Option vagrant_plugin_sdk.Ref_Project) :
    Except Error State :=
  match s.ProjectFromProtoRef p with
  | .error err =>
    if err.isNotFound then .ok s else .error (deleteErrorToStatus "project" err)
  | .ok project =>
    match s.deleteProject project with
    | .error _ => .error (deleteErrorToStatusOfNil "project")
    | .ok s => .ok s

/-! ### Validation and saving of projects -/

/-- The call `tx.Statement.Changed("ResourceId")` in the save of a project: as
for a target, nothing counts as changed. -/
def State.projectResourceIdChanged (_s : State) (_p : Project) : Bool :=
  false

/-- The effective root scope of a project: `Basis.ID` when the associated
object is set, else the column `BasisID`. -/
def Project.basisID (p : Project) : Nat :=
  match p.Basis with
  | some basis => basis.ID
  | none => p.BasisID

/-- The rules of the field `Name` in `Project.Validate`. -/
def Project.nameField (s : state.State) (p : Project) : List (String × String) :=
  field "Name"
    [ required (p.Name = ""),
      when_ (p.ID ≠ 0) (checkUnique (s.db.projects.any (fun row =>
        Project.cond { Name := p.Name, BasisID := p.basisID } row &&
          !Project.cond { ID := p.ID } row))),
      when_ (p.ID = 0) (checkUnique (s.db.projects.any
        (Project.cond { Name := p.Name, BasisID := p.basisID }))) ]

def Project.Validate (s : state.State) (p : Project) : Except Error Unit :=
  validateStruct
    [ field "BasisID" [ when_ p.Basis.isNone (required (p.BasisID = 0)) ],
      field "Basis" [ when_ (p.BasisID = 0) (required p.Basis.isNone) ],
      p.nameField s,
      field "Path"
        [ required (p.Path = ""),
          when_ (p.ID ≠ 0) (checkUnique (s.db.projects.any (fun row =>
            Project.cond { Path := p.Path, BasisID := p.basisID } row &&
              !Project.cond { ID := p.ID } row))),
          when_ (p.ID = 0) (checkUnique (s.db.projects.any
            (Project.cond { Path := p.Path, BasisID := p.basisID }))) ],
      field "ResourceId"
        [ required (p.ResourceId = ""),
          when_ (p.ID = 0) (checkUnique (s.db.projects.any
            (Project.cond { ResourceId := p.ResourceId }))),
          when_ (p.ID ≠ 0) (checkNotModified (s.projectResourceIdChanged p)) ] ]

def Project.setId (newId : Except Error String) (p : Project) : Except Error Project :=
  match newId with
  | .error err => .error err
  | .ok id => .ok { p with ResourceId := id }

def Project.BeforeSave (s : state.State) (newId : Except Error String) (p : Project) :
    Except Error Project :=
  let withId := if p.ResourceId = "" then p.setId newId else .ok p
  match withId with
  | .error err => .error err
  | .ok p =>
    match p.Validate s with
    | .error err => .error err
    | .ok _ => .ok p

/-- The statement `tx.Save(&v)` on a configuration record: a record without key
is created under a new one, a record with a key replaces its row or is
inserted. -/
def State.saveVagrantfile (s : State) (v : Vagrantfile) : State × Vagrantfile :=
  if v.ID = 0 then
    let v := { v with ID := nextID (s.db.vagrantfiles.map Vagrantfile.ID) }
    ({ s with db := { s.db with vagrantfiles := s.db.vagrantfiles ++ [v] } }, v)
  else if s.db.vagrantfiles.any (fun row => row.ID = v.ID) then
    ({ s with db := { s.db with vagrantfiles := s.db.vagrantfiles.map (fun row =>
        if row.ID = v.ID then v else row) } }, v)
  else
    ({ s with db := { s.db with vagrantfiles := s.db.vagrantfiles ++ [v] } }, v)

/-- The hook of an update: a configuration given without key for a project
that already has one is written over the stored configuration record. -/
def Project.BeforeUpdate (s : state.State) (p : Project) :
    Except Error (state.State × Project) :=
  match p.Vagrantfile, p.VagrantfileID with
  | some given, some id =>
    if given.ID = 0 then
      match First state.Vagrantfile.ID (state.Vagrantfile.cond { ID := id })
          s.db.vagrantfiles with
      | .error err => .error err
      | .ok v =>
        -- decode(p.Vagrantfile, &v), then v.ID = id
        let v : state.Vagrantfile := { given with ID := v.ID }
        let saved := s.saveVagrantfile v
        .ok (saved.1, { p with Vagrantfile := some saved.2 })
    else .ok (s, p)
  | _, _ => .ok (s, p)

/-- The columns written for a project: the associated objects are not columns,
and the foreign keys follow them when they are set. -/
def Project.row (p : Project) : Project :=
  { p with
    Basis := none
    Vagrantfile := none
    BasisID := p.basisID
    VagrantfileID := match p.Vagrantfile with
      | some v => some v.ID
      | none => p.VagrantfileID }

/-- Modelled from the spec: `upsertFull` for a project.  The hook `BeforeSave`
runs first, then, for a record with a primary key, the hook `BeforeUpdate`;
the associated configuration record is saved with the project; the row is
created, or replaced with `ResourceId` (tagged `<-:create`) kept, as for a
target.  The associated root scope is not written. -/
def State.upsertFullProject (s : State) (newId : Except Error String) (project : Project) :
    Except Error (State × Project) :=
  match project.BeforeSave s newId with
  | .error err => .error err
  | .ok project =>
    let hooked : Except Error (State × Project) :=
      if project.ID ≠ 0 then project.BeforeUpdate s else .ok (s, project)
    match hooked with
    | .error err => .error err
    | .ok (s, project) =>
      let withConfiguration : State × Project :=
        match project.Vagrantfile with
        | some v =>
          let saved := s.saveVagrantfile v
          (saved.1, { project with Vagrantfile := some saved.2 })
        | none => (s, project)
      let s := withConfiguration.1
      let project := withConfiguration.2
      if project.ID = 0 then
        let project := { project with ID := nextID (s.db.projects.map Project.ID) }
        .ok ({ s with db := { s.db with projects := s.db.projects ++ [project.row] } },
          project)
      else if s.db.projects.any (fun row => row.ID = project.ID) then
        .ok ({ s with db := { s.db with projects := s.db.projects.map (fun row =>
            if row.ID = project.ID then { project.row with ResourceId := row.ResourceId }
            else row) } }, project)
      else
        .ok ({ s with db := { s.db with projects := s.db.projects ++ [project.row] } },
          project)

/-- Modelled from the spec: the resolution of a reference to a root scope by
its stable identifier (`BasisFromProtoRef` is outside these sources). -/
def State.BasisFromProtoRef (s : State) (ref : vagrant_plugin_sdk.Ref_Basis) :
    Except Error Basis :=
  if ref.ResourceId = "" then .error .ErrRecordNotFound
  else First Basis.ID (Basis.cond { ResourceId := ref.ResourceId }) s.db.bases

/-- Modelled from the spec: `softDecode` for a project.  Every field present in
the external record overwrites, every absent field is kept; a reference to a
root scope is resolved to the stored record; a configuration is merged onto
the configuration of the project. -/
def State.softDecodeProject (s : State) (p : vagrant_server.Project) (project : Project) :
    Except Error Project :=
  let basis : Except Error (Option Basis) :=
    match p.Basis with
    | none => .ok project.Basis
    | some ref =>
      match s.BasisFromProtoRef ref with
      | .error err => .error err
      | .ok basis => .ok (some basis)
  match basis with
  | .error err => .error err
  | .ok basis =>
    .ok { project with
      ResourceId := if p.ResourceId ≠ "" then p.ResourceId else project.ResourceId
      Name := if p.Name ≠ "" then p.Name else project.Name
      Path := if p.Path ≠ "" then p.Path else project.Path
      RemoteEnabled := p.RemoteEnabled || project.RemoteEnabled
      DataSource := if p.DataSource.isSome then p.DataSource else project.DataSource
      Basis := basis
      Vagrantfile :=
        match p.Configuration with
        | none => project.Vagrantfile
        | some given =>
          let old : Vagrantfile := project.Vagrantfile.getD {}
          some { old with
            Unfinalized := if given.Unfinalized.isSome then given.Unfinalized
              else old.Unfinalized
            Finalized := if given.Finalized.isSome then given.Finalized
              else old.Finalized } }

/-- The step of `ProjectPut` between the merge and the save: a configuration
that comes in without finalized part resets the finalized part of the
project's configuration. -/
def resetFinalized (p : vagrant_server.Project) (project : Project) : Except Error Project :=
  match p.Configuration with
  | none => .ok project
  | some given =>
    if given.Finalized.isNone then
      match project.Vagrantfile with
      | none => .error .NilDereference
      | some v => .ok { project with Vagrantfile := some { v with Finalized := none } }
    else .ok project

/-- The second half of `ProjectPut`: the merge of the incoming record (its
root scope already dropped when a project was found) onto `project`, the reset
of a configuration that is not finalized, and the save. -/
def State.projectPutOnto (s : State) (newId : Except Error String)
    (p : vagrant_server.Project) (project : Project) :
    Except Error (State × vagrant_server.Project) :=
  match s.softDecodeProject p project with
  | .error err => .error (saveErrorToStatus "project" err)
  | .ok project =>
    match resetFinalized p project with
    | .error err => .error err
    | .ok project =>
      match s.upsertFullProject newId project with
      | .error err => .error (saveErrorToStatus "project" err)
      | .ok (s, project) => .ok (s, project.ToProto)

def State.ProjectPut (s : State) (newId : Except Error String)
    (p : Option vagrant_server.Project) : Except Error (State × vagrant_server.Project) :=
  match s.ProjectFromProto p with
  | .error err =>
    if !err.isNotFound then .error (lookupErrorToStatus "project" err)
    else
      match p with
      | none => .error .NilDereference
      | some p => s.projectPutOnto newId p {}
  | .ok project =>
    match p with
    | none => .error .NilDereference
    | some p => s.projectPutOnto newId { p with Basis := none } project

/-- The record that `Box.BeforeSave` hands to `Validate` when the identifier
generator returns `id`: with `id` if it had no identifier, and with the version
default applied. -/
def Box.prepared (id : String) (b : Box) : Box :=
  let b := if b.ResourceId = "" then { b with ResourceId := id } else b
  if b.Version = "" || b.Version = "0" then { b with Version := DEFAULT_BOX_VERSION } else b

/-! ## Consistency of the tables -/

/-- Two catalog entries with the same name, provider and version. -/
def Box.sameTriple (a b : Box) : Prop :=
  a.Name = b.Name ∧ a.Provider = b.Provider ∧ a.Version = b.Version

/-- No two rows of the catalog share a primary key or a (name, provider,
version) triple. -/
def State.TripleUnique (s : State) : Prop :=
  s.db.boxes.Pairwise (fun a b => a.ID ≠ b.ID ∧ ¬ a.sameTriple b)

/-! ## The stable identifier in the tables -/

/-- The stable identifier stored under the primary key `key` of the catalog. -/
def State.boxResourceId (s : State) (key : Nat) : Option String :=
  (s.db.boxes.find? (fun row => row.ID = key)).map Box.ResourceId

/-- The stable identifier stored under the primary key `key` of the projects. -/
def State.projectResourceId (s : State) (key : Nat) : Option String :=
  (s.db.projects.find? (fun row => row.ID = key)).map Project.ResourceId

/-- The stable identifier stored under the primary key `key` of the targets. -/
def State.targetResourceId (s : State) (key : Nat) : Option String :=
  (s.db.targets.find? (fun row => row.ID = key)).map Target.ResourceId

/-- One successful save (`upsertFull`) of a record of one of the three
entities. -/
inductive Save (L : VersionLib) : State → State → Prop where
  | box (s s' : State) (newId : Except Error String) (box stored : Box) :
      s.upsertFullBox L newId box = .ok (s', stored) → Save L s s'
  | project (s s' : State) (newId : Except Error String) (project stored : Project) :
      s.upsertFullProject newId project = .ok (s', stored) → Save L s s'
  | target (s s' : State) (newId : Except Error String) (target stored : Target) :
      s.upsertFullTarget newId target = .ok (s', stored) → Save L s s'

/-- One successful Put of a record of one of the three entities. -/
inductive Put (P : Platform) : State → State → Prop where
  | box (s s' : State) (newId : Except Error String) (b : Option vagrant_server.Box) :
      s.BoxPut P.versions newId b = .ok s' → Put P s s'
  | project (s s' : State) (newId : Except Error String)
      (p : Option vagrant_server.Project) (out : vagrant_server.Project) :
      s.ProjectPut newId p = .ok (s', out) → Put P s s'
  | target (s s' : State) (newId : Except Error String)
      (t : Option vagrant_server.Target) (out : vagrant_server.Target) :
      s.TargetPut P newId t = .ok (s', out) → Put P s s'

/-- The constraints that the schema and the validation put on the tables that
the cascade of a delete reads: unique primary keys, the unique indexes of the
projects (`ResourceId`, name and path within a root scope) and of the targets
(`ResourceId`, `Uuid`), columns that are not null, a configuration record
that belongs to one project, and subtargets in the project of their parent. -/
structure State.Consistent (s : State) : Prop where
  projectKey : ∀ a ∈ s.db.projects, ∀ b ∈ s.db.projects, a.ID = b.ID → a = b
  projectResourceId : ∀ a ∈ s.db.projects, ∀ b ∈ s.db.projects,
    a.ResourceId = b.ResourceId → a = b
  projectName : ∀ a ∈ s.db.projects, ∀ b ∈ s.db.projects,
    a.BasisID = b.BasisID → a.Name = b.Name → a = b
  projectPath : ∀ a ∈ s.db.projects, ∀ b ∈ s.db.projects,
    a.BasisID = b.BasisID → a.Path = b.Path → a = b
  projectNotNull : ∀ a ∈ s.db.projects, a.BasisID ≠ 0 ∧ a.Name ≠ "" ∧ a.Path ≠ ""
  configuration : ∀ a ∈ s.db.projects, ∀ b ∈ s.db.projects,
    a.VagrantfileID.isSome → a.VagrantfileID = b.VagrantfileID → a = b
  targetKey : ∀ a ∈ s.db.targets, ∀ b ∈ s.db.targets, a.ID = b.ID → a = b
  targetNotNull : ∀ a ∈ s.db.targets, a.ID ≠ 0
  targetResourceId : ∀ a ∈ s.db.targets, ∀ b ∈ s.db.targets,
    a.ResourceId = b.ResourceId → a = b
  targetUuid : ∀ a ∈ s.db.targets, ∀ b ∈ s.db.targets,
    a.Uuid.isSome → a.Uuid = b.Uuid → a = b
  subtargets : ∀ a ∈ s.db.targets, ∀ b ∈ s.db.targets,
    a.ParentID = some b.ID → a.ProjectID = b.ProjectID
  jobKey : ∀ a ∈ s.db.jobs, ∀ b ∈ s.db.jobs, a.ID = b.ID → a = b
  jobNotNull : ∀ a ∈ s.db.jobs, a.ID ≠ 0

/-- The store `cur'` is the store `cur` with some targets of the project `k`
removed: what is left of the targets was there, the targets of the other
projects are all there, and the other tables are as they were. -/
def State.Cascade (k : Nat) (cur cur' : State) : Prop :=
  (∀ row ∈ cur'.db.targets, row ∈ cur.db.targets) ∧
  cur'.db.targets.filter (fun row => row.ProjectID ≠ k) =
    cur.db.targets.filter (fun row => row.ProjectID ≠ k) ∧
  cur'.db.bases = cur.db.bases ∧ cur'.db.vagrantfiles = cur.db.vagrantfiles ∧
  cur'.db.projects = cur.db.projects ∧ cur'.db.boxes = cur.db.boxes ∧
  cur'.db.jobs = cur.db.jobs

end state

namespace plugin

/-! ## Plugin instances (`internal/plugin/factory.go`) -/

/-- A pointer `*Instance`: nil, or the address of an instance. -/
abbrev Ptr := Option Nat

/-- The result generated by the factory (`Instance`), with the fields that
`Parents` reads: the name of the plugin and the pointer to the parent
component.  The other fields (`Type`, `Component`, `Options`, `Mappers`,
`Broker`, `Close`) are not read by it. -/
structure Instance where
  Name : String := ""
  Parent : Ptr := none
deriving DecidableEq, Repr

/-- The memory that the pointers point into: every address holds an instance,
so a pointer that is not nil can be followed, and a chain of parents may well
run into itself. -/
abbrev Heap := Nat → Instance

/-- The loop `for p := i; p != nil; p = p.Parent { n = append(n, p.Name) }` with
the slice `n` built so far.  One unit of `fuel` is one iteration; `none` is a
loop that has not ended when the fuel is used up. -/
def parentsLoop (h : Heap) : Nat → Ptr → List String → Option (List String)
  | _, none, n => some n
  | 0, some _, _ => none
  | fuel + 1, some a, n => parentsLoop h fuel (h a).Parent (n ++ [(h a).Name])

/-- The method `(i *Instance) Parents()`: the loop from `i` with `n := []string{}`. -/
def Instance.Parents (h : Heap) (fuel : Nat) (i : Ptr) : Option (List String) :=
  parentsLoop h fuel i []

/-- The method `(i *Instance) ParentCount()`: `len(i.Parents())`. -/
def Instance.ParentCount (h : Heap) (fuel : Nat) (i : Ptr) : Option Nat :=
  (Instance.Parents h fuel i).map List.length

/-- The parent chain of `i` is finite: `chain` lists the addresses from `i`
itself to the instance without parent, in order. -/
inductive Chain (h : Heap) : Ptr → List Nat → Prop where
  | root : Chain h none []
  | link (a : Nat) (chain : List Nat) :
      Chain h (h a).Parent chain → Chain h (some a) (a :: chain)

namespace examples

/-- Three instances in a row: `leaf` at address 2 has the parent `mid` at
address 1, whose parent is `top` at address 0; every other address holds an
instance that is its own parent. -/
def family : Heap
  | 0 => { Name := "top" }
  | 1 => { Name := "mid", Parent := some 0 }
  | 2 => { Name := "leaf", Parent := some 1 }
  | a + 3 => { Name := "loop", Parent := some (a + 3) }

end examples

end plugin

namespace state

/-! ## Stores used to evaluate the code -/

namespace examples

/-- A catalog entry of the name `ubuntu` for the provider `virtualbox`. -/
def ubuntu (id : Nat) (version : String) : Box :=
  { ID := id, Directory := "/boxes/ubuntu/" ++ version, Name := "ubuntu",
    Provider := "virtualbox", ResourceId := "box-" ++ version, Version := version }

/-- A catalog whose only entry is stored at the default version. -/
def defaultCatalog : State :=
  { db := { boxes := [ubuntu 1 "0.0.0"] } }

/-- A catalog with three versions of one name, stored in ascending order. -/
def catalog : State :=
  { db := { boxes := [ubuntu 1 "1.0.0", ubuntu 2 "1.5.0", ubuntu 3 "2.0.0"] } }

/-- A store with one root scope, two projects and two targets of the first
project. -/
def workspace : State :=
  { db :=
    { bases := [{ ID := 1, Name := "b", Path := "/b", ResourceId := "basis-1" }]
      projects :=
        [ { ID := 1, BasisID := 1, Name := "p1", Path := "/a", ResourceId := "project-1" },
          { ID := 2, BasisID := 1, Name := "p2", Path := "/c", ResourceId := "project-2" } ]
      targets :=
        [ { ID := 1, ProjectID := 1, Name := "t1", ResourceId := "target-1", State := 2,
            Record := some "record", Configuration := some "config", Uuid := some "uuid-1" },
          { ID := 2, ProjectID := 1, Name := "t2", ResourceId := "target-2", State := 3,
            Uuid := some "uuid-2" } ]
      boxes := [ubuntu 1 "1.0.0"] } }

/-- A Put that identifies `target-1` by its identifier and supplies only a new
name. -/
def rename : vagrant_server.Target :=
  { ResourceId := "target-1", Name := "renamed" }

/-- The example store after the Put of `rename`. -/
def workspaceRenamed : State :=
  { db :=
    { workspace.db with
      targets :=
        [ { ID := 1, ProjectID := 1, Name := "renamed", ResourceId := "target-1", State := 0,
            Record := some "record", Configuration := some "config", Uuid := some "uuid-1" },
          { ID := 2, ProjectID := 1, Name := "t2", ResourceId := "target-2", State := 3,
            Uuid := some "uuid-2" } ] } }

/-- The record that the Put of `rename` returns. -/
def renamed : vagrant_server.Target :=
  { ResourceId := "target-1", Name := "renamed",
    Project := some
      { ResourceId := "project-1", Name := "p1", Path := "/a",
        Basis := some { ResourceId := "basis-1", Name := "b", Path := "/b" } },
    Uuid := "uuid-1", State := 0, Record := some "record", Configuration := some "config" }

/-- A store with two projects: `project-1` with its configuration record, two
targets and one job, and the unrelated `project-2` with its own. -/
def fleet : State :=
  { db :=
    { bases := [{ ID := 1, Name := "b", Path := "/b", ResourceId := "basis-1" }]
      vagrantfiles :=
        [ { ID := 1, Unfinalized := some "one" }, { ID := 2, Unfinalized := some "two" } ]
      projects :=
        [ { ID := 1, BasisID := 1, Name := "p1", Path := "/a", ResourceId := "project-1",
            VagrantfileID := some 1 },
          { ID := 2, BasisID := 1, Name := "p2", Path := "/c", ResourceId := "project-2",
            VagrantfileID := some 2 } ]
      targets :=
        [ { ID := 1, ProjectID := 1, Name := "t1", ResourceId := "target-1" },
          { ID := 2, ProjectID := 1, Name := "t2", ResourceId := "target-2" },
          { ID := 3, ProjectID := 2, Name := "t3", ResourceId := "target-3" } ]
      jobs :=
        [ { ID := 1, ScopeID := 1, ScopeType := "projects" },
          { ID := 2, ScopeID := 2, ScopeType := "projects" } ] } }

/-- The store `fleet` after the delete of `project-1`. -/
def fleetWithoutFirst : State :=
  { db :=
    { bases := [{ ID := 1, Name := "b", Path := "/b", ResourceId := "basis-1" }]
      vagrantfiles := [{ ID := 2, Unfinalized := some "two" }]
      projects :=
        [ { ID := 2, BasisID := 1, Name := "p2", Path := "/c", ResourceId := "project-2",
            VagrantfileID := some 2 } ]
      targets := [{ ID := 3, ProjectID := 2, Name := "t3", ResourceId := "target-3" }]
      jobs := [{ ID := 2, ScopeID := 2, ScopeType := "projects" }] } }

/-- A store whose project `project-1` has the target `t1` and its subtarget
`t2`: the cascade of the project deletes `t2` with `t1` and then fails to find
`t2` for its own hook. -/
def nested : State :=
  { db :=
    { bases := [{ ID := 1, Name := "b", Path := "/b", ResourceId := "basis-1" }]
      projects :=
        [ { ID := 1, BasisID := 1, Name := "p1", Path := "/a", ResourceId := "project-1" } ]
      targets :=
        [ { ID := 1, ProjectID := 1, Name := "t1", ResourceId := "target-1" },
          { ID := 2, ProjectID := 1, Name := "t2", ResourceId := "target-2",
            ParentID := some 1 } ] } }

/-- A subtarget whose associated project and whose parent are of project `1`
while its column `ProjectID` still holds the key `2`. -/
def staleKey : Target :=
  { Name := "sub", ResourceId := "target-9",
    Project := some { ID := 1, BasisID := 1, Name := "p1", Path := "/a",
                      ResourceId := "project-1" },
    ProjectID := 2,
    Parent := some { ID := 1, ResourceId := "target-1", ProjectID := 1 } }

/-- A subtarget of the project `2` that declares the stored target `1`, of the
project `1`, as its parent by the key. -/
def foreignSub : Target :=
  { Name := "sub", ResourceId := "target-9",
    Project := some { ID := 2, BasisID := 1, Name := "p2", Path := "/c",
                      ResourceId := "project-2" },
    ParentID := some 1 }

/-- A second entry with the triple of the stored `ubuntu` `1.0.0`, in another
directory. -/
def duplicate : vagrant_server.Box :=
  { Name := "ubuntu", Provider := "virtualbox", Version := "1.0.0",
    Directory := "/boxes/copy" }

/-- A catalog entry given without version. -/
def unversioned : Box :=
  { Directory := "/boxes/debian", Name := "debian", Provider := "virtualbox" }

/-- A store with two root scopes and no project. -/
def scopes : State :=
  { db :=
    { bases := [ { ID := 1, Name := "b", Path := "/b", ResourceId := "basis-1" },
                 { ID := 2, Name := "c", Path := "/c", ResourceId := "basis-2" } ] } }

/-- A new project `p1` at `/a` under the root scope `basis-1`. -/
def first : vagrant_server.Project :=
  { Name := "p1", Path := "/a", Basis := some { ResourceId := "basis-1" } }

/-- A new project with the name of `first`, at `/b` under the same root
scope. -/
def second : vagrant_server.Project :=
  { Name := "p1", Path := "/b", Basis := some { ResourceId := "basis-1" } }

/-- The store `scopes` after the save of `first` under the identifier
`project-1`. -/
def scopesWithFirst : State :=
  { scopes with db := { scopes.db with
      projects :=
        [ { ID := 1, BasisID := 1, Name := "p1", Path := "/a", ResourceId := "project-1" } ] } }

/-- The record returned by the save of `first`. -/
def firstStored : vagrant_server.Project :=
  { ResourceId := "project-1", Name := "p1", Path := "/a",
    Basis := some { ResourceId := "basis-1", Name := "b", Path := "/b" } }

/-- The store `scopesWithFirst` after the save of `second` under the root scope
`basis-2`: each of the two root scopes has a project `p1`. -/
def twoScopes : State :=
  { scopes with db := { scopes.db with
      projects :=
        [ { ID := 1, BasisID := 1, Name := "p1", Path := "/a", ResourceId := "project-1" },
          { ID := 2, BasisID := 2, Name := "p1", Path := "/b", ResourceId := "project-9" } ] } }

/-- A new target `t1` of the project `project-1`, given without identifier. -/
def newTarget : vagrant_server.Target :=
  { Name := "t1", Project := some { ResourceId := "project-1" } }

/-- The store `scopesWithFirst` after the Put of `newTarget` under the
generated identifier `target-1`. -/
def scopesWithTarget : State :=
  { scopes with db := { scopesWithFirst.db with
      targets := [ { ID := 1, ProjectID := 1, Name := "t1", ResourceId := "target-1" } ] } }

/-- The target `t1` of `project-1` in the state `2`, given under another
identifier than the stored one. -/
def relabelled : vagrant_server.Target :=
  { ResourceId := "target-9", Name := "t1", Project := some { ResourceId := "project-1" },
    State := 2 }

/-- The store `scopesWithTarget` after the Put of `relabelled`: the row has the
new state and the identifier it was created with. -/
def scopesRelabelled : State :=
  { scopes with db := { scopesWithFirst.db with
      targets :=
        [ { ID := 1, ProjectID := 1, Name := "t1", ResourceId := "target-1", State := 2 } ] } }

/-- A new catalog entry, given without identifier. -/
def newBox : vagrant_server.Box :=
  { Name := "ubuntu", Provider := "virtualbox", Version := "1.0.0",
    Directory := "/boxes/ubuntu/1.0.0" }

/-- The store `scopesRelabelled` after the Put of `newBox` under the generated
identifier `box-1`. -/
def scopesCatalogued : State :=
  { scopes with db := { scopesRelabelled.db with
      boxes :=
        [ { ID := 1, Directory := "/boxes/ubuntu/1.0.0", Name := "ubuntu",
            Provider := "virtualbox", ResourceId := "box-1", Version := "1.0.0" } ] } }

end examples

/-! ## Queries -/

theorem leastBy_eq_none {α : Type} (key : α → Nat) (rows : List α) :
    leastBy key rows = none ↔ rows = [] := by
  cases rows with
  | nil => simp [leastBy]
  | cons r rs =>
    simp only [leastBy]
    cases leastBy key rs with
    | none => simp
    | some m => by_cases h : key m < key r <;> simp [h]

theorem leastBy_mem {α : Type} (key : α → Nat) (rows : List α) (r : α)
    (h : leastBy key rows = some r) : r ∈ rows := by
  induction rows generalizing r with
  | nil => simp [leastBy] at h
  | cons a rs ih =>
    simp only [leastBy] at h
    cases hm : leastBy key rs with
    | none =>
      rw [hm] at h
      simp at h
      simp [h]
    | some m =>
      rw [hm] at h
      by_cases hlt : key m < key a
      · simp [hlt] at h
        subst h
        exact List.mem_cons_of_mem _ (ih m hm)
      · simp [hlt] at h
        simp [h]

theorem First_ok {α : Type} (key : α → Nat) (cond : α → Bool) (rows : List α) (r : α)
    (h : First key cond rows = .ok r) : r ∈ rows ∧ cond r = true := by
  unfold First at h
  cases hm : leastBy key (rows.filter cond) with
  | none => rw [hm] at h; cases h
  | some m =>
    rw [hm] at h
    cases h
    exact List.mem_filter.mp (leastBy_mem key _ _ hm)

theorem First_error {α : Type} (key : α → Nat) (cond : α → Bool) (rows : List α) (e : Error)
    (h : First key cond rows = .error e) :
    e = .ErrRecordNotFound ∧ ∀ r ∈ rows, cond r = false := by
  unfold First at h
  cases hm : leastBy key (rows.filter cond) with
  | none =>
    rw [hm] at h
    cases h
    refine ⟨rfl, ?_⟩
    have hnil := (leastBy_eq_none key _).mp hm
    intro r hr
    by_contra hc
    have : r ∈ rows.filter cond := List.mem_filter.mpr ⟨hr, by simpa using hc⟩
    rw [hnil] at this
    cases this
  | some m => rw [hm] at h; cases h

theorem First_of_none {α : Type} (key : α → Nat) (cond : α → Bool) (rows : List α)
    (h : ∀ r ∈ rows, cond r = false) : First key cond rows = .error .ErrRecordNotFound := by
  have hnil : rows.filter cond = [] := by
    rw [List.filter_eq_nil_iff]
    intro r hr
    simp [h r hr]
  simp [First, hnil, leastBy]

theorem First_of_mem {α : Type} (key : α → Nat) (cond : α → Bool) (rows : List α) (r : α)
    (hr : r ∈ rows) (hc : cond r = true) :
    ∃ m, First key cond rows = .ok m ∧ m ∈ rows ∧ cond m = true := by
  cases h : First key cond rows with
  | error e =>
    have := (First_error key cond rows e h).2 r hr
    rw [hc] at this
    cases this
  | ok m => exact ⟨m, rfl, First_ok key cond rows m h⟩

/-! ## The catalog matcher -/

/-- C1: `BoxFind` with a range constraint does not always return the satisfying
entry of maximal version.  An entry stored at `0.0.0` satisfies `>=0.0,<1.0` and
is the only candidate, yet the result is nil under either scoping of the loop
variable, because the running maximum starts at `0.0.0` and is compared
strictly; and with one loop variable for the whole loop the versions `1.0.0`,
`1.5.0`, `2.0.0` under `>1.0,<2.0` yield the last candidate `2.0.0`. -/
theorem BoxFind_range_not_maximal :
    (∀ perIteration,
      examples.defaultCatalog.BoxFind (numericPlatform perIteration)
        (some { Name := "ubuntu", Version := ">=0.0,<1.0" }) = .ok none) ∧
    (∃ c v, numericVersions.NewConstraint ">=0.0,<1.0" = some c ∧
      numericVersions.NewVersion "0.0.0" = some v ∧ numericVersions.Check c v = true) ∧
    examples.catalog.BoxFind (numericPlatform false)
      (some { Name := "ubuntu", Version := ">1.0,<2.0" }) =
        .ok (some (examples.ubuntu 3 "2.0.0").ToProto) ∧
    examples.catalog.BoxFind (numericPlatform true)
      (some { Name := "ubuntu", Version := ">1.0,<2.0" }) =
        .ok (some (examples.ubuntu 2 "1.5.0").ToProto) := by
  refine ⟨?_, ⟨_, _, rfl, rfl, rfl⟩, rfl, rfl⟩
  intro perIteration
  cases perIteration <;> rfl

/-- C2: with an empty version expression `BoxFind` applies the constraint `> 0`,
which the default version `0.0.0` does not satisfy: the only stored entry of the
name (and provider) is at `0.0.0` and the result is nil, with and without the
provider and under either scoping of the loop variable. -/
theorem BoxFind_empty_version_misses_default :
    ∀ perIteration,
      examples.defaultCatalog.BoxFind (numericPlatform perIteration)
        (some { Name := "ubuntu", Provider := "virtualbox", Version := "" }) = .ok none ∧
      examples.defaultCatalog.BoxFind (numericPlatform perIteration)
        (some { Name := "ubuntu", Version := "" }) = .ok none := by
  intro perIteration
  cases perIteration <;> exact ⟨rfl, rfl⟩

/-- C3: the literal version `0` without a provider is parsed as the constraint
`0.0.0` and run through the matcher, which never selects an entry at `0.0.0`:
the result is nil although the entry is stored, whereas the same query with the
provider returns it by direct lookup. -/
theorem BoxFind_zero_literal_without_provider :
    ∀ perIteration,
      examples.defaultCatalog.BoxFind (numericPlatform perIteration)
        (some { Name := "ubuntu", Version := "0" }) = .ok none ∧
      examples.defaultCatalog.BoxFind (numericPlatform perIteration)
        (some { Name := "ubuntu", Provider := "virtualbox", Version := "0" }) =
          .ok (some (examples.ubuntu 1 "0.0.0").ToProto) := by
  intro perIteration
  cases perIteration <;> exact ⟨rfl, rfl⟩

/-- C7 (as amended): for a query with no stable identifier, a non-empty name
and a version expression that the library parses neither as a version nor as a
constraint (and that is neither empty nor the literal `0`), `BoxFind` returns
nil with no error when no stored entry matches the name (and provider), and
the lookup error of the malformed constraint as soon as one entry matches. -/
theorem BoxFind_malformed_constraint (P : Platform) (s : State)
    (b : vagrant_plugin_sdk.Ref_Box)
    (hid : b.ResourceId = "") (hname : b.Name ≠ "")
    (hempty : b.Version ≠ "") (hzero : b.Version ≠ "0")
    (hversion : P.versions.NewVersion b.Version = none)
    (hconstraint : P.versions.NewConstraint b.Version = none) :
    s.BoxFind P (some b) =
      if (s.db.boxes.filter (Box.cond { Name := b.Name, Provider := b.Provider })).length < 1
      then .ok none
      else .error (lookupErrorToStatus "box" (.Malformed b.Version)) := by
  simp only [State.BoxFind, State.boxFindNamed, Option.getD_some, hid, hname, hzero, hempty,
    hversion, hconstraint, ne_eq, not_true_eq_false, if_false, Option.isSome_none,
    Bool.false_and, Bool.false_eq_true]

/-- C7 (witness): the expression `latest!` against the three-version catalog. -/
theorem BoxFind_malformed_constraint_witness :
    examples.catalog.BoxFind (numericPlatform true)
        (some { Name := "ubuntu", Version := "latest!" }) =
      if (examples.catalog.db.boxes.filter
          (Box.cond { Name := "ubuntu", Provider := "" })).length < 1
      then .ok none
      else .error (lookupErrorToStatus "box" (.Malformed "latest!")) :=
  BoxFind_malformed_constraint (numericPlatform true) examples.catalog
    { Name := "ubuntu", Version := "latest!" } rfl (by decide) (by decide) (by decide) rfl rfl

/-- C7 (as stated, refuted): the expression `latest!` is neither a version nor a
constraint, and against a store with no entry of the name `BoxFind` returns nil
with no error. -/
theorem BoxFind_unparseable_without_candidate :
    numericVersions.NewVersion "latest!" = none ∧
    numericVersions.NewConstraint "latest!" = none ∧
    ({} : State).BoxFind (numericPlatform true)
      (some { Name := "ubuntu", Version := "latest!" }) = .ok none ∧
    examples.catalog.BoxFind (numericPlatform true)
      (some { Name := "debian", Version := "latest!" }) = .ok none :=
  ⟨rfl, rfl, rfl, rfl⟩

/-! ## Resolution of references -/

theorem ProjectFromProtoRef_error (s : State) (ref : vagrant_plugin_sdk.Ref_Project)
    (e : Error) (h : s.ProjectFromProtoRef (some ref) = .error e) :
    e = .ErrRecordNotFound := by
  simp only [State.ProjectFromProtoRef] at h
  split at h
  · cases h; rfl
  · split at h
    · rename_i err herr
      cases h
      exact (First_error _ _ _ _ herr).1
    · cases h

theorem TargetFromProtoRef_error (s : State) (ref : vagrant_plugin_sdk.Ref_Target)
    (e : Error) (h : s.TargetFromProtoRef (some ref) = .error e) :
    e = .ErrRecordNotFound := by
  simp only [State.TargetFromProtoRef] at h
  split at h
  · cases h; rfl
  · split at h
    · rename_i err herr
      cases h
      exact (First_error _ _ _ _ herr).1
    · cases h

/-- After the lookup by identifier, whatever it gave, `ProjectFromProtoRefFuzzy`
resolves by root scope and natural keys. -/
theorem ProjectFromProtoRefFuzzy_some (s : State) (ref : vagrant_plugin_sdk.Ref_Project) :
    s.ProjectFromProtoRefFuzzy (some ref) =
      match ref.Basis with
      | none => .error .ErrMissingProtoParent
      | some basis => s.projectByScope basis ref := by
  simp only [State.ProjectFromProtoRefFuzzy]
  cases h : s.ProjectFromProtoRef (some ref) with
  | ok _ => rfl
  | error e =>
    have := ProjectFromProtoRef_error s ref e h
    subst this
    simp [Error.isNotFound]

/-- After the lookup by identifier, whatever it gave, `TargetFromProtoRefFuzzy`
resolves by project scope and name. -/
theorem TargetFromProtoRefFuzzy_some (s : State) (ref : vagrant_plugin_sdk.Ref_Target) :
    s.TargetFromProtoRefFuzzy (some ref) =
      match ref.Project with
      | none => .error .ErrMissingProtoParent
      | some project => s.targetByScope project ref := by
  simp only [State.TargetFromProtoRefFuzzy]
  cases h : s.TargetFromProtoRef (some ref) with
  | ok _ => rfl
  | error e =>
    have := TargetFromProtoRef_error s ref e h
    subst this
    simp [Error.isNotFound]

/-- The condition built from the natural keys of a project reference. -/
theorem Project_cond_keys (name path : String) (row : Project) :
    Project.cond
        { Name := if name ≠ "" then name else "", Path := if path ≠ "" then path else "" } row
      = true ↔ (name ≠ "" → row.Name = name) ∧ (path ≠ "" → row.Path = path) := by
  by_cases hn : name = "" <;> by_cases hp : path = "" <;> simp [Project.cond, hn, hp]

/-- The row with the least key has a key below that of every row. -/
theorem leastBy_le {α : Type} (key : α → Nat) (rows : List α) (m : α)
    (h : leastBy key rows = some m) : ∀ r ∈ rows, key m ≤ key r := by
  induction rows generalizing m with
  | nil => simp [leastBy] at h
  | cons a as ih =>
    intro r hr
    simp only [leastBy] at h
    cases hl : leastBy key as with
    | none =>
      rw [hl] at h
      simp only [Option.some.injEq] at h
      subst h
      rw [(leastBy_eq_none key as).mp hl] at hr
      rw [List.mem_singleton.mp hr]
    | some m0 =>
      rw [hl] at h
      simp only at h
      have hm0 := ih m0 hl
      by_cases hlt : key m0 < key a
      · rw [if_pos hlt] at h
        simp only [Option.some.injEq] at h
        subst h
        rcases List.mem_cons.mp hr with hr | hr
        · rw [hr]
          exact Nat.le_of_lt hlt
        · exact hm0 r hr
      · rw [if_neg hlt] at h
        simp only [Option.some.injEq] at h
        subst h
        rcases List.mem_cons.mp hr with hr | hr
        · rw [hr]
        · exact Nat.le_trans (Nat.le_of_not_lt hlt) (hm0 r hr)

/-- The row that `First` returns has the least key among the rows that meet the
condition. -/
theorem First_le {α : Type} (key : α → Nat) (cond : α → Bool) (rows : List α) (m : α)
    (h : First key cond rows = .ok m) : ∀ r ∈ rows, cond r = true → key m ≤ key r := by
  unfold First at h
  cases hm : leastBy key (rows.filter cond) with
  | none => rw [hm] at h; cases h
  | some m0 =>
    rw [hm] at h
    cases h
    intro r hr hc
    exact leastBy_le key _ m hm r (List.mem_filter.mpr ⟨hr, hc⟩)

/-- The lookup by natural keys takes no condition from the root scope that the
reference supplies. -/
theorem projectByScope_any_scope (s : State) (ref : vagrant_plugin_sdk.Ref_Project)
    (basis other : vagrant_plugin_sdk.Ref_Basis) :
    s.projectByScope basis ref = s.projectByScope other ref := by
  simp only [State.projectByScope, State.joinsBasis]

/-- The lookup by natural keys finds the row of the least key among the rows
that match every natural key supplied, whenever there is one. -/
theorem projectByScope_found (s : State) (ref : vagrant_plugin_sdk.Ref_Project)
    (basis : vagrant_plugin_sdk.Ref_Basis) (hkey : ref.Name ≠ "" ∨ ref.Path ≠ "")
    (h : ∃ row ∈ s.db.projects,
        (ref.Name ≠ "" → row.Name = ref.Name) ∧ (ref.Path ≠ "" → row.Path = ref.Path)) :
    ∃ row ∈ s.db.projects,
      (ref.Name ≠ "" → row.Name = ref.Name) ∧ (ref.Path ≠ "" → row.Path = ref.Path) ∧
      (∀ other ∈ s.db.projects,
        (ref.Name ≠ "" → other.Name = ref.Name) → (ref.Path ≠ "" → other.Path = ref.Path) →
        row.ID ≤ other.ID) ∧
      s.projectByScope basis ref = .ok (s.loadProject row) := by
  have hguard : (ref.Name = "" && ref.Path = "") = false := by
    rcases hkey with h | h <;> simp [h]
  simp only [State.projectByScope, hguard, Bool.false_eq_true, if_false]
  obtain ⟨row, hrow, hkeys⟩ := h
  obtain ⟨m, hm, hmem, hcond⟩ := First_of_mem Project.ID
    (fun row => s.joinsBasis { ResourceId := basis.ResourceId } row &&
      Project.cond { Name := if ref.Name ≠ "" then ref.Name else "",
                     Path := if ref.Path ≠ "" then ref.Path else "" } row)
    s.db.projects row hrow
    (by simp only [State.joinsBasis, Bool.true_and]
        exact (Project_cond_keys ref.Name ref.Path row).mpr hkeys)
  simp only [State.joinsBasis, Bool.true_and] at hcond
  have hk := (Project_cond_keys ref.Name ref.Path m).mp hcond
  refine ⟨m, hmem, hk.1, hk.2, ?_, by rw [hm]⟩
  intro other hother hn hp
  apply First_le Project.ID _ s.db.projects m hm other hother
  simp only [State.joinsBasis, Bool.true_and]
  exact (Project_cond_keys ref.Name ref.Path other).mpr ⟨hn, hp⟩

/-- The lookup by natural keys gives `ErrRecordNotFound` when no row matches
every natural key supplied. -/
theorem projectByScope_none (s : State) (ref : vagrant_plugin_sdk.Ref_Project)
    (basis : vagrant_plugin_sdk.Ref_Basis)
    (h : ∀ row ∈ s.db.projects,
        ¬ ((ref.Name ≠ "" → row.Name = ref.Name) ∧ (ref.Path ≠ "" → row.Path = ref.Path))) :
    s.projectByScope basis ref = .error .ErrRecordNotFound := by
  simp only [State.projectByScope]
  split
  · rfl
  · rw [First_of_none]
    intro row hrow
    have := h row hrow
    rw [← Project_cond_keys] at this
    simp only [State.joinsBasis, Bool.true_and]
    exact Bool.eq_false_iff.mpr this

/-- C9: the reference-based fuzzy resolvers do not return the record that the
stable identifier hits.  In the example store `project-1` and `target-1` are
found by `ProjectFromProtoRef` and `TargetFromProtoRef`, yet the fuzzy
resolvers fail with `ErrMissingProtoParent` when no parent is given, with
`ErrRecordNotFound` when a parent and no natural key is given, and return the
other project `project-2` when its name is given; the sibling
`BoxFromProtoRefFuzzy` returns the record its identifier hits. -/
theorem RefFuzzy_identifier_hit_not_final :
    (examples.workspace.ProjectFromProtoRef (some { ResourceId := "project-1" })).map
        Project.ID = .ok 1 ∧
    examples.workspace.ProjectFromProtoRefFuzzy (some { ResourceId := "project-1" }) =
      .error .ErrMissingProtoParent ∧
    examples.workspace.ProjectFromProtoRefFuzzy
        (some { ResourceId := "project-1", Basis := some { ResourceId := "basis-1" } }) =
      .error .ErrRecordNotFound ∧
    (examples.workspace.ProjectFromProtoRefFuzzy
        (some { ResourceId := "project-1", Basis := some { ResourceId := "basis-1" },
                Name := "p2" })).map Project.ResourceId = .ok "project-2" ∧
    (examples.workspace.TargetFromProtoRef (some { ResourceId := "target-1" })).map
        Target.ID = .ok 1 ∧
    examples.workspace.TargetFromProtoRefFuzzy (some { ResourceId := "target-1" }) =
      .error .ErrMissingProtoParent ∧
    (examples.workspace.TargetFromProtoRefFuzzy
        (some { ResourceId := "target-1", Project := some { ResourceId := "project-1" },
                Name := "t2" })).map Target.ResourceId = .ok "target-2" ∧
    examples.workspace.BoxFromProtoRefFuzzy (some { ResourceId := "box-1.0.0" }) =
      .ok (examples.ubuntu 1 "1.0.0") :=
  ⟨rfl, rfl, rfl, rfl, rfl, rfl, rfl, rfl⟩

/-- C10 (as amended): for a project reference that supplies a parent root scope
and at least one natural key, `ProjectFromProtoRefFuzzy` returns the stored
project of the least primary key among those that match every natural key the
reference supplies (the name if given and the path if given) whenever one
exists, and `ErrRecordNotFound` when no project matches all of them.  The root
scope has to be supplied and is not read: the result is the same for every
root scope, and the project returned can be of another one. -/
theorem ProjectFromProtoRefFuzzy_natural_keys (s : State)
    (ref : vagrant_plugin_sdk.Ref_Project) (basis : vagrant_plugin_sdk.Ref_Basis)
    (hbasis : ref.Basis = some basis) (hkey : ref.Name ≠ "" ∨ ref.Path ≠ "") :
    ((∃ row ∈ s.db.projects,
        (ref.Name ≠ "" → row.Name = ref.Name) ∧ (ref.Path ≠ "" → row.Path = ref.Path)) →
      ∃ row ∈ s.db.projects,
        (ref.Name ≠ "" → row.Name = ref.Name) ∧ (ref.Path ≠ "" → row.Path = ref.Path) ∧
        (∀ other ∈ s.db.projects,
          (ref.Name ≠ "" → other.Name = ref.Name) → (ref.Path ≠ "" → other.Path = ref.Path) →
          row.ID ≤ other.ID) ∧
        s.ProjectFromProtoRefFuzzy (some ref) = .ok (s.loadProject row)) ∧
    ((∀ row ∈ s.db.projects,
        ¬ ((ref.Name ≠ "" → row.Name = ref.Name) ∧ (ref.Path ≠ "" → row.Path = ref.Path))) →
      s.ProjectFromProtoRefFuzzy (some ref) = .error .ErrRecordNotFound) ∧
    (∀ other : vagrant_plugin_sdk.Ref_Basis,
      s.ProjectFromProtoRefFuzzy (some { ref with Basis := some other }) =
        s.ProjectFromProtoRefFuzzy (some ref)) := by
  refine ⟨?_, ?_, ?_⟩
  · rw [ProjectFromProtoRefFuzzy_some, hbasis]
    exact projectByScope_found s ref basis hkey
  · rw [ProjectFromProtoRefFuzzy_some, hbasis]
    exact projectByScope_none s ref basis
  · intro other
    rw [ProjectFromProtoRefFuzzy_some, ProjectFromProtoRefFuzzy_some, hbasis]
    exact projectByScope_any_scope s ref other basis

/-- C10 (witness): the reference with the name `p1` alone under `basis-1`. -/
theorem ProjectFromProtoRefFuzzy_natural_keys_witness :
    ∃ row ∈ examples.workspace.db.projects,
      (("p1" : String) ≠ "" → row.Name = "p1") ∧ (("" : String) ≠ "" → row.Path = "") ∧
      (∀ other ∈ examples.workspace.db.projects,
        (("p1" : String) ≠ "" → other.Name = "p1") → (("" : String) ≠ "" → other.Path = "") →
        row.ID ≤ other.ID) ∧
      examples.workspace.ProjectFromProtoRefFuzzy
          (some { Basis := some { ResourceId := "basis-1" }, Name := "p1" }) =
        .ok (examples.workspace.loadProject row) :=
  (ProjectFromProtoRefFuzzy_natural_keys examples.workspace
    { Basis := some { ResourceId := "basis-1" }, Name := "p1" } { ResourceId := "basis-1" }
    rfl (Or.inl (by decide))).1
    ⟨{ ID := 1, BasisID := 1, Name := "p1", Path := "/a", ResourceId := "project-1" },
      by simp [examples.workspace], fun _ => rfl, fun h => absurd rfl h⟩

/-- C10 (as stated, refuted): the project `p1` is stored at the path `/a` under
`basis-1`; a reference with the right name and another path, or with the right
path and another name, resolves to `ErrRecordNotFound`.  In the store
`twoScopes`, where each root scope has a project `p1`, the reference to `p1`
under `basis-2` resolves to the project of `basis-1`. -/
theorem ProjectFromProtoRefFuzzy_one_key_matching :
    (∃ row ∈ examples.workspace.db.projects, row.BasisID = 1 ∧
        row.Name = "p1" ∧ row.Path = "/a") ∧
    examples.workspace.ProjectFromProtoRefFuzzy
        (some { Basis := some { ResourceId := "basis-1" }, Name := "p1", Path := "/other" }) =
      .error .ErrRecordNotFound ∧
    examples.workspace.ProjectFromProtoRefFuzzy
        (some { Basis := some { ResourceId := "basis-1" }, Name := "other", Path := "/a" }) =
      .error .ErrRecordNotFound ∧
    (∃ row ∈ examples.twoScopes.db.projects, row.BasisID = 2 ∧ row.Name = "p1") ∧
    (examples.twoScopes.ProjectFromProtoRefFuzzy
        (some { Basis := some { ResourceId := "basis-2" }, Name := "p1" })).map
      (fun project => (project.ResourceId, project.BasisID)) = .ok ("project-1", 1) :=
  ⟨⟨{ ID := 1, BasisID := 1, Name := "p1", Path := "/a", ResourceId := "project-1" },
      by simp [examples.workspace], rfl, rfl, rfl⟩, rfl, rfl,
    ⟨{ ID := 2, BasisID := 2, Name := "p1", Path := "/b", ResourceId := "project-9" },
      by simp [examples.twoScopes, examples.scopes], rfl, rfl⟩, rfl⟩

/-! ## Fuzzy resolution of targets -/

theorem Target_cond_name (name : String) (row : Target) :
    Target.cond { Name := name } row = true ↔ (name ≠ "" → row.Name = name) := by
  by_cases hn : name = "" <;> simp [Target.cond, hn]

theorem Target_cond_resourceId (id : String) (row : Target) :
    Target.cond { ResourceId := id } row = true ↔ (id ≠ "" → row.ResourceId = id) := by
  by_cases hn : id = "" <;> simp [Target.cond, hn]

/-- A record whose identifier is empty or held by no stored target is a miss
of the exact resolver. -/
theorem TargetFromProto_miss (s : State) (t : vagrant_server.Target)
    (h : t.ResourceId = "" ∨ ∀ row ∈ s.db.targets, row.ResourceId ≠ t.ResourceId) :
    s.TargetFromProto (some t) = .error .ErrRecordNotFound := by
  simp only [State.TargetFromProto, State.TargetFromProtoRef]
  by_cases hid : t.ResourceId = ""
  · simp [hid]
  · rcases h with h | h
    · exact absurd h hid
    · rw [First_of_none]
      · simp [hid]
      · intro row hrow
        have hne := h row hrow
        apply Bool.eq_false_iff.mpr
        intro hc
        rw [Target_cond_resourceId] at hc
        exact hne (hc hid)

/-- What `TargetFromProtoFuzzy` does after a miss of the exact resolver. -/
theorem TargetFromProtoFuzzy_after_miss (P : Platform) (s : State)
    (t : vagrant_server.Target)
    (hmiss : s.TargetFromProto (some t) = .error .ErrRecordNotFound) :
    s.TargetFromProtoFuzzy P (some t) =
      if t.Uuid = "" && t.Name = "" then .error .ErrRecordNotFound
      else if t.Project.isNone && t.Uuid = "" then .error .ErrMissingProtoParent
      else
        match t.Project with
        | some project => s.targetInProject project t
        | none => s.targetByUuidLike P t := by
  simp only [State.TargetFromProtoFuzzy, hmiss, Error.isNotFound]
  rfl

theorem targetInProject_none (s : State) (project : vagrant_plugin_sdk.Ref_Project)
    (t : vagrant_server.Target)
    (h : ∀ row ∈ s.db.targets, s.projectResourceIdIs project.ResourceId row = true →
      ¬ (t.Name ≠ "" → row.Name = t.Name)) :
    s.targetInProject project t = .error .ErrRecordNotFound := by
  simp only [State.targetInProject]
  rw [First_of_none]
  intro row hrow
  by_cases hscope : s.projectResourceIdIs project.ResourceId row = true
  · have := h row hrow hscope
    rw [← Target_cond_name] at this
    simp only [hscope, Bool.true_and]
    exact Bool.eq_false_iff.mpr this
  · simp [hscope]

theorem targetInProject_found (s : State) (project : vagrant_plugin_sdk.Ref_Project)
    (t : vagrant_server.Target)
    (h : ∃ row ∈ s.db.targets, s.projectResourceIdIs project.ResourceId row = true ∧
      (t.Name ≠ "" → row.Name = t.Name)) :
    ∃ row ∈ s.db.targets, s.projectResourceIdIs project.ResourceId row = true ∧
      (t.Name ≠ "" → row.Name = t.Name) ∧
      s.targetInProject project t = .ok (s.loadTarget row) := by
  obtain ⟨row, hrow, hscope, hname⟩ := h
  obtain ⟨m, hm, hmem, hcond⟩ := First_of_mem Target.ID
    (fun row => s.projectResourceIdIs project.ResourceId row &&
      Target.cond { Name := t.Name } row)
    s.db.targets row hrow
    (by simp only [Bool.and_eq_true]
        exact ⟨hscope, (Target_cond_name t.Name row).mpr hname⟩)
  simp only [Bool.and_eq_true] at hcond
  refine ⟨m, hmem, hcond.1, (Target_cond_name t.Name m).mp hcond.2, ?_⟩
  simp only [State.targetInProject]
  rw [hm]

theorem targetByUuidLike_none (P : Platform) (s : State) (t : vagrant_server.Target)
    (h : ∀ row ∈ s.db.targets, ∀ uuid, row.Uuid = some uuid →
      P.like ("%" ++ t.Uuid ++ "%") uuid = false) :
    s.targetByUuidLike P t = .error .ErrRecordNotFound := by
  simp only [State.targetByUuidLike]
  rw [First_of_none]
  intro row hrow
  cases hu : row.Uuid with
  | none => rfl
  | some uuid => exact h row hrow uuid hu

theorem targetByUuidLike_found (P : Platform) (s : State) (t : vagrant_server.Target)
    (h : ∃ row ∈ s.db.targets, ∃ uuid, row.Uuid = some uuid ∧
      P.like ("%" ++ t.Uuid ++ "%") uuid = true) :
    ∃ row ∈ s.db.targets, ∃ uuid, row.Uuid = some uuid ∧
      P.like ("%" ++ t.Uuid ++ "%") uuid = true ∧
      s.targetByUuidLike P t = .ok (s.loadTarget row) := by
  obtain ⟨row, hrow, uuid, hu, hlike⟩ := h
  obtain ⟨m, hm, hmem, hcond⟩ := First_of_mem Target.ID
    (fun row =>
      match row.Uuid with
      | none => false
      | some uuid => P.like ("%" ++ t.Uuid ++ "%") uuid)
    s.db.targets row hrow (by simp only [hu]; exact hlike)
  cases hmu : m.Uuid with
  | none => simp [hmu] at hcond
  | some u =>
    simp only [hmu] at hcond
    refine ⟨m, hmem, u, hmu, hcond, ?_⟩
    simp only [State.targetByUuidLike]
    rw [hm]

/-- C8 (as amended): `TargetFromProtoFuzzy` tries the identifier first and a hit
is final.  After a miss, a query that supplies a project is resolved by project
scope and name alone, whatever its UUID is: `ErrRecordNotFound` when no target
of that project has the name, a target of that project with that name
otherwise.  Only a query without project uses the UUID, as the pattern
`%uuid%` of an unscoped `LIKE`. -/
theorem TargetFromProtoFuzzy_order (P : Platform) (s : State) (t : vagrant_server.Target) :
    (∀ target, s.TargetFromProto (some t) = .ok target →
      s.TargetFromProtoFuzzy P (some t) = .ok target) ∧
    (∀ project, s.TargetFromProto (some t) = .error .ErrRecordNotFound →
      t.Project = some project → t.Name ≠ "" →
      ((∀ row ∈ s.db.targets, s.projectResourceIdIs project.ResourceId row = true →
          row.Name ≠ t.Name) →
        s.TargetFromProtoFuzzy P (some t) = .error .ErrRecordNotFound) ∧
      ((∃ row ∈ s.db.targets, s.projectResourceIdIs project.ResourceId row = true ∧
          row.Name = t.Name) →
        ∃ row ∈ s.db.targets, s.projectResourceIdIs project.ResourceId row = true ∧
          row.Name = t.Name ∧ s.TargetFromProtoFuzzy P (some t) = .ok (s.loadTarget row))) ∧
    (s.TargetFromProto (some t) = .error .ErrRecordNotFound →
      t.Project = none → t.Uuid ≠ "" →
      ((∀ row ∈ s.db.targets, ∀ uuid, row.Uuid = some uuid →
          P.like ("%" ++ t.Uuid ++ "%") uuid = false) →
        s.TargetFromProtoFuzzy P (some t) = .error .ErrRecordNotFound) ∧
      ((∃ row ∈ s.db.targets, ∃ uuid, row.Uuid = some uuid ∧
          P.like ("%" ++ t.Uuid ++ "%") uuid = true) →
        ∃ row ∈ s.db.targets, ∃ uuid, row.Uuid = some uuid ∧
          P.like ("%" ++ t.Uuid ++ "%") uuid = true ∧
          s.TargetFromProtoFuzzy P (some t) = .ok (s.loadTarget row))) := by
  refine ⟨?_, ?_, ?_⟩
  · intro target h
    simp only [State.TargetFromProtoFuzzy, h]
  · intro project hmiss hproject hname
    rw [TargetFromProtoFuzzy_after_miss P s t hmiss]
    simp only [hproject, hname, Bool.and_false, Bool.false_eq_true, if_false,
      Option.isSome_some, Option.isNone_some, Bool.false_and, decide_False]
    constructor
    · intro hnone
      exact targetInProject_none s project t
        (fun row hrow hscope hc => hnone row hrow hscope (hc hname))
    · rintro ⟨row, hrow, hscope, hrn⟩
      obtain ⟨m, hmem, hs, hn, hres⟩ :=
        targetInProject_found s project t ⟨row, hrow, hscope, fun _ => hrn⟩
      exact ⟨m, hmem, hs, hn hname, hres⟩
  · intro hmiss hproject huuid
    rw [TargetFromProtoFuzzy_after_miss P s t hmiss]
    simp only [hproject, huuid, Bool.false_and, Bool.and_false, Bool.false_eq_true, if_false,
      decide_False]
    exact ⟨targetByUuidLike_none P s t, targetByUuidLike_found P s t⟩

/-- C8 (witness): without a project the pattern `%id-2%` finds `target-2`, and
with the project `project-1` the name `t2` does. -/
theorem TargetFromProtoFuzzy_order_witness :
    (∃ row ∈ examples.workspace.db.targets, ∃ uuid, row.Uuid = some uuid ∧
      (numericPlatform true).like ("%" ++ "id-2" ++ "%") uuid = true ∧
      examples.workspace.TargetFromProtoFuzzy (numericPlatform true) (some { Uuid := "id-2" }) =
        .ok (examples.workspace.loadTarget row)) ∧
    (∃ row ∈ examples.workspace.db.targets,
      examples.workspace.projectResourceIdIs "project-1" row = true ∧ row.Name = "t2" ∧
      examples.workspace.TargetFromProtoFuzzy (numericPlatform true)
          (some { Name := "t2", Project := some { ResourceId := "project-1" } }) =
        .ok (examples.workspace.loadTarget row)) :=
  ⟨((TargetFromProtoFuzzy_order (numericPlatform true) examples.workspace
      { Uuid := "id-2" }).2.2 rfl rfl (by decide)).2
      ⟨{ ID := 2, ProjectID := 1, Name := "t2", ResourceId := "target-2", State := 3,
         Uuid := some "uuid-2" }, by simp [examples.workspace], "uuid-2", rfl, rfl⟩,
   ((TargetFromProtoFuzzy_order (numericPlatform true) examples.workspace
      { Name := "t2", Project := some { ResourceId := "project-1" } }).2.1
      { ResourceId := "project-1" } rfl rfl (by decide)).2
      ⟨{ ID := 2, ProjectID := 1, Name := "t2", ResourceId := "target-2", State := 3,
         Uuid := some "uuid-2" }, by simp [examples.workspace], rfl, rfl⟩⟩

/-- C8 (as stated, refuted): `target-1` is stored with the UUID `uuid-1`; a
query with that UUID, no identifier and the project `project-1` resolves to
`ErrRecordNotFound` when its name matches no target, and to the other target
`target-2` when its name is `t2`. -/
theorem TargetFromProtoFuzzy_uuid_with_project :
    (∃ row ∈ examples.workspace.db.targets,
      row.Uuid = some "uuid-1" ∧ row.ResourceId = "target-1") ∧
    examples.workspace.TargetFromProtoFuzzy (numericPlatform true)
        (some { Uuid := "uuid-1", Name := "absent",
                Project := some { ResourceId := "project-1" } }) =
      .error .ErrRecordNotFound ∧
    (examples.workspace.TargetFromProtoFuzzy (numericPlatform true)
        (some { Uuid := "uuid-1", Name := "t2",
                Project := some { ResourceId := "project-1" } })).map Target.ResourceId =
      .ok "target-2" :=
  ⟨⟨{ ID := 1, ProjectID := 1, Name := "t1", ResourceId := "target-1", State := 2,
      Record := some "record", Configuration := some "config", Uuid := some "uuid-1" },
      by simp [examples.workspace], rfl, rfl⟩, rfl, rfl⟩

/-! ## Find without a match -/

theorem Box_cond_name_provider (name provider : String) (row : Box) :
    Box.cond { Name := name, Provider := provider } row = true ↔
      (name ≠ "" → row.Name = name) ∧ (provider ≠ "" → row.Provider = provider) := by
  by_cases hn : name = "" <;> by_cases hp : provider = "" <;> simp [Box.cond, hn, hp]

theorem Box_cond_triple (name provider version : String) (row : Box)
    (h : Box.cond { Name := name, Provider := provider, Version := version } row = true) :
    Box.cond { Name := name, Provider := provider } row = true := by
  rw [Box_cond_name_provider]
  by_cases hn : name = "" <;> by_cases hp : provider = "" <;>
    simp_all [Box.cond]

theorem Box_cond_resourceId (id : String) (row : Box) :
    Box.cond { ResourceId := id } row = true ↔ (id ≠ "" → row.ResourceId = id) := by
  by_cases hn : id = "" <;> simp [Box.cond, hn]

/-- The fuzzy resolver of catalog entries misses when the reference has no
identifier and no stored entry has its name and provider. -/
theorem BoxFromProtoRefFuzzy_none (s : State) (b : vagrant_plugin_sdk.Ref_Box)
    (hid : b.ResourceId = "")
    (hnone : ∀ row ∈ s.db.boxes,
      Box.cond { Name := b.Name, Provider := b.Provider } row = false) :
    s.BoxFromProtoRefFuzzy (some b) = .error .ErrRecordNotFound := by
  simp only [State.BoxFromProtoRefFuzzy, State.BoxFromProtoRef, hid, if_true,
    Error.isNotFound, Bool.not_true, Bool.false_eq_true, if_false]
  split
  · rfl
  · apply First_of_none
    intro row hrow
    apply Bool.eq_false_iff.mpr
    intro hc
    have := Box_cond_triple _ _ _ _ hc
    rw [hnone row hrow] at this
    cases this

/-- The named lookup gives a nil record and no error when the reference has no
identifier and no stored entry has its name and provider. -/
theorem boxFindNamed_none (P : Platform) (s : State) (b : vagrant_plugin_sdk.Ref_Box)
    (hid : b.ResourceId = "")
    (hnone : ∀ row ∈ s.db.boxes,
      Box.cond { Name := b.Name, Provider := b.Provider } row = false) :
    s.boxFindNamed P b = .ok none := by
  have hfilter :
      s.db.boxes.filter (Box.cond { Name := b.Name, Provider := b.Provider }) = [] := by
    rw [List.filter_eq_nil_iff]
    intro row hrow
    simp [hnone row hrow]
  simp only [State.boxFindNamed, BoxFromProtoRefFuzzy_none s b hid hnone, Error.isNotFound,
    if_true, hfilter, List.length_nil, Nat.lt_one_iff]
  split <;> rfl

/-! ## Saving targets -/

theorem field_eq_nil (name : String) (rules : List (Option String)) :
    field name rules = [] ↔ ∀ r ∈ rules, r = none := by
  unfold field
  cases h : rules.findSome? id with
  | none =>
    simp only [true_iff]
    intro r hr
    cases r with
    | none => rfl
    | some m =>
      have := List.findSome?_eq_none_iff.mp h (some m) hr
      simp at this
  | some m =>
    simp only [List.cons_ne_nil, false_iff]
    intro hall
    obtain ⟨r, hr, hrm⟩ := List.exists_of_findSome?_eq_some h
    rw [hall r hr] at hrm
    cases hrm

theorem validateStruct_ok (fields : List (List (String × String))) :
    validateStruct fields = .ok () ↔ ∀ f ∈ fields, f = [] := by
  unfold validateStruct
  cases h : fields.flatten with
  | nil =>
    simp only [true_iff]
    exact List.flatten_eq_nil_iff.mp h
  | cons e es =>
    constructor
    · intro h'
      cases h'
    · intro hall
      have := List.flatten_eq_nil_iff.mpr hall
      rw [h] at this
      cases this

theorem foldl_max_le (ids : List Nat) (init : Nat) :
    init ≤ ids.foldl max init ∧ ∀ id ∈ ids, id ≤ ids.foldl max init := by
  induction ids generalizing init with
  | nil => simp
  | cons a as ih =>
    simp only [List.foldl_cons, List.mem_cons, forall_eq_or_imp]
    obtain ⟨h1, h2⟩ := ih (max init a)
    exact ⟨le_trans (le_max_left _ _) h1, le_trans (le_max_right _ _) h1, h2⟩

/-- A new primary key is larger than every key in use. -/
theorem nextID_gt (ids : List Nat) : ∀ id ∈ ids, id < nextID ids := by
  intro id hid
  exact Nat.lt_succ_of_le ((foldl_max_le ids 0).2 id hid)

/-- The hook `BeforeSave` passes the record on, at most with a new identifier,
and only when it is valid. -/
theorem Target_BeforeSave_ok (s : State) (newId : Except Error String) (t saved : Target)
    (h : t.BeforeSave s newId = .ok saved) :
    saved.validate s = .ok () ∧ saved.ID = t.ID ∧ saved.State = t.State ∧
      saved.Record = t.Record ∧ saved.Configuration = t.Configuration ∧
      saved.Name = t.Name := by
  unfold Target.BeforeSave at h
  simp only at h
  split at h
  · cases h
  · rename_i t1 ht1
    split at h
    · cases h
    · rename_i hv
      cases h
      have hunit : saved.validate s = .ok () := hv
      refine ⟨hunit, ?_⟩
      split at ht1
      · unfold Target.setId at ht1
        split at ht1
        · cases ht1
        · cases ht1
          exact ⟨rfl, rfl, rfl, rfl, rfl⟩
      · cases ht1
        exact ⟨rfl, rfl, rfl, rfl, rfl⟩

/-- What a successful `upsertFull` of a target leaves in the table: a row under
the key of the saved record, which is under its identifier too when the record
is new, and every row of that key carries the state, record and configuration
that were handed in. -/
theorem upsertFullTarget_stored (s s' : State) (newId : Except Error String)
    (target saved : Target)
    (h : s.upsertFullTarget newId target = .ok (s', saved)) :
    saved.State = target.State ∧ (target.ID ≠ 0 → saved.ID = target.ID) ∧
    ∃ row ∈ s'.db.targets, (target.ID = 0 → row.ResourceId = saved.ResourceId) ∧
      row.ID = saved.ID ∧
      ∀ r ∈ s'.db.targets, r.ID = row.ID →
        r.State = target.State ∧ r.Record = target.Record ∧
          r.Configuration = target.Configuration := by
  unfold State.upsertFullTarget at h
  split at h
  · cases h
  · rename_i t1 ht1
    obtain ⟨hvalid, hID, hState, hRecord, hConfig, _⟩ := Target_BeforeSave_ok s newId target t1 ht1
    split at h
    · -- created under a new key
      rename_i hzero
      simp only [Except.ok.injEq, Prod.mk.injEq] at h
      obtain ⟨hs, hsaved⟩ := h
      subst hs hsaved
      refine ⟨hState, fun hne => absurd (hID ▸ hzero) hne, ?_⟩
      refine ⟨Target.row { t1 with ID := nextID (s.db.targets.map Target.ID) }, ?_,
        fun _ => rfl, rfl, ?_⟩
      · simp
      · intro r hr hrid
        simp only [List.mem_append, List.mem_singleton] at hr
        rcases hr with hr | hr
        · have hlt := nextID_gt (s.db.targets.map Target.ID) r.ID (List.mem_map_of_mem _ hr)
          have : r.ID = nextID (s.db.targets.map Target.ID) := hrid
          omega
        · subst hr
          exact ⟨hState, hRecord, hConfig⟩
    · rename_i hnz
      split at h
      · -- the stored row is replaced
        rename_i hany
        simp only [Except.ok.injEq, Prod.mk.injEq] at h
        obtain ⟨hs, hsaved⟩ := h
        subst hs hsaved
        refine ⟨hState, fun _ => hID, ?_⟩
        simp only [List.any_eq_true, decide_eq_true_eq] at hany
        obtain ⟨row0, hmem0, hid0⟩ := hany
        refine ⟨{ t1.row with ResourceId := row0.ResourceId }, ?_,
          fun hz => absurd (hID.trans hz) hnz, rfl, ?_⟩
        · simp only [List.mem_map]
          exact ⟨row0, hmem0, by simp [hid0]⟩
        · intro r hr hrid
          simp only [List.mem_map] at hr
          obtain ⟨r1, _, hr1⟩ := hr
          by_cases hc : r1.ID = t1.ID
          · simp only [hc, if_true] at hr1
            subst hr1
            exact ⟨hState, hRecord, hConfig⟩
          · simp only [hc, if_false] at hr1
            subst hr1
            exact absurd hrid hc
      · -- no row under the key: the record is inserted
        rename_i hany
        simp only [Except.ok.injEq, Prod.mk.injEq] at h
        obtain ⟨hs, hsaved⟩ := h
        subst hs hsaved
        refine ⟨hState, fun _ => hID, ?_⟩
        refine ⟨t1.row, ?_, fun _ => rfl, rfl, ?_⟩
        · simp
        · intro r hr hrid
          simp only [List.mem_append, List.mem_singleton] at hr
          rcases hr with hr | hr
          · exfalso
            apply hany
            simp only [List.any_eq_true, decide_eq_true_eq]
            exact ⟨r, hr, hrid⟩
          · subst hr
            exact ⟨hState, hRecord, hConfig⟩

/-- The soft merge keeps the key of the internal record, and its record and
configuration wherever the external record has none. -/
theorem softDecodeTarget_ok (s : State) (t : vagrant_server.Target) (target decoded : Target)
    (h : s.softDecodeTarget t target = .ok decoded) :
    decoded.ID = target.ID ∧
    decoded.Record = (if t.Record.isSome then t.Record else target.Record) ∧
    decoded.Configuration =
      (if t.Configuration.isSome then t.Configuration else target.Configuration) := by
  unfold State.softDecodeTarget at h
  simp only at h
  split at h
  · cases h
  · cases h
  · cases h
    exact ⟨rfl, rfl, rfl⟩

/-- The steps of the second half of a successful `TargetPut`: the soft merge,
the verbatim state, the save. -/
theorem targetPutOnto_ok (s s' : State) (newId : Except Error String)
    (t out : vagrant_server.Target) (target : Target)
    (h : s.targetPutOnto newId t target = .ok (s', out)) :
    ∃ decoded saved,
      s.softDecodeTarget t
        (if t.Record.isSome then { target with Record := none } else target) = .ok decoded ∧
      s.upsertFullTarget newId { decoded with State := t.State } = .ok (s', saved) ∧
      out = saved.ToProto := by
  unfold State.targetPutOnto at h
  simp only at h
  cases hdec : s.softDecodeTarget t
      (if t.Record.isSome then { target with Record := none } else target) with
  | error e => rw [hdec] at h; cases h
  | ok decoded =>
    rw [hdec] at h
    simp only at h
    by_cases hp : decoded.Project.isNone = true
    · rw [if_pos hp] at h
      cases h
    · rw [if_neg hp] at h
      cases hup : s.upsertFullTarget newId { decoded with State := t.State } with
      | error e => rw [hup] at h; cases h
      | ok r =>
        obtain ⟨s1, saved⟩ := r
        rw [hup] at h
        simp only [Except.ok.injEq, Prod.mk.injEq] at h
        obtain ⟨hs, hout⟩ := h
        subst hs
        exact ⟨decoded, saved, rfl, hup, hout.symm⟩

/-- The steps of a successful `TargetPut`: the fuzzy resolution (a hit, or a
fresh record), then the merge and the save. -/
theorem TargetPut_ok (P : Platform) (s s' : State) (newId : Except Error String)
    (t out : vagrant_server.Target)
    (h : s.TargetPut P newId (some t) = .ok (s', out)) :
    (∃ target, s.TargetFromProtoFuzzy P (some t) = .ok target ∧
      s.targetPutOnto newId { t with Project := none } target = .ok (s', out)) ∨
    ((∃ e, s.TargetFromProtoFuzzy P (some t) = .error e) ∧
      s.targetPutOnto newId t {} = .ok (s', out)) := by
  unfold State.TargetPut at h
  simp only at h
  cases hf : s.TargetFromProtoFuzzy P (some t) with
  | error e =>
    rw [hf] at h
    simp only at h
    by_cases hn : (!e.isNotFound) = true
    · rw [if_pos hn] at h
      cases h
    · rw [if_neg hn] at h
      exact Or.inr ⟨⟨e, rfl⟩, h⟩
  | ok target =>
    rw [hf] at h
    exact Or.inl ⟨target, rfl, h⟩

/-- C4 (as amended): a successful Put on an existing target, identified by its
stable identifier and supplying no record and no configuration, leaves the
stored `Record` and `Configuration` of that target as they were; its stored
`State` becomes the state of the input record (`UNKNOWN` when none is
supplied), whatever it was before. -/
theorem TargetPut_keeps_record_and_configuration (P : Platform) (s s' : State)
    (newId : Except Error String) (t out : vagrant_server.Target) (row : Target)
    (hmem : row ∈ s.db.targets) (hkey : row.ID ≠ 0)
    (hid : t.ResourceId ≠ "") (hrid : row.ResourceId = t.ResourceId)
    (hunique : ∀ r ∈ s.db.targets, r.ResourceId = t.ResourceId → r = row)
    (hrecord : t.Record = none) (hconfig : t.Configuration = none)
    (hput : s.TargetPut P newId (some t) = .ok (s', out)) :
    (∃ r ∈ s'.db.targets, r.ID = row.ID) ∧
    ∀ r ∈ s'.db.targets, r.ID = row.ID →
      r.Record = row.Record ∧ r.Configuration = row.Configuration ∧ r.State = t.State := by
  -- the exact resolver finds the row
  have hfirst : First Target.ID (Target.cond { ResourceId := t.ResourceId }) s.db.targets
      = .ok row := by
    obtain ⟨m, hm, hmmem, hmcond⟩ := First_of_mem Target.ID
      (Target.cond { ResourceId := t.ResourceId }) s.db.targets row hmem
      ((Target_cond_resourceId _ _).mpr (fun _ => hrid))
    rw [hm, hunique m hmmem ((Target_cond_resourceId _ _).mp hmcond hid)]
  have hfound : s.TargetFromProtoFuzzy P (some t) = .ok (s.loadTarget row) := by
    simp only [State.TargetFromProtoFuzzy, State.TargetFromProto, State.TargetFromProtoRef,
      hid, if_false, hfirst]
  rcases TargetPut_ok P s s' newId t out hput with ⟨target, htarget, honto⟩ | ⟨⟨e, he⟩, _⟩
  · rw [hfound] at htarget
    cases htarget
    obtain ⟨decoded, saved, hdec, hup, _⟩ :=
      targetPutOnto_ok s s' newId _ out (s.loadTarget row) honto
    simp only [hrecord, Option.isSome_none, Bool.false_eq_true, if_false] at hdec
    obtain ⟨hdID, hdRecord, hdConfig⟩ := softDecodeTarget_ok s _ _ decoded hdec
    simp only [hrecord, hconfig, Option.isSome_none, Bool.false_eq_true, if_false]
      at hdRecord hdConfig
    have hdID' : decoded.ID = row.ID := hdID
    have hdRecord' : decoded.Record = row.Record := hdRecord
    have hdConfig' : decoded.Configuration = row.Configuration := hdConfig
    obtain ⟨_, hsID, r0, hr0, _, hr0ID, hall⟩ :=
      upsertFullTarget_stored s s' newId { decoded with State := t.State } saved hup
    have hsaved : saved.ID = row.ID := by
      rw [hsID (by show decoded.ID ≠ 0; rw [hdID']; exact hkey)]
      exact hdID'
    refine ⟨⟨r0, hr0, hr0ID.trans hsaved⟩, ?_⟩
    intro r hr hrID
    obtain ⟨h1, h2, h3⟩ := hall r hr (hrID.trans (hr0ID.trans hsaved).symm)
    exact ⟨h2.trans hdRecord', h3.trans hdConfig', h1⟩
  · rw [hfound] at he
    cases he

/-- C4 (witness): the Put of `rename` on `target-1` of the example store. -/
theorem TargetPut_keeps_record_and_configuration_witness :
    (∃ r ∈ examples.workspaceRenamed.db.targets, r.ID = 1) ∧
    ∀ r ∈ examples.workspaceRenamed.db.targets, r.ID = 1 →
      r.Record = some "record" ∧ r.Configuration = some "config" ∧
        r.State = examples.rename.State :=
  TargetPut_keeps_record_and_configuration (numericPlatform true) examples.workspace
    examples.workspaceRenamed (.ok "generated") examples.rename examples.renamed
    { ID := 1, ProjectID := 1, Name := "t1", ResourceId := "target-1", State := 2,
      Record := some "record", Configuration := some "config", Uuid := some "uuid-1" }
    (by simp [examples.workspace]) (by decide) (by decide) rfl (by decide) rfl rfl rfl

/-- C4 (as stated, refuted): `target-1` is stored in the state `2`; the Put of
`rename`, which supplies the identifier and a new name only, succeeds and
leaves it stored in the state `0` (`UNKNOWN`). -/
theorem TargetPut_rename_resets_state :
    (∃ row ∈ examples.workspace.db.targets, row.ResourceId = "target-1" ∧ row.State = 2) ∧
    examples.workspace.TargetPut (numericPlatform true) (.ok "generated")
        (some examples.rename) = .ok (examples.workspaceRenamed, examples.renamed) ∧
    (∀ row ∈ examples.workspaceRenamed.db.targets, row.ResourceId = "target-1" →
      row.State = 0) ∧
    (0 : vagrant_server.Operation_PhysicalState) ≠ 2 := by
  refine ⟨⟨_, List.mem_cons_self _ _, rfl, rfl⟩, rfl, by decide, by decide⟩

/-! ## Exact resolution -/

theorem Project_cond_resourceId (id : String) (row : Project) :
    Project.cond { ResourceId := id } row = true ↔ (id ≠ "" → row.ResourceId = id) := by
  by_cases hn : id = "" <;> simp [Project.cond, hn]

/-- A reference whose identifier is empty or held by no stored entry is a miss
of the exact resolver of catalog entries. -/
theorem BoxFromProtoRef_miss (s : State) (b : vagrant_plugin_sdk.Ref_Box)
    (h : b.ResourceId = "" ∨ ∀ row ∈ s.db.boxes, row.ResourceId ≠ b.ResourceId) :
    s.BoxFromProtoRef (some b) = .error .ErrRecordNotFound := by
  simp only [State.BoxFromProtoRef]
  by_cases hid : b.ResourceId = ""
  · simp [hid]
  · rcases h with h | h
    · exact absurd h hid
    · rw [First_of_none]
      · simp [hid]
      · intro row hrow
        apply Bool.eq_false_iff.mpr
        intro hc
        rw [Box_cond_resourceId] at hc
        exact h row hrow (hc hid)

theorem ProjectFromProtoRef_miss (s : State) (ref : vagrant_plugin_sdk.Ref_Project)
    (h : ref.ResourceId = "" ∨ ∀ row ∈ s.db.projects, row.ResourceId ≠ ref.ResourceId) :
    s.ProjectFromProtoRef (some ref) = .error .ErrRecordNotFound := by
  simp only [State.ProjectFromProtoRef]
  by_cases hid : ref.ResourceId = ""
  · simp [hid]
  · rcases h with h | h
    · exact absurd h hid
    · rw [First_of_none]
      · simp [hid]
      · intro row hrow
        apply Bool.eq_false_iff.mpr
        intro hc
        rw [Project_cond_resourceId] at hc
        exact h row hrow (hc hid)

theorem TargetFromProtoRef_miss (s : State) (ref : vagrant_plugin_sdk.Ref_Target)
    (h : ref.ResourceId = "" ∨ ∀ row ∈ s.db.targets, row.ResourceId ≠ ref.ResourceId) :
    s.TargetFromProtoRef (some ref) = .error .ErrRecordNotFound := by
  simp only [State.TargetFromProtoRef]
  by_cases hid : ref.ResourceId = ""
  · simp [hid]
  · rcases h with h | h
    · exact absurd h hid
    · rw [First_of_none]
      · simp [hid]
      · intro row hrow
        apply Bool.eq_false_iff.mpr
        intro hc
        rw [Target_cond_resourceId] at hc
        exact h row hrow (hc hid)

/-- C11 (as amended): exact resolution matches by the stable identifier alone.
With an empty identifier `BoxFromProto`, `BoxFromProtoRef`, `TargetFromProto`
and `TargetFromProtoRef` return `ErrRecordNotFound`, whatever directory, UUID,
name or parent the record or reference carries and whatever is stored. -/
theorem exact_resolution_needs_identifier (s : State)
    (b : vagrant_server.Box) (rb : vagrant_plugin_sdk.Ref_Box)
    (t : vagrant_server.Target) (rt : vagrant_plugin_sdk.Ref_Target)
    (hb : b.ResourceId = "") (hrb : rb.ResourceId = "")
    (ht : t.ResourceId = "") (hrt : rt.ResourceId = "") :
    s.BoxFromProto (some b) = .error .ErrRecordNotFound ∧
    s.BoxFromProtoRef (some rb) = .error .ErrRecordNotFound ∧
    s.TargetFromProto (some t) = .error .ErrRecordNotFound ∧
    s.TargetFromProtoRef (some rt) = .error .ErrRecordNotFound := by
  refine ⟨?_, BoxFromProtoRef_miss s rb (Or.inl hrb), TargetFromProto_miss s t (Or.inl ht),
    TargetFromProtoRef_miss s rt (Or.inl hrt)⟩
  simp only [State.BoxFromProto]
  exact BoxFromProtoRef_miss s _ (Or.inl hb)

/-- C11 (witness): records without identifier that carry a stored name, a
stored directory and a stored UUID. -/
theorem exact_resolution_needs_identifier_witness :
    examples.workspace.BoxFromProto
        (some { Name := "ubuntu", Provider := "virtualbox", Version := "1.0.0" }) =
      .error .ErrRecordNotFound ∧
    examples.workspace.BoxFromProtoRef
        (some { Name := "ubuntu", Provider := "virtualbox", Version := "1.0.0" }) =
      .error .ErrRecordNotFound ∧
    examples.workspace.TargetFromProto (some { Name := "t1", Uuid := "uuid-2" }) =
      .error .ErrRecordNotFound ∧
    examples.workspace.TargetFromProtoRef
        (some { Name := "t1", Project := some { ResourceId := "project-1" } }) =
      .error .ErrRecordNotFound :=
  exact_resolution_needs_identifier examples.workspace
    { Name := "ubuntu", Provider := "virtualbox", Version := "1.0.0" }
    { Name := "ubuntu", Provider := "virtualbox", Version := "1.0.0" }
    { Name := "t1", Uuid := "uuid-2" }
    { Name := "t1", Project := some { ResourceId := "project-1" } } rfl rfl rfl rfl

/-- C11 (as stated, refuted): the example store holds a target with the UUID
`uuid-1` and a catalog entry with the directory `/boxes/ubuntu/1.0.0`; records
that carry these keys and no identifier resolve to `ErrRecordNotFound`. -/
theorem exact_resolution_ignores_natural_keys :
    (∃ row ∈ examples.workspace.db.targets, row.Uuid = some "uuid-1") ∧
    examples.workspace.TargetFromProto (some { Uuid := "uuid-1" }) =
      .error .ErrRecordNotFound ∧
    (∃ row ∈ examples.workspace.db.boxes, row.Directory = "/boxes/ubuntu/1.0.0") ∧
    examples.workspace.BoxFromProto (some { Directory := "/boxes/ubuntu/1.0.0" }) =
      .error .ErrRecordNotFound :=
  ⟨⟨_, List.mem_cons_self _ _, rfl⟩, rfl, ⟨_, List.mem_cons_self _ _, rfl⟩, rfl⟩

/-- C12: four of the twelve resolver entry points dereference a nil record.
`BoxFromProto`, `BoxFromProtoFuzzy`, `TargetFromProto` and
`TargetFromProtoFuzzy` read a field of their argument before any nil check and
abort; the other eight return `ErrEmptyProtoArgument`. -/
theorem resolvers_on_nil (P : Platform) (s : State) :
    s.BoxFromProto none = .error .NilDereference ∧
    s.BoxFromProtoFuzzy none = .error .NilDereference ∧
    s.TargetFromProto none = .error .NilDereference ∧
    s.TargetFromProtoFuzzy P none = .error .NilDereference ∧
    s.BoxFromProtoRef none = .error .ErrEmptyProtoArgument ∧
    s.BoxFromProtoRefFuzzy none = .error .ErrEmptyProtoArgument ∧
    s.ProjectFromProtoRef none = .error .ErrEmptyProtoArgument ∧
    s.ProjectFromProtoRefFuzzy none = .error .ErrEmptyProtoArgument ∧
    s.ProjectFromProto none = .error .ErrEmptyProtoArgument ∧
    s.ProjectFromProtoFuzzy none = .error .ErrEmptyProtoArgument ∧
    s.TargetFromProtoRef none = .error .ErrEmptyProtoArgument ∧
    s.TargetFromProtoRefFuzzy none = .error .ErrEmptyProtoArgument :=
  ⟨rfl, rfl, rfl, rfl, rfl, rfl, rfl, rfl, rfl, rfl, rfl, rfl⟩

/-! ## Find without a match: the three operations -/

/-- The loop of the matcher leaves `match` as it is when every candidate has a
version that parses and does not satisfy the constraint. -/
theorem boxFindLoop_unsatisfied (L : VersionLib) (c : L.Constraints) (boxes : List Box)
    (acc : Option Box × Option L.Version)
    (h : ∀ box ∈ boxes, ∃ v, L.NewVersion box.Version = some v ∧ L.Check c v = false) :
    boxFindLoop L c boxes acc = .ok acc := by
  induction boxes with
  | nil => rfl
  | cons box rest ih =>
    obtain ⟨v, hv, hcheck⟩ := h box (List.mem_cons_self _ _)
    simp only [boxFindLoop, hv, hcheck, Bool.not_false, if_true]
    exact ih (fun b hb => h b (List.mem_cons_of_mem _ hb))

/-- The matcher gives a nil record and no error when the expression parses as a
constraint and every stored entry of the name (and provider) has a version
that parses and does not satisfy it. -/
theorem boxFindNamed_unsatisfied (P : Platform) (s : State) (b : vagrant_plugin_sdk.Ref_Box)
    (c : P.versions.Constraints)
    (hmatcher : ((P.versions.NewVersion b.Version).isSome && decide (b.Provider ≠ "")) = false)
    (hc : P.versions.NewConstraint
      (if b.Version = "" then DEFAULT_BOX_CONSTRAINT else b.Version) = some c)
    (h : ∀ row ∈ s.db.boxes, Box.cond { Name := b.Name, Provider := b.Provider } row = true →
      ∃ v, P.versions.NewVersion row.Version = some v ∧ P.versions.Check c v = false) :
    s.boxFindNamed P b = .ok none := by
  unfold State.boxFindNamed
  rw [hmatcher]
  simp only [Bool.false_eq_true, if_false]
  split
  · rfl
  · have hversion : (if b.Version = "" then { b with Version := DEFAULT_BOX_CONSTRAINT }
        else b).Version = (if b.Version = "" then DEFAULT_BOX_CONSTRAINT else b.Version) := by
      split <;> rfl
    rw [hversion, hc]
    simp only
    rw [boxFindLoop_unsatisfied]
    · rfl
    · intro box hbox
      obtain ⟨hmem, hcond⟩ := List.mem_filter.mp hbox
      exact h box hmem hcond

/-- The direct lookup gives a nil record and no error when the reference has no
identifier and no stored entry has its name, provider and version. -/
theorem boxFindNamed_direct_none (P : Platform) (s : State) (b : vagrant_plugin_sdk.Ref_Box)
    (hdirect : ((P.versions.NewVersion b.Version).isSome && decide (b.Provider ≠ "")) = true)
    (hid : b.ResourceId = "")
    (h : ∀ row ∈ s.db.boxes,
      ¬ (row.Name = b.Name ∧ row.Provider = b.Provider ∧ row.Version = b.Version)) :
    s.boxFindNamed P b = .ok none := by
  have hmiss : s.BoxFromProtoRefFuzzy (some b) = .error .ErrRecordNotFound := by
    simp only [State.BoxFromProtoRefFuzzy, State.BoxFromProtoRef, hid, if_true,
      Error.isNotFound, Bool.not_true, Bool.false_eq_true, if_false]
    split
    · rfl
    · rename_i hguard
      apply First_of_none
      intro row hrow
      apply Bool.eq_false_iff.mpr
      intro hcond
      have hn : b.Name ≠ "" := by
        intro hn
        simp [hn] at hguard
      have hp : b.Provider ≠ "" := by
        intro hp
        simp [hp] at hguard
      have hv : b.Version ≠ "" := by
        intro hv
        simp [hv] at hguard
      have hall : (row.Name = b.Name ∧ row.Provider = b.Provider) ∧ row.Version = b.Version := by
        simpa [Box.cond, hn, hp, hv] using hcond
      exact h row hrow ⟨hall.1.1, hall.1.2, hall.2⟩
  unfold State.boxFindNamed
  rw [hdirect, hmiss]
  rfl

/-- C6 (as amended): what the three Find operations return for a query that
matches no stored record.  `BoxFind` with an identifier that no entry holds
returns the lookup error of `ErrRecordNotFound`.  `BoxFind` by name (no
identifier) returns a nil record and no error: when no entry has the name (and
provider), when the direct lookup of a concrete version with a provider finds
no entry of that name, provider and version, and when the expression parses as
a constraint that no entry of the name (and provider) satisfies; the literal
`0` is looked up as the default version.  `ProjectFind` returns the lookup
error of `ErrMissingProtoParent` without a parent scope, and that of
`ErrRecordNotFound` with a parent scope when no project matches the natural
keys.  `TargetFind` with an identifier that is absent or held by no target
returns the lookup error of `ErrRecordNotFound` when it supplies no name and
no UUID, when no target of the project has the name, and when no project is
given and no UUID is alike. -/
theorem Find_without_match (P : Platform) (s : State) :
    (∀ b : vagrant_plugin_sdk.Ref_Box, b.ResourceId ≠ "" →
      (∀ row ∈ s.db.boxes, row.ResourceId ≠ b.ResourceId) →
      s.BoxFind P (some b) = .error (lookupErrorToStatus "box" .ErrRecordNotFound)) ∧
    (∀ b : vagrant_plugin_sdk.Ref_Box, b.Version = "0" →
      s.BoxFind P (some b) = s.BoxFind P (some { b with Version := DEFAULT_BOX_VERSION })) ∧
    (∀ b : vagrant_plugin_sdk.Ref_Box, b.ResourceId = "" → b.Name ≠ "" →
      (∀ row ∈ s.db.boxes,
        ¬ (row.Name = b.Name ∧ (b.Provider ≠ "" → row.Provider = b.Provider))) →
      s.BoxFind P (some b) = .ok none) ∧
    (∀ b : vagrant_plugin_sdk.Ref_Box, b.ResourceId = "" → b.Name ≠ "" → b.Version ≠ "0" →
      (P.versions.NewVersion b.Version).isSome = true → b.Provider ≠ "" →
      (∀ row ∈ s.db.boxes,
        ¬ (row.Name = b.Name ∧ row.Provider = b.Provider ∧ row.Version = b.Version)) →
      s.BoxFind P (some b) = .ok none) ∧
    (∀ (b : vagrant_plugin_sdk.Ref_Box) (c : P.versions.Constraints),
      b.ResourceId = "" → b.Name ≠ "" → b.Version ≠ "0" →
      ((P.versions.NewVersion b.Version).isSome = false ∨ b.Provider = "") →
      P.versions.NewConstraint
        (if b.Version = "" then DEFAULT_BOX_CONSTRAINT else b.Version) = some c →
      (∀ row ∈ s.db.boxes, row.Name = b.Name → (b.Provider ≠ "" → row.Provider = b.Provider) →
        ∃ v, P.versions.NewVersion row.Version = some v ∧ P.versions.Check c v = false) →
      s.BoxFind P (some b) = .ok none) ∧
    (∀ p : vagrant_server.Project, p.Basis = none →
      s.ProjectFind (some p) =
        .error (lookupErrorToStatus "project" (.Wrap .ErrMissingProtoParent))) ∧
    (∀ (p : vagrant_server.Project) (basis : vagrant_plugin_sdk.Ref_Basis),
      p.Basis = some basis →
      (∀ row ∈ s.db.projects,
        ¬ ((p.Name ≠ "" → row.Name = p.Name) ∧ (p.Path ≠ "" → row.Path = p.Path))) →
      s.ProjectFind (some p) =
        .error (lookupErrorToStatus "project" (.Wrap .ErrRecordNotFound))) ∧
    (∀ t : vagrant_server.Target,
      (t.ResourceId = "" ∨ ∀ row ∈ s.db.targets, row.ResourceId ≠ t.ResourceId) →
      t.Uuid = "" → t.Name = "" →
      s.TargetFind P (some t) = .error (lookupErrorToStatus "target" .ErrRecordNotFound)) ∧
    (∀ (t : vagrant_server.Target) (project : vagrant_plugin_sdk.Ref_Project),
      (t.ResourceId = "" ∨ ∀ row ∈ s.db.targets, row.ResourceId ≠ t.ResourceId) →
      t.Project = some project → t.Name ≠ "" →
      (∀ row ∈ s.db.targets,
        s.projectResourceIdIs project.ResourceId row = true → row.Name ≠ t.Name) →
      s.TargetFind P (some t) = .error (lookupErrorToStatus "target" .ErrRecordNotFound)) ∧
    (∀ t : vagrant_server.Target,
      (t.ResourceId = "" ∨ ∀ row ∈ s.db.targets, row.ResourceId ≠ t.ResourceId) →
      t.Project = none → t.Uuid ≠ "" →
      (∀ row ∈ s.db.targets, ∀ uuid, row.Uuid = some uuid →
        P.like ("%" ++ t.Uuid ++ "%") uuid = false) →
      s.TargetFind P (some t) = .error (lookupErrorToStatus "target" .ErrRecordNotFound)) := by
  refine ⟨?_, ?_, ?_, ?_, ?_, ?_, ?_, ?_, ?_, ?_⟩
  · intro b hid hnone
    simp only [State.BoxFind, Option.getD_some, hid, ne_eq, not_false_eq_true, if_true]
    rw [BoxFromProtoRef_miss s b (Or.inr hnone)]
  · intro b hzero
    have hne : DEFAULT_BOX_VERSION ≠ "0" := by decide
    simp only [State.BoxFind, Option.getD_some, State.BoxFromProtoRef, hzero, hne, if_true,
      if_false]
  · intro b hb_id hb_name hb_none
    have hcond : ∀ row ∈ s.db.boxes,
        Box.cond { Name := b.Name, Provider := b.Provider } row = false := by
      intro row hrow
      apply Bool.eq_false_iff.mpr
      intro hc
      rw [Box_cond_name_provider] at hc
      exact hb_none row hrow ⟨hc.1 hb_name, hc.2⟩
    simp only [State.BoxFind, Option.getD_some, hb_id, hb_name, ne_eq, not_true_eq_false,
      if_false]
    apply boxFindNamed_none
    · split <;> simp [hb_id]
    · split <;> simpa using hcond
  · intro b hid hname hzero hversion hprovider hnone
    simp only [State.BoxFind, Option.getD_some, hid, hname, hzero, ne_eq, not_true_eq_false,
      if_false]
    exact boxFindNamed_direct_none P s b (by simp [hversion, hprovider]) hid hnone
  · intro b c hid hname hzero hmatcher hc hnone
    simp only [State.BoxFind, Option.getD_some, hid, hname, hzero, ne_eq, not_true_eq_false,
      if_false]
    apply boxFindNamed_unsatisfied P s b c _ hc
    · intro row hrow hcond
      rw [Box_cond_name_provider] at hcond
      exact hnone row hrow (hcond.1 hname) hcond.2
    · rcases hmatcher with h | h
      · simp [h]
      · simp [h]
  · intro p hbasis
    simp only [State.ProjectFind, State.ProjectFromProtoFuzzy]
    rw [ProjectFromProtoRefFuzzy_some]
    simp only [hbasis]
  · intro p basis hp_basis hp_none
    simp only [State.ProjectFind, State.ProjectFromProtoFuzzy]
    rw [ProjectFromProtoRefFuzzy_some]
    simp only [hp_basis]
    rw [projectByScope_none s _ basis hp_none]
  · intro t ht_id huuid hname
    have hmiss := TargetFromProto_miss s t ht_id
    simp only [State.TargetFind]
    rw [TargetFromProtoFuzzy_after_miss P s t hmiss]
    simp only [huuid, hname, decide_True, Bool.and_self, if_true]
  · intro t project ht_id ht_project ht_name ht_none
    have hmiss := TargetFromProto_miss s t ht_id
    simp only [State.TargetFind]
    rw [TargetFromProtoFuzzy_after_miss P s t hmiss]
    simp only [ht_project, ht_name, Bool.and_false, Bool.false_eq_true, if_false,
      Option.isNone_some, Bool.false_and, decide_False]
    rw [targetInProject_none s project t
      (fun row hrow hscope hc => ht_none row hrow hscope (hc ht_name))]
  · intro t ht_id ht_project ht_uuid ht_none
    have hmiss := TargetFromProto_miss s t ht_id
    simp only [State.TargetFind]
    rw [TargetFromProtoFuzzy_after_miss P s t hmiss]
    simp only [ht_project, ht_uuid, decide_False, Bool.false_and, Bool.and_false,
      Bool.false_eq_true, if_false]
    rw [targetByUuidLike_none P s t ht_none]

/-- C6 (witness): queries against the example store that match nothing: a
catalog entry by an absent name, by a version that is not stored, by a
constraint that no stored version satisfies, and by an absent identifier; a
project by an absent name; a target by an absent name. -/
theorem Find_without_match_witness :
    examples.workspace.BoxFind (numericPlatform true) (some { Name := "debian" }) = .ok none ∧
    examples.workspace.BoxFind (numericPlatform true)
        (some { Name := "ubuntu", Provider := "virtualbox", Version := "3.0.0" }) = .ok none ∧
    examples.workspace.BoxFind (numericPlatform true)
        (some { Name := "ubuntu", Version := "> 2.0" }) = .ok none ∧
    examples.workspace.BoxFind (numericPlatform true) (some { ResourceId := "box-9" }) =
      .error (lookupErrorToStatus "box" .ErrRecordNotFound) ∧
    examples.workspace.ProjectFind
        (some { Name := "absent", Basis := some { ResourceId := "basis-1" } }) =
      .error (lookupErrorToStatus "project" (.Wrap .ErrRecordNotFound)) ∧
    examples.workspace.TargetFind (numericPlatform true)
        (some { ResourceId := "target-9", Name := "absent",
                Project := some { ResourceId := "project-1" } }) =
      .error (lookupErrorToStatus "target" .ErrRecordNotFound) :=
  ⟨(Find_without_match (numericPlatform true) examples.workspace).2.2.1
      { Name := "debian" } rfl (by decide) (by decide),
    rfl, rfl,
    (Find_without_match (numericPlatform true) examples.workspace).1
      { ResourceId := "box-9" } (by decide) (by decide),
    (Find_without_match (numericPlatform true) examples.workspace).2.2.2.2.2.2.1
      { Name := "absent", Basis := some { ResourceId := "basis-1" } } { ResourceId := "basis-1" }
      rfl (by decide),
    (Find_without_match (numericPlatform true) examples.workspace).2.2.2.2.2.2.2.2.1
      { ResourceId := "target-9", Name := "absent",
        Project := some { ResourceId := "project-1" } }
      { ResourceId := "project-1" } (Or.inr (by decide)) rfl (by decide) (by decide)⟩

/-- C6 (as stated, refuted): against the empty store, a catalog query with an
identifier, a project query with a parent scope and a name and a target query
with a project and a name are well formed and match nothing, and each returns
an error instead of a nil record. -/
theorem Find_absent_is_error :
    ({} : State).BoxFind (numericPlatform true) (some { ResourceId := "box-1" }) =
      .error (lookupErrorToStatus "box" .ErrRecordNotFound) ∧
    ({} : State).ProjectFind
        (some { Name := "p1", Basis := some { ResourceId := "basis-1" } }) =
      .error (lookupErrorToStatus "project" (.Wrap .ErrRecordNotFound)) ∧
    ({} : State).TargetFind (numericPlatform true)
        (some { Name := "t1", Project := some { ResourceId := "project-1" } }) =
      .error (lookupErrorToStatus "target" .ErrRecordNotFound) :=
  ⟨rfl, rfl, rfl⟩

/-! ## Delete -/

/-- C18: Delete with a reference that resolves to no stored record (its
identifier is empty or held by no row) returns no error and leaves the store
as it is, so that a second Delete of the same reference does the same; a
resolution error that is not `ErrRecordNotFound`, as for a nil reference, comes
back as a status error and no store results. -/
theorem Delete_unresolved (s : State) (b : vagrant_plugin_sdk.Ref_Box)
    (p : vagrant_plugin_sdk.Ref_Project) (t : vagrant_plugin_sdk.Ref_Target)
    (hb : b.ResourceId = "" ∨ ∀ row ∈ s.db.boxes, row.ResourceId ≠ b.ResourceId)
    (hp : p.ResourceId = "" ∨ ∀ row ∈ s.db.projects, row.ResourceId ≠ p.ResourceId)
    (ht : t.ResourceId = "" ∨ ∀ row ∈ s.db.targets, row.ResourceId ≠ t.ResourceId) :
    (s.BoxDelete (some b) = .ok s ∧ s.ProjectDelete (some p) = .ok s ∧
      s.TargetDelete (some t) = .ok s) ∧
    ((s.BoxDelete (some b)).bind (fun s' => s'.BoxDelete (some b)) = .ok s ∧
      (s.ProjectDelete (some p)).bind (fun s' => s'.ProjectDelete (some p)) = .ok s ∧
      (s.TargetDelete (some t)).bind (fun s' => s'.TargetDelete (some t)) = .ok s) ∧
    (s.BoxDelete none = .error (deleteErrorToStatus "box" .ErrEmptyProtoArgument) ∧
      s.ProjectDelete none = .error (deleteErrorToStatus "project" .ErrEmptyProtoArgument) ∧
      s.TargetDelete none = .error (lookupErrorToStatus "target" .ErrEmptyProtoArgument)) ∧
    (∀ ref err, s.BoxFromProtoRef ref = .error err → err.isNotFound = false →
      s.BoxDelete ref = .error (deleteErrorToStatus "box" err)) ∧
    (∀ ref err, s.ProjectFromProtoRef ref = .error err → err.isNotFound = false →
      s.ProjectDelete ref = .error (deleteErrorToStatus "project" err)) ∧
    (∀ ref err, s.TargetFromProtoRef ref = .error err → err.isNotFound = false →
      s.TargetDelete ref = .error (lookupErrorToStatus "target" err)) := by
  have h1 : s.BoxDelete (some b) = .ok s := by
    simp only [State.BoxDelete, BoxFromProtoRef_miss s b hb, Error.isNotFound, if_true]
  have h2 : s.ProjectDelete (some p) = .ok s := by
    simp only [State.ProjectDelete, ProjectFromProtoRef_miss s p hp, Error.isNotFound, if_true]
  have h3 : s.TargetDelete (some t) = .ok s := by
    simp only [State.TargetDelete, TargetFromProtoRef_miss s t ht, Error.isNotFound, if_true]
  refine ⟨⟨h1, h2, h3⟩, ⟨?_, ?_, ?_⟩, ⟨rfl, rfl, rfl⟩, ?_, ?_, ?_⟩
  · rw [h1]; exact h1
  · rw [h2]; exact h2
  · rw [h3]; exact h3
  · intro ref err hres hnf
    simp only [State.BoxDelete, hres, hnf, Bool.false_eq_true, if_false]
  · intro ref err hres hnf
    simp only [State.ProjectDelete, hres, hnf, Bool.false_eq_true, if_false]
  · intro ref err hres hnf
    simp only [State.TargetDelete, hres, hnf, Bool.false_eq_true, if_false]

/-- C18 (witness): an unknown identifier for the catalog, an empty one for the
project, an unknown one for the target, against the example store. -/
theorem Delete_unresolved_witness :
    examples.fleet.BoxDelete (some { ResourceId := "box-9" }) = .ok examples.fleet ∧
    examples.fleet.ProjectDelete (some { Name := "p1" }) = .ok examples.fleet ∧
    examples.fleet.TargetDelete (some { ResourceId := "target-9" }) = .ok examples.fleet :=
  (Delete_unresolved examples.fleet { ResourceId := "box-9" } { Name := "p1" }
    { ResourceId := "target-9" } (Or.inr (by decide)) (Or.inl rfl) (Or.inr (by decide))).1

/-- What the three Delete operations return when the delete of the resolved
record fails in the store with `e`: `BoxDelete` and `TargetDelete` hand `e` to
`deleteErrorToStatus`, `ProjectDelete` hands it a nil error. -/
theorem Delete_storage_failure (s : State) :
    (∀ ref box e, s.BoxFromProtoRef ref = .ok box →
      deleteByID Box.ID box.ID s.db.boxes = .error e →
      s.BoxDelete ref = .error (deleteErrorToStatus "box" e)) ∧
    (∀ ref target e, s.TargetFromProtoRef ref = .ok target →
      s.deleteTarget target = .error e →
      s.TargetDelete ref = .error (deleteErrorToStatus "target" e)) ∧
    (∀ ref project e, s.ProjectFromProtoRef ref = .ok project →
      s.deleteProject project = .error e →
      s.ProjectDelete ref = .error (deleteErrorToStatusOfNil "project")) := by
  refine ⟨?_, ?_, ?_⟩
  · intro ref box e hres hfail
    simp only [State.BoxDelete, hres, hfail]
  · intro ref target e hres hfail
    simp only [State.TargetDelete, hres, hfail]
  · intro ref project e hres hfail
    simp only [State.ProjectDelete, hres, hfail]

/-- C20: when the delete of a resolved project fails, `ProjectDelete` does not
return the status of the failure.  In the store `nested` the reference resolves
to `project-1`, the delete fails in the cascade with `ErrRecordNotFound`, and
`ProjectDelete` returns the status built from a nil error, which is not
`deleteErrorToStatus "project"` of the failure. -/
theorem ProjectDelete_loses_storage_error :
    (examples.nested.ProjectFromProtoRef (some { ResourceId := "project-1" })).map
        Project.ID = .ok 1 ∧
    (∀ project,
      examples.nested.ProjectFromProtoRef (some { ResourceId := "project-1" }) = .ok project →
        examples.nested.deleteProject project = .error .ErrRecordNotFound) ∧
    examples.nested.ProjectDelete (some { ResourceId := "project-1" }) =
      .error (deleteErrorToStatusOfNil "project") ∧
    deleteErrorToStatusOfNil "project" ≠ deleteErrorToStatus "project" .ErrRecordNotFound := by
  refine ⟨rfl, ?_, rfl, by decide⟩
  intro project h
  have : project = examples.nested.loadProject
      { ID := 1, BasisID := 1, Name := "p1", Path := "/a", ResourceId := "project-1" } := by
    have h' : examples.nested.ProjectFromProtoRef (some { ResourceId := "project-1" }) =
        .ok (examples.nested.loadProject
          { ID := 1, BasisID := 1, Name := "p1", Path := "/a", ResourceId := "project-1" }) :=
      rfl
    rw [h'] at h
    cases h
    rfl
  subst this
  rfl

/-! ## Saving catalog entries -/

/-- What the hook `BeforeSave` of a catalog entry returns: the record with an
identifier if it had none and with the version default applied, and only if
that record is valid. -/
theorem Box_BeforeSave_ok (L : VersionLib) (s : State) (newId : Except Error String)
    (b saved : Box) (h : b.BeforeSave L s newId = .ok saved) :
    saved.Validate L s = .ok () ∧
    saved.Version =
      (if b.Version = "" ∨ b.Version = "0" then DEFAULT_BOX_VERSION else b.Version) ∧
    saved.ID = b.ID ∧ saved.Name = b.Name ∧ saved.Provider = b.Provider ∧
    saved.Directory = b.Directory ∧
    (b.ResourceId ≠ "" → saved.ResourceId = b.ResourceId) ∧
    (b.ResourceId = "" → newId = .ok saved.ResourceId) := by
  unfold Box.BeforeSave at h
  simp only at h
  cases hw : (if b.ResourceId = "" then b.setId newId else Except.ok b) with
  | error e => rw [hw] at h; cases h
  | ok b1 =>
    rw [hw] at h
    simp only at h
    cases hv : Box.Validate L s
        (if (b1.Version = "" || b1.Version = "0") = true then
          { b1 with Version := DEFAULT_BOX_VERSION } else b1) with
    | error e => rw [hv] at h; cases h
    | ok u =>
      rw [hv] at h
      cases h
      have hb1 : b1.Version = b.Version ∧ b1.ID = b.ID ∧ b1.Name = b.Name ∧
          b1.Provider = b.Provider ∧ b1.Directory = b.Directory ∧
          (b.ResourceId ≠ "" → b1.ResourceId = b.ResourceId) ∧
          (b.ResourceId = "" → newId = .ok b1.ResourceId) := by
        by_cases hid : b.ResourceId = ""
        · rw [if_pos hid] at hw
          unfold Box.setId at hw
          cases hn : newId with
          | error e => rw [hn] at hw; cases hw
          | ok id =>
            rw [hn] at hw
            cases hw
            exact ⟨rfl, rfl, rfl, rfl, rfl, fun h => absurd hid h, fun _ => rfl⟩
        · rw [if_neg hid] at hw
          cases hw
          exact ⟨rfl, rfl, rfl, rfl, rfl, fun _ => rfl, fun h => absurd h hid⟩
      obtain ⟨hV, hI, hN, hP, hD, hR1, hR2⟩ := hb1
      refine ⟨hv, ?_, ?_, ?_, ?_, ?_, ?_, ?_⟩
      · rw [← hV]
        by_cases hc : b1.Version = "" ∨ b1.Version = "0"
        · have hc' : (b1.Version = "" || b1.Version = "0") = true := by simpa using hc
          rw [if_pos hc', if_pos hc]
        · have hc' : ¬ (b1.Version = "" || b1.Version = "0") = true := by simpa using hc
          rw [if_neg hc', if_neg hc]
      · rw [← hI]; split <;> rfl
      · rw [← hN]; split <;> rfl
      · rw [← hP]; split <;> rfl
      · rw [← hD]; split <;> rfl
      · intro hne
        rw [← hR1 hne]; split <;> rfl
      · intro he
        rw [hR2 he]
        congr 1
        split <;> rfl

/-- What a successful `upsertFull` of a catalog entry leaves in the table: the
record that the hook returned, under its key. -/
theorem upsertFullBox_ok (L : VersionLib) (s s' : State) (newId : Except Error String)
    (box stored : Box) (h : s.upsertFullBox L newId box = .ok (s', stored)) :
    ∃ saved, box.BeforeSave L s newId = .ok saved ∧
      stored.Version = saved.Version ∧ stored.Name = saved.Name ∧
      stored.Provider = saved.Provider ∧ stored.ResourceId = saved.ResourceId ∧
      stored ∈ s'.db.boxes ∧
      ((saved.ID = 0 ∧ stored = { saved with ID := nextID (s.db.boxes.map Box.ID) } ∧
          s'.db.boxes = s.db.boxes ++ [stored]) ∨
        (saved.ID ≠ 0 ∧ stored = saved ∧ (∃ row ∈ s.db.boxes, row.ID = saved.ID) ∧
          s'.db.boxes = s.db.boxes.map (fun row => if row.ID = saved.ID then saved else row)) ∨
        (saved.ID ≠ 0 ∧ stored = saved ∧ (∀ row ∈ s.db.boxes, row.ID ≠ saved.ID) ∧
          s'.db.boxes = s.db.boxes ++ [stored])) := by
  unfold State.upsertFullBox at h
  cases hb : box.BeforeSave L s newId with
  | error e => rw [hb] at h; cases h
  | ok saved =>
    rw [hb] at h
    simp only at h
    refine ⟨saved, rfl, ?_⟩
    by_cases hz : saved.ID = 0
    · rw [if_pos hz] at h
      simp only [Except.ok.injEq, Prod.mk.injEq] at h
      obtain ⟨hs, hst⟩ := h
      subst hs hst
      exact ⟨rfl, rfl, rfl, rfl, by simp, Or.inl ⟨hz, rfl, rfl⟩⟩
    · rw [if_neg hz] at h
      by_cases hany : (s.db.boxes.any fun row => decide (row.ID = saved.ID)) = true
      · rw [if_pos hany] at h
        simp only [Except.ok.injEq, Prod.mk.injEq] at h
        obtain ⟨hs, hst⟩ := h
        subst hs hst
        simp only [List.any_eq_true, decide_eq_true_eq] at hany
        obtain ⟨r0, hr0, hr0id⟩ := hany
        refine ⟨rfl, rfl, rfl, rfl, ?_, Or.inr (Or.inl ⟨hz, rfl, ⟨r0, hr0, hr0id⟩, rfl⟩)⟩
        simp only [List.mem_map]
        exact ⟨r0, hr0, by simp [hr0id]⟩
      · rw [if_neg hany] at h
        simp only [Except.ok.injEq, Prod.mk.injEq] at h
        obtain ⟨hs, hst⟩ := h
        subst hs hst
        refine ⟨rfl, rfl, rfl, rfl, by simp, Or.inr (Or.inr ⟨hz, rfl, ?_, rfl⟩)⟩
        intro row hrow hrid
        apply hany
        simp only [List.any_eq_true, decide_eq_true_eq]
        exact ⟨row, hrow, hrid⟩

/-- C19: the hook `BeforeSave` of a catalog entry replaces an empty version and
the version `0` by `0.0.0`, keeps every other version, and validates the
record it returns, which has the default applied; hence the entry that a
successful save stores has neither the version `""` nor `"0"`. -/
theorem Box_BeforeSave_version_default (L : VersionLib) (s : State)
    (newId : Except Error String) (b saved : Box)
    (h : b.BeforeSave L s newId = .ok saved) :
    saved.Version =
      (if b.Version = "" ∨ b.Version = "0" then DEFAULT_BOX_VERSION else b.Version) ∧
    saved.Validate L s = .ok () ∧
    saved.Version ≠ "" ∧ saved.Version ≠ "0" ∧
    ∀ s' stored, s.upsertFullBox L newId b = .ok (s', stored) →
      stored ∈ s'.db.boxes ∧ stored.Version = saved.Version ∧
        stored.Version ≠ "" ∧ stored.Version ≠ "0" := by
  obtain ⟨hvalid, hversion, _⟩ := Box_BeforeSave_ok L s newId b saved h
  have hne : saved.Version ≠ "" ∧ saved.Version ≠ "0" := by
    rw [hversion]
    by_cases hc : b.Version = "" ∨ b.Version = "0"
    · rw [if_pos hc]
      exact ⟨by decide, by decide⟩
    · rw [if_neg hc]
      exact ⟨fun h => hc (Or.inl h), fun h => hc (Or.inr h)⟩
  refine ⟨hversion, hvalid, hne.1, hne.2, ?_⟩
  intro s' stored hup
  obtain ⟨saved', hsaved', hv, _, _, _, hmem, _⟩ := upsertFullBox_ok L s s' newId b stored hup
  rw [h] at hsaved'
  cases hsaved'
  exact ⟨hmem, hv, hv ▸ hne.1, hv ▸ hne.2⟩

/-- C19 (witness): an entry given without version is valid in the empty store
once the default is applied. -/
theorem Box_BeforeSave_version_default_witness :
    ({ examples.unversioned with ResourceId := "box-1", Version := "0.0.0" } : Box).Version =
      (if examples.unversioned.Version = "" ∨ examples.unversioned.Version = "0"
        then DEFAULT_BOX_VERSION else examples.unversioned.Version) ∧
    ({ examples.unversioned with ResourceId := "box-1", Version := "0.0.0" } : Box).Validate
      numericVersions {} = .ok () ∧
    ({ examples.unversioned with ResourceId := "box-1", Version := "0.0.0" } : Box).Version
      ≠ "" ∧
    ({ examples.unversioned with ResourceId := "box-1", Version := "0.0.0" } : Box).Version
      ≠ "0" ∧
    ∀ s' stored,
      ({} : State).upsertFullBox numericVersions (.ok "box-1") examples.unversioned =
          .ok (s', stored) →
        stored ∈ s'.db.boxes ∧
        stored.Version =
          ({ examples.unversioned with ResourceId := "box-1", Version := "0.0.0" } : Box).Version ∧
        stored.Version ≠ "" ∧ stored.Version ≠ "0" :=
  Box_BeforeSave_version_default numericVersions {} (.ok "box-1") examples.unversioned
    { examples.unversioned with ResourceId := "box-1", Version := "0.0.0" } rfl

/-- A valid catalog entry has a name, a provider and a version, and no other
row has its triple. -/
theorem Box_Validate_ok (L : VersionLib) (s : State) (b : Box)
    (h : b.Validate L s = .ok ()) :
    b.Name ≠ "" ∧ b.Provider ≠ "" ∧ b.Version ≠ "" ∧
    (∀ row ∈ s.db.boxes, notID b.ID row.ID = true → ¬ row.sameTriple b) ∧
    (b.ID ≠ 0 → s.boxResourceIdChanged b = false) := by
  unfold Box.Validate at h
  cases hf : validateStruct (b.fields L s) with
  | error e => rw [hf] at h; cases h
  | ok u =>
    rw [hf] at h
    simp only at h
    rw [validateStruct_ok] at hf
    unfold Box.fields at hf
    have hName := hf _ (List.mem_cons_of_mem _ (List.mem_cons_self _ _))
    have hProvider := hf _
      (List.mem_cons_of_mem _ (List.mem_cons_of_mem _ (List.mem_cons_self _ _)))
    have hId := hf _ (List.mem_cons_of_mem _
      (List.mem_cons_of_mem _ (List.mem_cons_of_mem _ (List.mem_cons_self _ _))))
    have hVersion := hf _ (List.mem_cons_of_mem _ (List.mem_cons_of_mem _
      (List.mem_cons_of_mem _ (List.mem_cons_of_mem _ (List.mem_cons_self _ _)))))
    rw [field_eq_nil] at hName hProvider hId hVersion
    have hN : b.Name ≠ "" := by
      have := hName _ (List.mem_cons_self _ _)
      intro hc
      simp [required, hc] at this
    have hP : b.Provider ≠ "" := by
      have := hProvider _ (List.mem_cons_self _ _)
      intro hc
      simp [required, hc] at this
    have hV : b.Version ≠ "" := by
      have := hVersion _ (List.mem_cons_self _ _)
      intro hc
      simp [required, hc] at this
    refine ⟨hN, hP, hV, ?_, ?_⟩
    · intro row hrow hnot hsame
      cases ht : checkUnique (b.tripleTaken s) with
      | some msg => rw [ht] at h; cases h
      | none =>
        have htaken : b.tripleTaken s = false := by
          by_contra hc
          simp [checkUnique, hc] at ht
        unfold Box.tripleTaken at htaken
        rw [List.any_eq_false] at htaken
        apply htaken row hrow
        obtain ⟨h1, h2, h3⟩ := hsame
        simp [Box.cond, h1, h2, h3, hnot]
    · intro hid
      have := hId _ (List.mem_cons_of_mem _ (List.mem_cons_of_mem _ (List.mem_cons_self _ _)))
      simp only [when_, checkNotModified, hid, ne_eq, not_false_eq_true, decide_True,
        if_true] at this
      by_contra hc
      simp [hc] at this

/-- A successful save of a catalog entry keeps the keys and the triples of the
catalog pairwise distinct. -/
theorem upsertFullBox_TripleUnique (L : VersionLib) (s s' : State)
    (newId : Except Error String) (box stored : Box)
    (h : s.upsertFullBox L newId box = .ok (s', stored)) (hu : s.TripleUnique) :
    s'.TripleUnique := by
  obtain ⟨saved, hsaved, _, _, _, _, _, hcases⟩ := upsertFullBox_ok L s s' newId box stored h
  obtain ⟨hvalid, _⟩ := Box_BeforeSave_ok L s newId box saved hsaved
  obtain ⟨_, _, _, hother, _⟩ := Box_Validate_ok L s saved hvalid
  unfold State.TripleUnique at hu ⊢
  rcases hcases with ⟨hz, hst, hrows⟩ | ⟨hnz, hst, _, hrows⟩ | ⟨hnz, hst, hnone, hrows⟩
  · rw [hrows, List.pairwise_append]
    refine ⟨hu, List.pairwise_singleton _ _, ?_⟩
    intro a ha b hb
    rw [List.mem_singleton] at hb
    subst hb
    have hlt := nextID_gt (s.db.boxes.map Box.ID) a.ID (List.mem_map_of_mem _ ha)
    refine ⟨?_, ?_⟩
    · rw [hst]
      show a.ID ≠ nextID (s.db.boxes.map Box.ID)
      omega
    · intro hs
      apply hother a ha (by simp [notID, hz])
      rw [hst] at hs
      exact hs
  · subst hst
    rw [hrows, List.pairwise_map]
    refine hu.imp_of_mem ?_
    intro a b ha hb hab
    by_cases hai : a.ID = stored.ID <;> by_cases hbi : b.ID = stored.ID
    · exact absurd (hai.trans hbi.symm) hab.1
    · simp only [hai, hbi, if_true, if_false]
      refine ⟨fun hc => hbi hc.symm, ?_⟩
      intro hs
      apply hother b hb (by simp [notID, hbi])
      exact ⟨hs.1.symm, hs.2.1.symm, hs.2.2.symm⟩
    · simp only [hai, hbi, if_true, if_false]
      refine ⟨hai, ?_⟩
      intro hs
      exact hother a ha (by simp [notID, hai]) hs
    · simp only [hai, hbi, if_false]
      exact hab
  · subst hst
    rw [hrows, List.pairwise_append]
    refine ⟨hu, List.pairwise_singleton _ _, ?_⟩
    intro a ha b hb
    rw [List.mem_singleton] at hb
    subst hb
    refine ⟨hnone a ha, ?_⟩
    intro hs
    exact hother a ha (by simp [notID, hnone a ha]) hs

/-- A record whose identifier is empty or held by no stored entry is saved as a
new entry. -/
theorem BoxPut_new (L : VersionLib) (s : State) (newId : Except Error String)
    (b : vagrant_server.Box)
    (hnew : b.ResourceId = "" ∨ ∀ row ∈ s.db.boxes, row.ResourceId ≠ b.ResourceId) :
    s.BoxPut L newId (some b) = s.boxPutOnto L newId b {} := by
  simp only [State.BoxPut, State.BoxFromProto]
  rw [BoxFromProtoRef_miss s { ResourceId := b.ResourceId } hnew]
  simp [Error.isNotFound]

/-- The hook `BeforeSave` of a catalog entry is the validation of the prepared
record. -/
theorem Box_BeforeSave_prepared (L : VersionLib) (s : State) (id : String) (b : Box) :
    b.BeforeSave L s (.ok id) =
      match (b.prepared id).Validate L s with
      | .error err => .error err
      | .ok _ => .ok (b.prepared id) := by
  unfold Box.BeforeSave Box.prepared Box.setId
  by_cases hid : b.ResourceId = "" <;> simp [hid]

/-- The record prepared from a new external record. -/
theorem softDecodeBox_prepared (id : String) (b : vagrant_server.Box) :
    ((softDecodeBox b {}).prepared id).ID = 0 ∧
    ((softDecodeBox b {}).prepared id).Name = b.Name ∧
    ((softDecodeBox b {}).prepared id).Provider = b.Provider ∧
    ((softDecodeBox b {}).prepared id).Directory = b.Directory ∧
    ((softDecodeBox b {}).prepared id).Version =
      (if b.Version = "" ∨ b.Version = "0" then DEFAULT_BOX_VERSION else b.Version) ∧
    ((softDecodeBox b {}).prepared id).ResourceId =
      (if b.ResourceId = "" then id else b.ResourceId) := by
  unfold Box.prepared softDecodeBox
  by_cases hid : b.ResourceId = "" <;> by_cases hv : b.Version = "" <;>
    by_cases hz : b.Version = "0" <;> by_cases hn : b.Name = "" <;>
    by_cases hp : b.Provider = "" <;> by_cases hd : b.Directory = "" <;>
    simp [hid, hv, hz, hn, hp, hd]

/-- C14 (as amended): saving a new catalog entry whose (name, provider,
version) triple, compared after the version default, is the triple of a stored
entry fails and stores nothing.  The error is the one of the field rules of
`Box.Validate` when the prepared record breaks one of them, and the `name,
provider and version` uniqueness error when it passes them.  Every successful
`BoxPut` and `BoxDelete` keeps the keys and the triples of the catalog pairwise
distinct, as they are in the empty store. -/
theorem BoxPut_duplicate_triple (L : VersionLib) (s : State) (id : String)
    (b : vagrant_server.Box) (row : Box)
    (hnew : b.ResourceId = "" ∨ ∀ r ∈ s.db.boxes, r.ResourceId ≠ b.ResourceId)
    (hrow : row ∈ s.db.boxes) (hname : row.Name = b.Name)
    (hprovider : row.Provider = b.Provider)
    (hversion : row.Version =
      (if b.Version = "" ∨ b.Version = "0" then DEFAULT_BOX_VERSION else b.Version)) :
    (∃ box : Box, box.ID = 0 ∧ box.Name = b.Name ∧ box.Provider = b.Provider ∧
      box.Directory = b.Directory ∧ box.Version = row.Version ∧
      box.ResourceId = (if b.ResourceId = "" then id else b.ResourceId) ∧
      s.BoxPut L (.ok id) (some b) =
        .error (saveErrorToStatus "box"
          (match validateStruct (box.fields L s) with
            | .error err => err
            | .ok _ => .Errorf "name, provider and version must be unique"))) ∧
    (∀ newId b' s', s.BoxPut L newId b' = .ok s' → s.TripleUnique → s'.TripleUnique) ∧
    (∀ ref s', s.BoxDelete ref = .ok s' → s.TripleUnique → s'.TripleUnique) ∧
    ({} : State).TripleUnique := by
  refine ⟨?_, ?_, ?_, ?_⟩
  · obtain ⟨hID, hN, hP, hD, hV, hR⟩ := softDecodeBox_prepared id b
    refine ⟨(softDecodeBox b {}).prepared id, hID, hN, hP, hD, hV.trans hversion.symm, hR, ?_⟩
    have htaken : ((softDecodeBox b {}).prepared id).tripleTaken s = true := by
      unfold Box.tripleTaken
      rw [List.any_eq_true]
      refine ⟨row, hrow, ?_⟩
      simp [Box.cond, hID, hN, hP, hV, hname, hprovider, hversion, notID]
    rw [BoxPut_new L s (.ok id) b hnew]
    unfold State.boxPutOnto State.upsertFullBox
    rw [Box_BeforeSave_prepared]
    unfold Box.Validate
    cases hf : validateStruct (((softDecodeBox b {}).prepared id).fields L s) with
    | error e => rfl
    | ok u =>
      simp only [htaken, checkUnique, if_true]
      rfl
  · intro newId b' s' hput hu
    cases b' with
    | none => simp [State.BoxPut] at hput
    | some b' =>
      have key : ∀ box0, s.boxPutOnto L newId b' box0 = .ok s' → s'.TripleUnique := by
        intro box0 honto
        unfold State.boxPutOnto at honto
        cases hup : s.upsertFullBox L newId (softDecodeBox b' box0) with
        | error e => rw [hup] at honto; cases honto
        | ok r =>
          obtain ⟨s1, stored⟩ := r
          rw [hup] at honto
          cases honto
          exact upsertFullBox_TripleUnique L s s' newId _ stored hup hu
      unfold State.BoxPut at hput
      simp only at hput
      cases hres : s.BoxFromProto (some b') with
      | error e =>
        rw [hres] at hput
        simp only at hput
        by_cases hn : (!e.isNotFound) = true
        · rw [if_pos hn] at hput
          cases hput
        · rw [if_neg hn] at hput
          exact key _ hput
      | ok box0 =>
        rw [hres] at hput
        exact key _ hput
  · intro ref s' hdel hu
    unfold State.BoxDelete at hdel
    cases hres : s.BoxFromProtoRef ref with
    | error e =>
      rw [hres] at hdel
      simp only at hdel
      by_cases hn : e.isNotFound = true
      · rw [if_pos hn] at hdel
        cases hdel
        exact hu
      · rw [if_neg hn] at hdel
        cases hdel
    | ok box =>
      rw [hres] at hdel
      simp only at hdel
      unfold deleteByID at hdel
      by_cases hz : box.ID = 0
      · rw [if_pos hz] at hdel
        cases hdel
      · rw [if_neg hz] at hdel
        cases hdel
        unfold State.TripleUnique at hu ⊢
        exact hu.filter _
  · unfold State.TripleUnique
    exact List.Pairwise.nil

/-- C14 (witness): the record `duplicate` against the three-version catalog
passes the field rules and fails on the triple. -/
theorem BoxPut_duplicate_triple_witness :
    ∃ box : Box, box.ID = 0 ∧ box.Name = examples.duplicate.Name ∧
      box.Provider = examples.duplicate.Provider ∧
      box.Directory = examples.duplicate.Directory ∧
      box.Version = (examples.ubuntu 1 "1.0.0").Version ∧
      box.ResourceId =
        (if examples.duplicate.ResourceId = "" then "box-new"
          else examples.duplicate.ResourceId) ∧
      examples.catalog.BoxPut numericVersions (.ok "box-new") (some examples.duplicate) =
        .error (saveErrorToStatus "box"
          (match validateStruct (box.fields numericVersions examples.catalog) with
            | .error err => err
            | .ok _ => .Errorf "name, provider and version must be unique")) :=
  (BoxPut_duplicate_triple numericVersions examples.catalog "box-new" examples.duplicate
    (examples.ubuntu 1 "1.0.0") (Or.inl rfl) (List.mem_cons_self _ _) rfl rfl rfl).1

/-- C14 (as stated, refuted): a new entry with the triple and the directory of
the stored `ubuntu` `1.0.0` fails with the error of the field `Directory`, not
with the `name, provider and version` error; the record `duplicate`, in another
directory, fails with the latter. -/
theorem BoxPut_duplicate_triple_field_error :
    examples.catalog.BoxPut numericVersions (.ok "box-new")
        (some { examples.duplicate with Directory := "/boxes/ubuntu/1.0.0" }) =
      .error (saveErrorToStatus "box" (.Validation [("Directory", "must be unique")])) ∧
    examples.catalog.BoxPut numericVersions (.ok "box-new") (some examples.duplicate) =
      .error (saveErrorToStatus "box"
        (.Errorf "name, provider and version must be unique")) :=
  ⟨rfl, rfl⟩

/-! ## Saving projects -/

/-- Saving a configuration record touches the configuration table only. -/
theorem saveVagrantfile_frame (s : State) (v : Vagrantfile) :
    (s.saveVagrantfile v).1.db.bases = s.db.bases ∧
    (s.saveVagrantfile v).1.db.projects = s.db.projects ∧
    (s.saveVagrantfile v).1.db.targets = s.db.targets ∧
    (s.saveVagrantfile v).1.db.boxes = s.db.boxes ∧
    (s.saveVagrantfile v).1.db.jobs = s.db.jobs := by
  unfold State.saveVagrantfile
  split
  · exact ⟨rfl, rfl, rfl, rfl, rfl⟩
  · split <;> exact ⟨rfl, rfl, rfl, rfl, rfl⟩

/-- The hook `BeforeUpdate` touches the configuration table and the associated
configuration of the record only. -/
theorem Project_BeforeUpdate_ok (s s1 : State) (p p1 : Project)
    (h : p.BeforeUpdate s = .ok (s1, p1)) :
    (s1.db.bases = s.db.bases ∧ s1.db.projects = s.db.projects ∧
      s1.db.targets = s.db.targets ∧ s1.db.boxes = s.db.boxes ∧ s1.db.jobs = s.db.jobs) ∧
    p1.ID = p.ID ∧ p1.Name = p.Name ∧ p1.Path = p.Path ∧ p1.Basis = p.Basis ∧
    p1.BasisID = p.BasisID ∧ p1.ResourceId = p.ResourceId := by
  unfold Project.BeforeUpdate at h
  split at h
  · rename_i given id _ _
    split at h
    · split at h
      · cases h
      · simp only [Except.ok.injEq, Prod.mk.injEq] at h
        obtain ⟨hs, hp⟩ := h
        subst hs hp
        exact ⟨saveVagrantfile_frame s _, rfl, rfl, rfl, rfl, rfl, rfl⟩
    · simp only [Except.ok.injEq, Prod.mk.injEq] at h
      obtain ⟨hs, hp⟩ := h
      subst hs hp
      exact ⟨⟨rfl, rfl, rfl, rfl, rfl⟩, rfl, rfl, rfl, rfl, rfl, rfl⟩
  · simp only [Except.ok.injEq, Prod.mk.injEq] at h
    obtain ⟨hs, hp⟩ := h
    subst hs hp
    exact ⟨⟨rfl, rfl, rfl, rfl, rfl⟩, rfl, rfl, rfl, rfl, rfl, rfl⟩

/-- The hook `BeforeSave` of a project passes the record on, at most with a new
identifier, and only when it is valid. -/
theorem Project_BeforeSave_ok (s : State) (newId : Except Error String) (p saved : Project)
    (h : p.BeforeSave s newId = .ok saved) :
    saved.Validate s = .ok () ∧ saved.ID = p.ID ∧ saved.Name = p.Name ∧
    saved.Path = p.Path ∧ saved.Basis = p.Basis ∧ saved.BasisID = p.BasisID ∧
    saved.Vagrantfile = p.Vagrantfile ∧ saved.VagrantfileID = p.VagrantfileID ∧
    (p.ResourceId ≠ "" → saved.ResourceId = p.ResourceId) ∧
    (p.ResourceId = "" → newId = .ok saved.ResourceId) := by
  unfold Project.BeforeSave at h
  simp only at h
  cases hw : (if p.ResourceId = "" then p.setId newId else Except.ok p) with
  | error e => rw [hw] at h; cases h
  | ok p1 =>
    rw [hw] at h
    simp only at h
    cases hv : p1.Validate s with
    | error e => rw [hv] at h; cases h
    | ok u =>
      rw [hv] at h
      cases h
      refine ⟨hv, ?_⟩
      by_cases hid : p.ResourceId = ""
      · rw [if_pos hid] at hw
        unfold Project.setId at hw
        cases hn : newId with
        | error e => rw [hn] at hw; cases hw
        | ok id =>
          rw [hn] at hw
          cases hw
          exact ⟨rfl, rfl, rfl, rfl, rfl, rfl, rfl, fun h => absurd hid h, fun _ => rfl⟩
      · rw [if_neg hid] at hw
        cases hw
        exact ⟨rfl, rfl, rfl, rfl, rfl, rfl, rfl, fun _ => rfl, fun h => absurd h hid⟩

/-- What a successful `upsertFull` of a project does: the hooks and the save of
the configuration leave every table but the configuration table as it is and
change the associated configuration of the record only (`final`); then the row
is created, replaced with its identifier kept, or inserted. -/
theorem upsertFullProject_ok (s s' : State) (newId : Except Error String)
    (project stored : Project) (h : s.upsertFullProject newId project = .ok (s', stored)) :
    ∃ saved final : Project,
      project.BeforeSave s newId = .ok saved ∧
      (final.ID = saved.ID ∧ final.Name = saved.Name ∧ final.Path = saved.Path ∧
        final.Basis = saved.Basis ∧ final.BasisID = saved.BasisID ∧
        final.ResourceId = saved.ResourceId) ∧
      (s'.db.bases = s.db.bases ∧ s'.db.targets = s.db.targets ∧
        s'.db.boxes = s.db.boxes ∧ s'.db.jobs = s.db.jobs) ∧
      ((final.ID = 0 ∧ stored = { final with ID := nextID (s.db.projects.map Project.ID) } ∧
          s'.db.projects = s.db.projects ++ [stored.row]) ∨
        (final.ID ≠ 0 ∧ stored = final ∧ (∃ row ∈ s.db.projects, row.ID = final.ID) ∧
          s'.db.projects = s.db.projects.map (fun row =>
            if row.ID = final.ID then { final.row with ResourceId := row.ResourceId }
            else row)) ∨
        (final.ID ≠ 0 ∧ stored = final ∧ (∀ row ∈ s.db.projects, row.ID ≠ final.ID) ∧
          s'.db.projects = s.db.projects ++ [stored.row])) := by
  unfold State.upsertFullProject at h
  cases hb : project.BeforeSave s newId with
  | error e => rw [hb] at h; cases h
  | ok saved =>
    rw [hb] at h
    simp only at h
    cases hh : (if saved.ID ≠ 0 then saved.BeforeUpdate s else Except.ok (s, saved)) with
    | error e => rw [hh] at h; cases h
    | ok r =>
      obtain ⟨s1, p1⟩ := r
      rw [hh] at h
      simp only at h
      have hhook : (s1.db.bases = s.db.bases ∧ s1.db.projects = s.db.projects ∧
          s1.db.targets = s.db.targets ∧ s1.db.boxes = s.db.boxes ∧
          s1.db.jobs = s.db.jobs) ∧
          p1.ID = saved.ID ∧ p1.Name = saved.Name ∧ p1.Path = saved.Path ∧
          p1.Basis = saved.Basis ∧ p1.BasisID = saved.BasisID ∧
          p1.ResourceId = saved.ResourceId := by
        by_cases hz : saved.ID ≠ 0
        · rw [if_pos hz] at hh
          exact Project_BeforeUpdate_ok s s1 saved p1 hh
        · rw [if_neg hz] at hh
          simp only [Except.ok.injEq, Prod.mk.injEq] at hh
          obtain ⟨hs, hp⟩ := hh
          subst hs hp
          exact ⟨⟨rfl, rfl, rfl, rfl, rfl⟩, rfl, rfl, rfl, rfl, rfl, rfl⟩
      obtain ⟨⟨hB, hPr, hT, hBx, hJ⟩, hID, hN, hPa, hBa, hBI, hR⟩ := hhook
      -- the save of the associated configuration
      generalize hwc : (match p1.Vagrantfile with
        | some v => ((s1.saveVagrantfile v).1,
            { p1 with Vagrantfile := some (s1.saveVagrantfile v).2 })
        | none => (s1, p1)) = wc at h
      have hwcf : (wc.1.db.bases = s1.db.bases ∧ wc.1.db.projects = s1.db.projects ∧
          wc.1.db.targets = s1.db.targets ∧ wc.1.db.boxes = s1.db.boxes ∧
          wc.1.db.jobs = s1.db.jobs) ∧
          wc.2.ID = p1.ID ∧ wc.2.Name = p1.Name ∧ wc.2.Path = p1.Path ∧
          wc.2.Basis = p1.Basis ∧ wc.2.BasisID = p1.BasisID ∧
          wc.2.ResourceId = p1.ResourceId := by
        cases hv : p1.Vagrantfile with
        | none =>
          rw [hv] at hwc
          subst hwc
          exact ⟨⟨rfl, rfl, rfl, rfl, rfl⟩, rfl, rfl, rfl, rfl, rfl, rfl⟩
        | some v =>
          rw [hv] at hwc
          subst hwc
          exact ⟨saveVagrantfile_frame s1 v, rfl, rfl, rfl, rfl, rfl, rfl⟩
      obtain ⟨⟨wB, wPr, wT, wBx, wJ⟩, wID, wN, wPa, wBa, wBI, wR⟩ := hwcf
      refine ⟨saved, wc.2, rfl,
        ⟨wID.trans hID, wN.trans hN, wPa.trans hPa, wBa.trans hBa, wBI.trans hBI,
          wR.trans hR⟩, ?_⟩
      have hrows : wc.1.db.projects = s.db.projects := wPr.trans hPr
      by_cases hz : wc.2.ID = 0
      · rw [if_pos hz] at h
        simp only [Except.ok.injEq, Prod.mk.injEq] at h
        obtain ⟨hs, hst⟩ := h
        subst hs hst
        refine ⟨⟨wB.trans hB, wT.trans hT, wBx.trans hBx, wJ.trans hJ⟩, Or.inl ⟨hz, ?_, ?_⟩⟩
        · rw [hrows]
        · show wc.1.db.projects ++ _ = _
          rw [hrows]
      · rw [if_neg hz] at h
        by_cases hany : (wc.1.db.projects.any fun row => decide (row.ID = wc.2.ID)) = true
        · rw [if_pos hany] at h
          simp only [Except.ok.injEq, Prod.mk.injEq] at h
          obtain ⟨hs, hst⟩ := h
          subst hs hst
          refine ⟨⟨wB.trans hB, wT.trans hT, wBx.trans hBx, wJ.trans hJ⟩,
            Or.inr (Or.inl ⟨hz, rfl, ?_, ?_⟩)⟩
          · simp only [List.any_eq_true, decide_eq_true_eq] at hany
            rw [hrows] at hany
            exact hany
          · show wc.1.db.projects.map _ = _
            rw [hrows]
        · rw [if_neg hany] at h
          simp only [Except.ok.injEq, Prod.mk.injEq] at h
          obtain ⟨hs, hst⟩ := h
          subst hs hst
          refine ⟨⟨wB.trans hB, wT.trans hT, wBx.trans hBx, wJ.trans hJ⟩,
            Or.inr (Or.inr ⟨hz, rfl, ?_, ?_⟩)⟩
          · intro row hrow hrid
            apply hany
            simp only [List.any_eq_true, decide_eq_true_eq]
            rw [hrows]
            exact ⟨row, hrow, hrid⟩
          · show wc.1.db.projects ++ _ = _
            rw [hrows]

/-- A new project whose name is taken under its effective root scope has an
error on the field `Name`. -/
theorem Project_nameField_conflict (s : State) (p row : Project) (hID : p.ID = 0)
    (hrow : row ∈ s.db.projects) (hname : row.Name = p.Name)
    (hscope : row.BasisID = p.basisID) :
    ∃ msg, p.nameField s = [("Name", msg)] := by
  unfold Project.nameField field
  by_cases hn : p.Name = ""
  · exact ⟨"cannot be blank", by simp [required, hn]⟩
  · have hany : (s.db.projects.any
        (Project.cond { Name := p.Name, BasisID := p.basisID })) = true := by
      rw [List.any_eq_true]
      exact ⟨row, hrow, by simp [Project.cond, hname, hscope]⟩
    exact ⟨"must be unique", by simp [required, when_, checkUnique, hn, hID, hany]⟩

/-- An error on the field `Name` is an error of `Project.Validate`. -/
theorem Project_Validate_name_error (s : State) (p : Project) (msg : String)
    (h : p.nameField s = [("Name", msg)]) :
    ∃ errs, p.Validate s = .error (.Validation errs) ∧ ("Name", msg) ∈ errs := by
  unfold Project.Validate validateStruct
  rw [h]
  generalize hfl : List.flatten _ = errs
  have hmem : ("Name", msg) ∈ errs := by
    rw [← hfl]
    simp
  cases errs with
  | nil => cases hmem
  | cons e es => exact ⟨e :: es, rfl, hmem⟩

/-- The rule of uniqueness on `Name` is scoped by the effective root scope: a
named project passes it when no other row of that scope has the name. -/
theorem Project_nameField_scoped (s : State) (p : Project) (hname : p.Name ≠ "")
    (hscope : p.basisID ≠ 0)
    (h : ∀ row ∈ s.db.projects, row.Name = p.Name → row.BasisID = p.basisID →
      p.ID ≠ 0 ∧ row.ID = p.ID) :
    p.nameField s = [] := by
  unfold Project.nameField
  rw [field_eq_nil]
  intro r hr
  simp only [List.mem_cons, List.mem_singleton, List.not_mem_nil, or_false] at hr
  rcases hr with hr | hr | hr
  · subst hr
    simp [required, hname]
  · subst hr
    unfold when_ checkUnique
    by_cases hz : p.ID = 0
    · simp [hz]
    · have : (s.db.projects.any fun row =>
          Project.cond { Name := p.Name, BasisID := p.basisID } row &&
            !Project.cond { ID := p.ID } row) = false := by
        rw [List.any_eq_false]
        intro row hrow hc
        simp only [Project.cond, Bool.and_eq_true, Bool.or_eq_true, decide_eq_true_eq,
          Bool.not_eq_true', Bool.and_eq_false_iff, Bool.or_eq_false_iff,
          decide_eq_false_iff_not] at hc
        simp [hname, hscope, hz] at hc
        exact hc.2 (h row hrow hc.1.2 hc.1.1).2
      simp [this]
  · subst hr
    unfold when_ checkUnique
    by_cases hz : p.ID = 0
    · have : (s.db.projects.any
          (Project.cond { Name := p.Name, BasisID := p.basisID })) = false := by
        rw [List.any_eq_false]
        intro row hrow hc
        simp only [Project.cond, Bool.and_eq_true, Bool.or_eq_true, decide_eq_true_eq] at hc
        simp [hname, hscope] at hc
        exact (h row hrow hc.2 hc.1).1 hz
      simp [hz, this]
    · simp [hz]

/-- A record that comes in without a stored identifier is saved as a new
project. -/
theorem ProjectPut_new (s : State) (newId : Except Error String)
    (p : vagrant_server.Project)
    (h : p.ResourceId = "" ∨ ∀ row ∈ s.db.projects, row.ResourceId ≠ p.ResourceId) :
    s.ProjectPut newId (some p) = s.projectPutOnto newId p {} := by
  unfold State.ProjectPut State.ProjectFromProto
  simp only
  rw [ProjectFromProtoRef_miss s { ResourceId := p.ResourceId } h]
  rfl

/-- The resolution of a root scope reads the table of root scopes only. -/
theorem BasisFromProtoRef_congr (s s1 : State) (ref : vagrant_plugin_sdk.Ref_Basis)
    (h : s1.db.bases = s.db.bases) : s1.BasisFromProtoRef ref = s.BasisFromProtoRef ref := by
  unfold State.BasisFromProtoRef
  rw [h]

/-- A successful merge of a record with a root scope onto the empty project
has resolved the root scope. -/
theorem softDecodeProject_new_ok (s : State) (p : vagrant_server.Project)
    (decoded : Project) (ref : vagrant_plugin_sdk.Ref_Basis) (hb : p.Basis = some ref)
    (h : s.softDecodeProject p {} = .ok decoded) :
    ∃ basis, s.BasisFromProtoRef ref = .ok basis ∧ decoded.Basis = some basis ∧
      decoded.ID = 0 ∧ decoded.Name = p.Name ∧ decoded.ResourceId = p.ResourceId := by
  unfold State.softDecodeProject at h
  rw [hb] at h
  simp only at h
  cases hr : s.BasisFromProtoRef ref with
  | error e => rw [hr] at h; cases h
  | ok basis =>
    rw [hr] at h
    simp only at h
    cases h
    refine ⟨basis, rfl, rfl, rfl, ?_, ?_⟩
    · by_cases hn : p.Name = "" <;> simp [hn]
    · by_cases hn : p.ResourceId = "" <;> simp [hn]

/-- The merge of a record onto the empty project succeeds when its root scope
resolves. -/
theorem softDecodeProject_new (s : State) (p : vagrant_server.Project)
    (ref : vagrant_plugin_sdk.Ref_Basis) (basis : Basis) (hb : p.Basis = some ref)
    (hbasis : s.BasisFromProtoRef ref = .ok basis) :
    ∃ decoded, s.softDecodeProject p {} = .ok decoded ∧ decoded.Basis = some basis ∧
      decoded.ID = 0 ∧ decoded.Name = p.Name ∧ decoded.ResourceId = p.ResourceId ∧
      (p.Configuration.isSome → decoded.Vagrantfile.isSome) := by
  unfold State.softDecodeProject
  rw [hb]
  simp only
  rw [hbasis]
  refine ⟨_, rfl, rfl, rfl, ?_, ?_, ?_⟩
  · by_cases hn : p.Name = "" <;> simp [hn]
  · by_cases hn : p.ResourceId = "" <;> simp [hn]
  · intro hc
    cases hcfg : p.Configuration with
    | none => rw [hcfg] at hc; cases hc
    | some given => rfl

/-- The reset of the finalized configuration changes the configuration only. -/
theorem resetFinalized_ok (p : vagrant_server.Project) (project reset : Project)
    (h : resetFinalized p project = .ok reset) :
    reset.ID = project.ID ∧ reset.Name = project.Name ∧ reset.Path = project.Path ∧
    reset.Basis = project.Basis ∧ reset.BasisID = project.BasisID ∧
    reset.ResourceId = project.ResourceId := by
  unfold resetFinalized at h
  cases hc : p.Configuration with
  | none =>
    rw [hc] at h
    cases h
    exact ⟨rfl, rfl, rfl, rfl, rfl, rfl⟩
  | some given =>
    rw [hc] at h
    simp only at h
    by_cases hf : given.Finalized.isNone = true
    · rw [if_pos hf] at h
      cases hv : project.Vagrantfile with
      | none => rw [hv] at h; cases h
      | some v =>
        rw [hv] at h
        cases h
        exact ⟨rfl, rfl, rfl, rfl, rfl, rfl⟩
    · rw [if_neg hf] at h
      cases h
      exact ⟨rfl, rfl, rfl, rfl, rfl, rfl⟩

/-- The reset of the finalized configuration succeeds on a project that has a
configuration whenever one comes in. -/
theorem resetFinalized_total (p : vagrant_server.Project) (project : Project)
    (h : p.Configuration.isSome → project.Vagrantfile.isSome) :
    ∃ reset, resetFinalized p project = .ok reset := by
  unfold resetFinalized
  cases hc : p.Configuration with
  | none => exact ⟨_, rfl⟩
  | some given =>
    simp only
    by_cases hf : given.Finalized.isNone = true
    · rw [if_pos hf]
      cases hv : project.Vagrantfile with
      | none =>
        rw [hc, hv] at h
        exact absurd (h rfl) (by simp)
      | some v => exact ⟨_, rfl⟩
    · rw [if_neg hf]
      exact ⟨_, rfl⟩

/-- The save of a new project whose name is taken under its effective root
scope fails with a validation error that has an entry for `Name`. -/
theorem upsertFullProject_name_conflict (s : State) (id : String) (project row : Project)
    (hID : project.ID = 0) (hrow : row ∈ s.db.projects) (hname : row.Name = project.Name)
    (hscope : row.BasisID = project.basisID) :
    ∃ errs msg, s.upsertFullProject (.ok id) project = .error (.Validation errs) ∧
      ("Name", msg) ∈ errs := by
  unfold State.upsertFullProject Project.BeforeSave Project.setId
  by_cases hr : project.ResourceId = ""
  · obtain ⟨msg, hmsg⟩ := Project_nameField_conflict s { project with ResourceId := id } row
      hID hrow hname hscope
    obtain ⟨errs, herr, hmem⟩ := Project_Validate_name_error s _ msg hmsg
    refine ⟨errs, msg, ?_, hmem⟩
    simp only [hr, if_true]
    rw [herr]
  · obtain ⟨msg, hmsg⟩ := Project_nameField_conflict s project row hID hrow hname hscope
    obtain ⟨errs, herr, hmem⟩ := Project_Validate_name_error s _ msg hmsg
    refine ⟨errs, msg, ?_, hmem⟩
    simp only [hr, if_false]
    rw [herr]

/-- The effective root scope of a record whose associated root scope is set. -/
theorem Project_basisID_of_Basis (p : Project) (basis : Basis) (h : p.Basis = some basis) :
    p.basisID = basis.ID := by
  unfold Project.basisID
  rw [h]

/-- The name and the root scope written for a project. -/
theorem Project_row_keys (p : Project) :
    p.row.Name = p.Name ∧ p.row.BasisID = p.basisID ∧ p.row.ID = p.ID ∧
    p.row.ResourceId = p.ResourceId :=
  ⟨rfl, rfl, rfl, rfl⟩

/-- C15: after a `ProjectPut` of a new project with name `n` under the root
scope `b` has succeeded, a `ProjectPut` of a new project (no stable identifier)
with the same name under `b`, whatever its path, fails with the validation
error of the save, which has an entry for the field `Name`, and returns no
store.  The rule is scoped by the effective root scope (`Basis.ID` when the
associated object is set, else `BasisID`): a named record passes the rules of
`Name` when no other row of its effective root scope has the name. -/
theorem ProjectPut_duplicate_name (s s1 : State) (newId : Except Error String) (id : String)
    (p1 p2 out : vagrant_server.Project) (b : vagrant_plugin_sdk.Ref_Basis)
    (h1 : s.ProjectPut newId (some p1) = .ok (s1, out))
    (hnew1 : p1.ResourceId = "" ∨ ∀ row ∈ s.db.projects, row.ResourceId ≠ p1.ResourceId)
    (hb1 : p1.Basis = some b)
    (hnew2 : p2.ResourceId = "") (hb2 : p2.Basis = some b) (hname : p2.Name = p1.Name) :
    (∃ errs msg, s1.ProjectPut (.ok id) (some p2) =
        .error (saveErrorToStatus "project" (.Validation errs)) ∧ ("Name", msg) ∈ errs) ∧
    (∀ (t : State) (p : Project), p.Name ≠ "" → p.basisID ≠ 0 →
      (∀ row ∈ t.db.projects, row.Name = p.Name → row.BasisID = p.basisID →
        p.ID ≠ 0 ∧ row.ID = p.ID) →
      p.nameField t = []) ∧
    (∀ (p : Project) (basis : Basis), p.Basis = some basis → p.basisID = basis.ID) ∧
    (∀ p : Project, p.Basis = none → p.basisID = p.BasisID) := by
  refine ⟨?_, Project_nameField_scoped, Project_basisID_of_Basis, ?_⟩
  · rw [ProjectPut_new s newId p1 hnew1] at h1
    unfold State.projectPutOnto at h1
    cases hd : s.softDecodeProject p1 {} with
    | error e => rw [hd] at h1; cases h1
    | ok d1 =>
      rw [hd] at h1
      simp only at h1
      cases hr : resetFinalized p1 d1 with
      | error e => rw [hr] at h1; cases h1
      | ok r1 =>
        rw [hr] at h1
        simp only at h1
        cases hu : s.upsertFullProject newId r1 with
        | error e => rw [hu] at h1; cases h1
        | ok res =>
          obtain ⟨s1', stored⟩ := res
          rw [hu] at h1
          simp only [Except.ok.injEq, Prod.mk.injEq] at h1
          obtain ⟨hs1, -⟩ := h1
          subst hs1
          obtain ⟨basis, hbasis, hdB, hdID, hdN, -⟩ :=
            softDecodeProject_new_ok s p1 d1 b hb1 hd
          obtain ⟨hrID, hrN, -, hrB, -, -⟩ := resetFinalized_ok p1 d1 r1 hr
          obtain ⟨saved, final, hsaved, ⟨hfID, hfN, -, hfB, -, -⟩, ⟨hbases, -, -, -⟩, hrows⟩ :=
            upsertFullProject_ok s s1' newId r1 stored hu
          obtain ⟨-, hsID, hsN, -, hsB, -⟩ := Project_BeforeSave_ok s newId r1 saved hsaved
          have hzero : final.ID = 0 := by rw [hfID, hsID, hrID, hdID]
          have hfinalB : final.Basis = some basis := by rw [hfB, hsB, hrB, hdB]
          have hfinalN : final.Name = p1.Name := by rw [hfN, hsN, hrN, hdN]
          rcases hrows with ⟨-, hstored, hprojects⟩ | ⟨hne, -⟩ | ⟨hne, -⟩
          · have hmem : stored.row ∈ s1'.db.projects := by
              rw [hprojects]
              exact List.mem_append_right _ (List.mem_singleton_self _)
            have hstoredN : stored.row.Name = p1.Name := by
              rw [hstored]
              exact hfinalN
            have hstoredB : stored.row.BasisID = basis.ID := by
              rw [hstored]
              exact Project_basisID_of_Basis _ basis hfinalB
            have hbasis1 : s1'.BasisFromProtoRef b = .ok basis := by
              rw [BasisFromProtoRef_congr s s1' b hbases]
              exact hbasis
            obtain ⟨d2, hd2, hd2B, hd2ID, hd2N, -, hd2V⟩ :=
              softDecodeProject_new s1' p2 b basis hb2 hbasis1
            obtain ⟨r2, hr2⟩ := resetFinalized_total p2 d2 hd2V
            obtain ⟨hr2ID, hr2N, -, hr2B, -, -⟩ := resetFinalized_ok p2 d2 r2 hr2
            obtain ⟨errs, msg, herr, hmsg⟩ :=
              upsertFullProject_name_conflict s1' id r2 stored.row
                (by rw [hr2ID, hd2ID]) hmem
                (by rw [hstoredN, hr2N, hd2N, hname])
                (by rw [hstoredB, Project_basisID_of_Basis r2 basis (by rw [hr2B, hd2B])])
            refine ⟨errs, msg, ?_, hmsg⟩
            rw [ProjectPut_new s1' (.ok id) p2 (Or.inl hnew2)]
            unfold State.projectPutOnto
            rw [hd2]
            simp only
            rw [hr2]
            simp only
            rw [herr]
          · exact absurd hzero hne
          · exact absurd hzero hne
  · intro p h
    unfold Project.basisID
    rw [h]

/-- C15 (witness): in the store with two root scopes the save of `first`
succeeds, the save of `second` (same name, same root scope, other path) then
fails on `Name`, and the same record under the other root scope is saved. -/
theorem ProjectPut_duplicate_name_witness :
    examples.scopes.ProjectPut (.ok "project-1") (some examples.first) =
      .ok (examples.scopesWithFirst, examples.firstStored) ∧
    (∃ errs msg, examples.scopesWithFirst.ProjectPut (.ok "project-9") (some examples.second) =
        .error (saveErrorToStatus "project" (.Validation errs)) ∧ ("Name", msg) ∈ errs) ∧
    (∃ r, examples.scopesWithFirst.ProjectPut (.ok "project-9")
        (some { examples.second with Basis := some { ResourceId := "basis-2" } }) = .ok r) :=
  ⟨rfl,
    (ProjectPut_duplicate_name examples.scopes examples.scopesWithFirst (.ok "project-1")
      "project-9" examples.first examples.second examples.firstStored
      { ResourceId := "basis-1" } rfl (Or.inl rfl) rfl rfl rfl rfl).1,
    ⟨_, rfl⟩⟩

/-! ## The stable identifier -/

/-- Rows added at the end do not change what a lookup finds. -/
theorem find_append_some {α : Type} (p : α → Bool) (rows extra : List α) (f : α → String)
    (r : String) (h : (rows.find? p).map f = some r) :
    ((rows ++ extra).find? p).map f = some r := by
  rw [List.find?_append]
  cases hf : rows.find? p with
  | none => rw [hf] at h; cases h
  | some row => rw [hf] at h; exact h

/-- A row added at the end is found when no row before it matches. -/
theorem find_append_new {α : Type} (p : α → Bool) (rows : List α) (x : α)
    (h : ∀ row ∈ rows, p row = false) (hx : p x = true) :
    (rows ++ [x]).find? p = some x := by
  rw [List.find?_append]
  have : rows.find? p = none := by
    rw [List.find?_eq_none]
    intro row hrow
    rw [h row hrow]
    simp
  rw [this]
  simp [List.find?, hx]

/-- A rewrite of the rows that keeps the keys, and the identifier of the row
found under a key, keeps the identifier found under that key. -/
theorem find_map_keep {α : Type} (key : α → Nat) (rid : α → String) (f : α → α)
    (hk : ∀ row, key (f row) = key row) (k : Nat) (rows : List α)
    (hr : ∀ row, rows.find? (fun row => key row = k) = some row → rid (f row) = rid row) :
    ((rows.map f).find? (fun row => key row = k)).map rid =
      (rows.find? (fun row => key row = k)).map rid := by
  induction rows with
  | nil => rfl
  | cons a as ih =>
    by_cases ha : key a = k
    · have h1 : (a :: as).find? (fun row => decide (key row = k)) = some a := by
        simp [List.find?, ha]
      have h2 : ((a :: as).map f).find? (fun row => decide (key row = k)) = some (f a) := by
        simp [List.find?, hk, ha]
      rw [h1, h2]
      simp only [Option.map_some']
      rw [hr a h1]
    · have h1 : (a :: as).find? (fun row => decide (key row = k)) =
          as.find? (fun row => decide (key row = k)) := by
        simp [List.find?, ha]
      have h2 : ((a :: as).map f).find? (fun row => decide (key row = k)) =
          (as.map f).find? (fun row => decide (key row = k)) := by
        simp [List.find?, hk, ha]
      rw [h1, h2]
      apply ih
      intro row hrow
      apply hr
      rw [h1]
      exact hrow

/-- A lookup by key finds a row when a row has the key. -/
theorem find_key_some {α : Type} (key : α → Nat) (k : Nat) (rows : List α)
    (h : ∃ row ∈ rows, key row = k) :
    ∃ row, rows.find? (fun row => key row = k) = some row := by
  cases hf : rows.find? (fun row => decide (key row = k)) with
  | some row => exact ⟨row, rfl⟩
  | none =>
    rw [List.find?_eq_none] at hf
    obtain ⟨row, hrow, hkey⟩ := h
    exact absurd (by simpa using hkey) (hf row hrow)

/-- A row appended under a key that no row has: every identifier found before
is still found, and the new key finds the identifier of the new row. -/
theorem identifier_append {α : Type} (key : α → Nat) (rid : α → String) (rows : List α)
    (x : α) (hfresh : ∀ row ∈ rows, key row ≠ key x) :
    (∀ k r, (rows.find? (fun row => key row = k)).map rid = some r →
      ((rows ++ [x]).find? (fun row => key row = k)).map rid = some r) ∧
    ((rows ++ [x]).find? (fun row => key row = key x)).map rid = some (rid x) := by
  refine ⟨fun k r h => find_append_some _ rows [x] rid r h, ?_⟩
  rw [find_append_new _ rows x]
  · rfl
  · intro row hrow
    simpa using hfresh row hrow
  · simp

/-- The rows of a key rewritten so that the row found under that key keeps its
identifier, which is the one of the record: every identifier found before is
still found, and the key of the record finds the identifier of the record. -/
theorem identifier_replace {α : Type} (key : α → Nat) (rid : α → String) (rows : List α)
    (f : α → α) (x : α) (hk : ∀ row, key (f row) = key row)
    (hother : ∀ row, key row ≠ key x → f row = row)
    (hx : ∀ row, rows.find? (fun row => key row = key x) = some row →
      rid (f row) = rid row ∧ rid row = rid x)
    (hex : ∃ row ∈ rows, key row = key x) :
    (∀ k r, (rows.find? (fun row => key row = k)).map rid = some r →
      ((rows.map f).find? (fun row => key row = k)).map rid = some r) ∧
    ((rows.map f).find? (fun row => key row = key x)).map rid = some (rid x) := by
  have hkeep : ∀ k, ((rows.map f).find? (fun row => key row = k)).map rid =
      (rows.find? (fun row => key row = k)).map rid := by
    intro k
    apply find_map_keep key rid f hk k rows
    intro row hrow
    by_cases hkey : key row = key x
    · have hkx : k = key x := by
        have := List.find?_some hrow
        simp only [decide_eq_true_eq] at this
        rw [← this, hkey]
      rw [hkx] at hrow
      exact (hx row hrow).1
    · rw [hother row hkey]
  refine ⟨fun k r h => by rw [hkeep k]; exact h, ?_⟩
  rw [hkeep]
  obtain ⟨row, hrow⟩ := find_key_some key (key x) rows hex
  rw [hrow]
  simp only [Option.map_some']
  rw [(hx row hrow).2]

/-- The hook `BeforeSave` of a target generates an identifier only for a record
that has none. -/
theorem Target_BeforeSave_identifier (s : State) (newId : Except Error String)
    (t saved : Target) (h : t.BeforeSave s newId = .ok saved) :
    (t.ResourceId ≠ "" → saved.ResourceId = t.ResourceId) ∧
    (t.ResourceId = "" → newId = .ok saved.ResourceId) := by
  unfold Target.BeforeSave at h
  simp only at h
  cases hw : (if t.ResourceId = "" then t.setId newId else Except.ok t) with
  | error e => rw [hw] at h; cases h
  | ok t1 =>
    rw [hw] at h
    simp only at h
    cases hv : t1.validate s with
    | error e => rw [hv] at h; cases h
    | ok u =>
      rw [hv] at h
      cases h
      by_cases hid : t.ResourceId = ""
      · rw [if_pos hid] at hw
        unfold Target.setId at hw
        cases hn : newId with
        | error e => rw [hn] at hw; cases hw
        | ok id =>
          rw [hn] at hw
          cases hw
          exact ⟨fun h => absurd hid h, fun _ => rfl⟩
      · rw [if_neg hid] at hw
        cases hw
        exact ⟨fun _ => rfl, fun h => absurd h hid⟩

/-- What a successful `upsertFull` of a target does to the tables: the row is
created, replaced with its identifier kept, or inserted; the other tables are
as they were. -/
theorem upsertFullTarget_ok (s s' : State) (newId : Except Error String)
    (target stored : Target) (h : s.upsertFullTarget newId target = .ok (s', stored)) :
    ∃ saved, target.BeforeSave s newId = .ok saved ∧
      (s'.db.boxes = s.db.boxes ∧ s'.db.projects = s.db.projects) ∧
      ((saved.ID = 0 ∧ stored = { saved with ID := nextID (s.db.targets.map Target.ID) } ∧
          s'.db.targets = s.db.targets ++ [stored.row]) ∨
        (saved.ID ≠ 0 ∧ stored = saved ∧ (∃ row ∈ s.db.targets, row.ID = saved.ID) ∧
          s'.db.targets = s.db.targets.map (fun row =>
            if row.ID = saved.ID then { saved.row with ResourceId := row.ResourceId }
            else row)) ∨
        (saved.ID ≠ 0 ∧ stored = saved ∧ (∀ row ∈ s.db.targets, row.ID ≠ saved.ID) ∧
          s'.db.targets = s.db.targets ++ [stored.row])) := by
  unfold State.upsertFullTarget at h
  cases hb : target.BeforeSave s newId with
  | error e => rw [hb] at h; cases h
  | ok saved =>
    rw [hb] at h
    simp only at h
    refine ⟨saved, rfl, ?_⟩
    by_cases hz : saved.ID = 0
    · rw [if_pos hz] at h
      simp only [Except.ok.injEq, Prod.mk.injEq] at h
      obtain ⟨hs, hst⟩ := h
      subst hs hst
      exact ⟨⟨rfl, rfl⟩, Or.inl ⟨hz, rfl, rfl⟩⟩
    · rw [if_neg hz] at h
      by_cases hany : (s.db.targets.any fun row => decide (row.ID = saved.ID)) = true
      · rw [if_pos hany] at h
        simp only [Except.ok.injEq, Prod.mk.injEq] at h
        obtain ⟨hs, hst⟩ := h
        subst hs hst
        refine ⟨⟨rfl, rfl⟩, Or.inr (Or.inl ⟨hz, rfl, ?_, rfl⟩)⟩
        rw [List.any_eq_true] at hany
        obtain ⟨row, hrow, hkey⟩ := hany
        exact ⟨row, hrow, by simpa using hkey⟩
      · rw [if_neg hany] at h
        simp only [Except.ok.injEq, Prod.mk.injEq] at h
        obtain ⟨hs, hst⟩ := h
        subst hs hst
        refine ⟨⟨rfl, rfl⟩, Or.inr (Or.inr ⟨hz, rfl, ?_, rfl⟩)⟩
        intro row hrow hkey
        apply hany
        rw [List.any_eq_true]
        exact ⟨row, hrow, by simpa using hkey⟩

/-- A save of a catalog entry touches the catalog only. -/
theorem upsertFullBox_frame (L : VersionLib) (s s' : State) (newId : Except Error String)
    (box stored : Box) (h : s.upsertFullBox L newId box = .ok (s', stored)) :
    s'.db.projects = s.db.projects ∧ s'.db.targets = s.db.targets := by
  unfold State.upsertFullBox at h
  cases hb : box.BeforeSave L s newId with
  | error e => rw [hb] at h; cases h
  | ok saved =>
    rw [hb] at h
    simp only at h
    split at h
    · cases h
      exact ⟨rfl, rfl⟩
    · split at h <;>
      · cases h
        exact ⟨rfl, rfl⟩

/-- A rewrite of the rows that keeps the key and the identifier of every row
keeps the identifier found under every key. -/
theorem identifier_keep {α : Type} (key : α → Nat) (rid : α → String) (rows : List α)
    (f : α → α) (hk : ∀ row, key (f row) = key row) (hr : ∀ row, rid (f row) = rid row) :
    ∀ k r, (rows.find? (fun row => key row = k)).map rid = some r →
      ((rows.map f).find? (fun row => key row = k)).map rid = some r := by
  intro k r h
  rw [find_map_keep key rid f hk k rows (fun row _ => hr row)]
  exact h

/-- A successful save of a catalog entry that is new leaves its identifier
under its key. -/
theorem upsertFullBox_new (L : VersionLib) (s s' : State)
    (newId : Except Error String) (box stored : Box) (hnew : box.ID = 0)
    (h : s.upsertFullBox L newId box = .ok (s', stored)) :
    s'.boxResourceId stored.ID = some stored.ResourceId := by
  obtain ⟨saved, hsaved, -, -, -, -, -, hcases⟩ := upsertFullBox_ok L s s' newId box stored h
  obtain ⟨-, -, hID, -⟩ := Box_BeforeSave_ok L s newId box saved hsaved
  unfold State.boxResourceId
  rcases hcases with ⟨-, hstored, hrows⟩ | ⟨hz, -⟩ | ⟨hz, -⟩
  · rw [hrows]
    refine (identifier_append Box.ID Box.ResourceId s.db.boxes stored ?_).2
    intro row hrow
    rw [hstored]
    exact Nat.ne_of_lt (nextID_gt _ row.ID (List.mem_map_of_mem _ hrow))
  · exact absurd (hID.trans hnew) hz
  · exact absurd (hID.trans hnew) hz

/-- A successful save of a project keeps every stored identifier, the column
being written on create only, and leaves the identifier of a new record under
its key. -/
theorem upsertFullProject_identifier (s s' : State) (newId : Except Error String)
    (project stored : Project) (h : s.upsertFullProject newId project = .ok (s', stored)) :
    (∀ key r, s.projectResourceId key = some r → s'.projectResourceId key = some r) ∧
    (project.ID = 0 → s'.projectResourceId stored.ID = some stored.ResourceId) := by
  obtain ⟨saved, final, hsaved, ⟨hfID, -, -, -, -, -⟩, -, hcases⟩ :=
    upsertFullProject_ok s s' newId project stored h
  obtain ⟨-, hsID, -⟩ := Project_BeforeSave_ok s newId project saved hsaved
  unfold State.projectResourceId
  rcases hcases with ⟨-, hstored, hrows⟩ | ⟨hz, -, -, hrows⟩ | ⟨hz, hstored, hnone, hrows⟩
  · rw [hrows]
    have happend := identifier_append Project.ID Project.ResourceId s.db.projects stored.row
      (by
        intro row hrow
        rw [hstored]
        exact Nat.ne_of_lt (nextID_gt _ row.ID (List.mem_map_of_mem _ hrow)))
    exact ⟨happend.1, fun _ => happend.2⟩
  · rw [hrows]
    refine ⟨identifier_keep Project.ID Project.ResourceId s.db.projects _ ?_ ?_, ?_⟩
    · intro row
      by_cases hk : row.ID = final.ID
      · simp [hk, Project.row]
      · simp [hk]
    · intro row
      by_cases hk : row.ID = final.ID
      · simp [hk]
      · simp [hk]
    · intro hnew
      exact absurd ((hfID.trans hsID).trans hnew) hz
  · rw [hrows]
    refine ⟨(identifier_append Project.ID Project.ResourceId s.db.projects stored.row ?_).1,
      fun hnew => absurd ((hfID.trans hsID).trans hnew) hz⟩
    intro row hrow
    rw [hstored]
    exact hnone row hrow

/-- A successful save of a target keeps every stored identifier, the column
being written on create only, and leaves the identifier of a new record under
its key. -/
theorem upsertFullTarget_identifier (s s' : State) (newId : Except Error String)
    (target stored : Target) (h : s.upsertFullTarget newId target = .ok (s', stored)) :
    (∀ key r, s.targetResourceId key = some r → s'.targetResourceId key = some r) ∧
    (target.ID = 0 → s'.targetResourceId stored.ID = some stored.ResourceId) := by
  obtain ⟨saved, hsaved, -, hcases⟩ := upsertFullTarget_ok s s' newId target stored h
  obtain ⟨-, hsID, -⟩ := Target_BeforeSave_ok s newId target saved hsaved
  unfold State.targetResourceId
  rcases hcases with ⟨-, hstored, hrows⟩ | ⟨hz, -, -, hrows⟩ | ⟨hz, hstored, hnone, hrows⟩
  · rw [hrows]
    have happend := identifier_append Target.ID Target.ResourceId s.db.targets stored.row
      (by
        intro row hrow
        rw [hstored]
        exact Nat.ne_of_lt (nextID_gt _ row.ID (List.mem_map_of_mem _ hrow)))
    exact ⟨happend.1, fun _ => happend.2⟩
  · rw [hrows]
    refine ⟨identifier_keep Target.ID Target.ResourceId s.db.targets _ ?_ ?_, ?_⟩
    · intro row
      by_cases hk : row.ID = saved.ID
      · simp [hk, Target.row]
      · simp [hk]
    · intro row
      by_cases hk : row.ID = saved.ID
      · simp [hk]
      · simp [hk]
    · intro hnew
      exact absurd (hsID.trans hnew) hz
  · rw [hrows]
    refine ⟨(identifier_append Target.ID Target.ResourceId s.db.targets stored.row ?_).1,
      fun hnew => absurd (hsID.trans hnew) hz⟩
    intro row hrow
    rw [hstored]
    exact hnone row hrow

/-- One save keeps the identifier stored under every key of the projects and
of the targets. -/
theorem Save_identifier (L : VersionLib) (s s' : State) (h : Save L s s') :
    (∀ key r, s.projectResourceId key = some r → s'.projectResourceId key = some r) ∧
    (∀ key r, s.targetResourceId key = some r → s'.targetResourceId key = some r) := by
  cases h with
  | box newId box stored h =>
    obtain ⟨hp, ht⟩ := upsertFullBox_frame L s s' newId box stored h
    refine ⟨?_, ?_⟩
    · intro key r hr
      unfold State.projectResourceId at hr ⊢
      rw [hp]
      exact hr
    · intro key r hr
      unfold State.targetResourceId at hr ⊢
      rw [ht]
      exact hr
  | project newId project stored h =>
    obtain ⟨_, _, -, -, ⟨-, ht, -, -⟩, -⟩ :=
      upsertFullProject_ok s s' newId project stored h
    refine ⟨(upsertFullProject_identifier s s' newId project stored h).1, ?_⟩
    intro key r hr
    unfold State.targetResourceId at hr ⊢
    rw [ht]
    exact hr
  | target newId target stored h =>
    obtain ⟨_, -, ⟨-, hp⟩, -⟩ := upsertFullTarget_ok s s' newId target stored h
    refine ⟨?_, (upsertFullTarget_identifier s s' newId target stored h).1⟩
    intro key r hr
    unfold State.projectResourceId at hr ⊢
    rw [hp]
    exact hr

/-- A sequence of saves keeps the identifier stored under every key of the
projects and of the targets. -/
theorem Saves_identifier (L : VersionLib) (s s' : State)
    (h : Relation.ReflTransGen (Save L) s s') :
    (∀ key r, s.projectResourceId key = some r → s'.projectResourceId key = some r) ∧
    (∀ key r, s.targetResourceId key = some r → s'.targetResourceId key = some r) := by
  induction h with
  | refl => exact ⟨fun _ _ h => h, fun _ _ h => h⟩
  | tail _ hstep ih =>
    obtain ⟨hp, ht⟩ := Save_identifier L _ _ hstep
    exact ⟨fun k r h => hp k r (ih.1 k r h), fun k r h => ht k r (ih.2 k r h)⟩

/-- The save that a successful `BoxPut` makes: of a record without key, or of a
stored row with its own identifier. -/
theorem BoxPut_upsert (L : VersionLib) (s s' : State) (newId : Except Error String)
    (b : Option vagrant_server.Box) (h : s.BoxPut L newId b = .ok s') :
    ∃ box stored, s.upsertFullBox L newId box = .ok (s', stored) ∧
      (box.ID = 0 ∨ ∃ row ∈ s.db.boxes, row.ID = box.ID ∧ row.ResourceId = box.ResourceId ∧
        box.ResourceId ≠ "") := by
  have honto : ∀ (b : vagrant_server.Box) (box : Box),
      s.boxPutOnto L newId b box = .ok s' →
      ∃ stored, s.upsertFullBox L newId (softDecodeBox b box) = .ok (s', stored) := by
    intro b box h
    unfold State.boxPutOnto at h
    cases hu : s.upsertFullBox L newId (softDecodeBox b box) with
    | error e => rw [hu] at h; cases h
    | ok res =>
      obtain ⟨s1, stored⟩ := res
      rw [hu] at h
      cases h
      exact ⟨stored, rfl⟩
  unfold State.BoxPut at h
  cases b with
  | none => cases h
  | some b =>
    simp only at h
    cases hf : s.BoxFromProto (some b) with
    | error e =>
      rw [hf] at h
      simp only at h
      by_cases hn : (!e.isNotFound) = true
      · rw [if_pos hn] at h
        cases h
      · rw [if_neg hn] at h
        obtain ⟨stored, hu⟩ := honto b {} h
        exact ⟨_, stored, hu, Or.inl rfl⟩
    | ok box =>
      rw [hf] at h
      obtain ⟨stored, hu⟩ := honto b box h
      refine ⟨_, stored, hu, Or.inr ⟨box, ?_⟩⟩
      unfold State.BoxFromProto State.BoxFromProtoRef at hf
      simp only at hf
      by_cases hid : b.ResourceId = ""
      · rw [if_pos hid] at hf
        cases hf
      · rw [if_neg hid] at hf
        obtain ⟨hmem, hcond⟩ := First_ok _ _ _ _ hf
        have hrid := (Box_cond_resourceId _ _).mp hcond hid
        refine ⟨hmem, rfl, ?_, ?_⟩
        · simp [softDecodeBox, hid, hrid]
        · simp [softDecodeBox, hid]

/-- The save that a successful `ProjectPut` makes. -/
theorem ProjectPut_upsert (s s' : State) (newId : Except Error String)
    (p : Option vagrant_server.Project) (out : vagrant_server.Project)
    (h : s.ProjectPut newId p = .ok (s', out)) :
    ∃ project stored, s.upsertFullProject newId project = .ok (s', stored) := by
  have honto : ∀ p project, s.projectPutOnto newId p project = .ok (s', out) →
      ∃ project stored, s.upsertFullProject newId project = .ok (s', stored) := by
    intro p project h
    unfold State.projectPutOnto at h
    cases hd : s.softDecodeProject p project with
    | error e => rw [hd] at h; cases h
    | ok d =>
      rw [hd] at h
      simp only at h
      cases hr : resetFinalized p d with
      | error e => rw [hr] at h; cases h
      | ok r =>
        rw [hr] at h
        simp only at h
        cases hu : s.upsertFullProject newId r with
        | error e => rw [hu] at h; cases h
        | ok res =>
          obtain ⟨s1, stored⟩ := res
          rw [hu] at h
          simp only [Except.ok.injEq, Prod.mk.injEq] at h
          obtain ⟨hs, -⟩ := h
          subst hs
          exact ⟨r, stored, hu⟩
  unfold State.ProjectPut at h
  cases hf : s.ProjectFromProto p with
  | error e =>
    rw [hf] at h
    simp only at h
    by_cases hn : (!e.isNotFound) = true
    · rw [if_pos hn] at h
      cases h
    · rw [if_neg hn] at h
      cases p with
      | none => cases h
      | some p => exact honto p {} h
  | ok project =>
    rw [hf] at h
    cases p with
    | none => cases h
    | some p => exact honto _ project h

/-- The save that a successful `TargetPut` makes. -/
theorem TargetPut_upsert (P : Platform) (s s' : State)
    (newId : Except Error String) (t : Option vagrant_server.Target)
    (out : vagrant_server.Target) (h : s.TargetPut P newId t = .ok (s', out)) :
    ∃ target stored, s.upsertFullTarget newId target = .ok (s', stored) := by
  cases t with
  | none =>
    unfold State.TargetPut at h
    cases h
  | some t =>
    rcases TargetPut_ok P s s' newId t out h with ⟨target, -, honto⟩ | ⟨-, honto⟩
    · obtain ⟨decoded, saved, -, hu, -⟩ := targetPutOnto_ok s s' newId _ out target honto
      exact ⟨_, saved, hu⟩
    · obtain ⟨decoded, saved, -, hu, -⟩ := targetPutOnto_ok s s' newId t out {} honto
      exact ⟨_, saved, hu⟩

/-- Every successful Put is a save. -/
theorem Put_Save (P : Platform) (s s' : State) (h : Put P s s') : Save P.versions s s' := by
  cases h with
  | box newId b h =>
    obtain ⟨box, stored, hu, -⟩ := BoxPut_upsert P.versions s s' newId b h
    exact Save.box s s' newId box stored hu
  | project newId p out h =>
    obtain ⟨project, stored, hu⟩ := ProjectPut_upsert s s' newId p out h
    exact Save.project s s' newId project stored hu
  | target newId t out h =>
    obtain ⟨target, stored, hu⟩ := TargetPut_upsert P s s' newId t out h
    exact Save.target s s' newId target stored hu

/-- No two rows of the catalog share a primary key. -/
theorem boxKeys_append (rows : List Box) (x : Box)
    (hkeys : ∀ a ∈ rows, ∀ b ∈ rows, a.ID = b.ID → a = b)
    (hfresh : ∀ row ∈ rows, row.ID ≠ x.ID) :
    ∀ a ∈ rows ++ [x], ∀ b ∈ rows ++ [x], a.ID = b.ID → a = b := by
  intro a ha b hb hab
  simp only [List.mem_append, List.mem_singleton] at ha hb
  rcases ha with ha | ha <;> rcases hb with hb | hb
  · exact hkeys a ha b hb hab
  · subst hb
    exact absurd hab (hfresh a ha)
  · subst ha
    exact absurd hab.symm (hfresh b hb)
  · rw [ha, hb]

/-- A successful `BoxPut` on a catalog with unique primary keys keeps the
identifier stored under every key, and the keys unique: it saves a new record,
or the stored row that holds the identifier of the record. -/
theorem BoxPut_identifier (L : VersionLib) (s s' : State) (newId : Except Error String)
    (b : Option vagrant_server.Box)
    (hkeys : ∀ x ∈ s.db.boxes, ∀ y ∈ s.db.boxes, x.ID = y.ID → x = y)
    (h : s.BoxPut L newId b = .ok s') :
    (∀ key r, s.boxResourceId key = some r → s'.boxResourceId key = some r) ∧
    (∀ x ∈ s'.db.boxes, ∀ y ∈ s'.db.boxes, x.ID = y.ID → x = y) := by
  obtain ⟨box, stored, hu, hbox⟩ := BoxPut_upsert L s s' newId b h
  obtain ⟨saved, hsaved, -, -, -, -, -, hcases⟩ := upsertFullBox_ok L s s' newId box stored hu
  obtain ⟨-, -, hID, -, -, -, hkeep, -⟩ := Box_BeforeSave_ok L s newId box saved hsaved
  unfold State.boxResourceId
  rcases hcases with ⟨-, hstored, hrows⟩ | ⟨hz, -, -, hrows⟩ | ⟨hz, -, hnone, -⟩
  · have hfresh : ∀ row ∈ s.db.boxes, row.ID ≠ stored.ID := by
      intro row hrow
      rw [hstored]
      exact Nat.ne_of_lt (nextID_gt _ row.ID (List.mem_map_of_mem _ hrow))
    rw [hrows]
    exact ⟨(identifier_append Box.ID Box.ResourceId s.db.boxes stored hfresh).1,
      boxKeys_append s.db.boxes stored hkeys hfresh⟩
  · rcases hbox with hzero | ⟨rf, hrf, hrfID, hrfR, hne⟩
    · exact absurd (hID.trans hzero) hz
    · have hsavedR : saved.ResourceId = rf.ResourceId := (hkeep hne).trans hrfR.symm
      have hk : ∀ row : Box, (if row.ID = saved.ID then saved else row).ID = row.ID := by
        intro row
        by_cases hrow : row.ID = saved.ID
        · simp [hrow]
        · simp [hrow]
      rw [hrows]
      refine ⟨?_, ?_⟩
      · intro key r hr
        rw [find_map_keep Box.ID Box.ResourceId _ hk key s.db.boxes]
        · exact hr
        · intro row hfound
          by_cases hrow : row.ID = saved.ID
          · have hself : row = rf := hkeys row (List.mem_of_find?_eq_some hfound) rf hrf
              (hrow.trans (hID.trans hrfID.symm))
            subst hself
            show (if row.ID = saved.ID then saved else row).ResourceId = row.ResourceId
            rw [if_pos hrow]
            exact hsavedR
          · show (if row.ID = saved.ID then saved else row).ResourceId = row.ResourceId
            rw [if_neg hrow]
      · intro x hx y hy hxy
        obtain ⟨x0, hx0, hfx⟩ := List.mem_map.mp hx
        obtain ⟨y0, hy0, hfy⟩ := List.mem_map.mp hy
        have hxID : x.ID = x0.ID := by rw [← hfx]; exact hk x0
        have hyID : y.ID = y0.ID := by rw [← hfy]; exact hk y0
        have hsame : x0 = y0 := hkeys x0 hx0 y0 hy0 (hxID.symm.trans (hxy.trans hyID))
        rw [← hfx, ← hfy, hsame]
  · rcases hbox with hzero | ⟨rf, hrf, hrfID, -, -⟩
    · exact absurd (hID.trans hzero) hz
    · exact absurd (hrfID.trans hID.symm) (hnone rf hrf)

/-- A sequence of successful Puts on a catalog with unique primary keys keeps
the identifier stored under every key of every table. -/
theorem Puts_identifier (P : Platform) (s s' : State)
    (h : Relation.ReflTransGen (Put P) s s')
    (hkeys : ∀ x ∈ s.db.boxes, ∀ y ∈ s.db.boxes, x.ID = y.ID → x = y) :
    ((∀ key r, s.boxResourceId key = some r → s'.boxResourceId key = some r) ∧
      (∀ key r, s.projectResourceId key = some r → s'.projectResourceId key = some r) ∧
      (∀ key r, s.targetResourceId key = some r → s'.targetResourceId key = some r)) ∧
    (∀ x ∈ s'.db.boxes, ∀ y ∈ s'.db.boxes, x.ID = y.ID → x = y) := by
  induction h with
  | refl => exact ⟨⟨fun _ _ h => h, fun _ _ h => h, fun _ _ h => h⟩, hkeys⟩
  | @tail s1 s2 _ hstep ih =>
    obtain ⟨⟨ihb, ihp, iht⟩, ihkeys⟩ := ih
    obtain ⟨hp, ht⟩ := Save_identifier P.versions s1 s2 (Put_Save P s1 s2 hstep)
    have hboxes : (∀ key r, s1.boxResourceId key = some r → s2.boxResourceId key = some r) ∧
        (∀ x ∈ s2.db.boxes, ∀ y ∈ s2.db.boxes, x.ID = y.ID → x = y) := by
      cases hstep with
      | box newId b hput => exact BoxPut_identifier P.versions s1 s2 newId b ihkeys hput
      | project newId p out hput =>
        obtain ⟨project, stored, hu⟩ := ProjectPut_upsert s1 s2 newId p out hput
        obtain ⟨_, _, -, -, ⟨-, -, hb, -⟩, -⟩ := upsertFullProject_ok s1 s2 newId project stored hu
        unfold State.boxResourceId
        rw [hb]
        exact ⟨fun _ _ h => h, ihkeys⟩
      | target newId t out hput =>
        obtain ⟨target, stored, hu⟩ := TargetPut_upsert P s1 s2 newId t out hput
        obtain ⟨_, -, ⟨hb, -⟩, -⟩ := upsertFullTarget_ok s1 s2 newId target stored hu
        unfold State.boxResourceId
        rw [hb]
        exact ⟨fun _ _ h => h, ihkeys⟩
    exact ⟨⟨fun k r h => hboxes.1 k r (ihb k r h), fun k r h => hp k r (ihp k r h),
      fun k r h => ht k r (iht k r h)⟩, hboxes.2⟩

/-- The first save of a catalog entry, of a record without primary key, stores
the identifier of the record under its new key: the one the record came with,
or the generated one when it came with none. -/
theorem upsertFullBox_first (L : VersionLib) (s s' : State)
    (newId : Except Error String) (box stored : Box) (hnew : box.ID = 0)
    (h : s.upsertFullBox L newId box = .ok (s', stored)) :
    s'.boxResourceId stored.ID = some stored.ResourceId ∧
    (box.ResourceId ≠ "" → stored.ResourceId = box.ResourceId) ∧
    (box.ResourceId = "" → newId = .ok stored.ResourceId) := by
  obtain ⟨saved, hsaved, -, -, -, hrid, -, -⟩ := upsertFullBox_ok L s s' newId box stored h
  obtain ⟨-, -, -, -, -, -, h1, h2⟩ := Box_BeforeSave_ok L s newId box saved hsaved
  refine ⟨upsertFullBox_new L s s' newId box stored hnew h, ?_, ?_⟩
  · intro hne
    rw [hrid]
    exact h1 hne
  · intro he
    rw [hrid]
    exact h2 he

/-- The first save of a project stores the identifier of the record under its
new key: the one the record came with, or the generated one. -/
theorem upsertFullProject_first (s s' : State) (newId : Except Error String)
    (project stored : Project) (hnew : project.ID = 0)
    (h : s.upsertFullProject newId project = .ok (s', stored)) :
    s'.projectResourceId stored.ID = some stored.ResourceId ∧
    (project.ResourceId ≠ "" → stored.ResourceId = project.ResourceId) ∧
    (project.ResourceId = "" → newId = .ok stored.ResourceId) := by
  obtain ⟨saved, final, hsaved, ⟨-, -, -, -, -, hfR⟩, -, hcases⟩ :=
    upsertFullProject_ok s s' newId project stored h
  obtain ⟨-, -, -, -, -, -, -, -, h1, h2⟩ := Project_BeforeSave_ok s newId project saved hsaved
  have hrid : stored.ResourceId = saved.ResourceId := by
    rcases hcases with ⟨-, hstored, -⟩ | ⟨-, hstored, -⟩ | ⟨-, hstored, -⟩
    · rw [hstored]
      exact hfR
    · rw [hstored]
      exact hfR
    · rw [hstored]
      exact hfR
  refine ⟨(upsertFullProject_identifier s s' newId project stored h).2 hnew, ?_, ?_⟩
  · intro hne
    rw [hrid]
    exact h1 hne
  · intro he
    rw [hrid]
    exact h2 he

/-- The first save of a target stores the identifier of the record under its
new key: the one the record came with, or the generated one. -/
theorem upsertFullTarget_first (s s' : State) (newId : Except Error String)
    (target stored : Target) (hnew : target.ID = 0)
    (h : s.upsertFullTarget newId target = .ok (s', stored)) :
    s'.targetResourceId stored.ID = some stored.ResourceId ∧
    (target.ResourceId ≠ "" → stored.ResourceId = target.ResourceId) ∧
    (target.ResourceId = "" → newId = .ok stored.ResourceId) := by
  obtain ⟨saved, hsaved, -, hcases⟩ := upsertFullTarget_ok s s' newId target stored h
  obtain ⟨h1, h2⟩ := Target_BeforeSave_identifier s newId target saved hsaved
  have hrid : stored.ResourceId = saved.ResourceId := by
    rcases hcases with ⟨-, hstored, -⟩ | ⟨-, hstored, -⟩ | ⟨-, hstored, -⟩
    · rw [hstored]
    · rw [hstored]
    · rw [hstored]
  refine ⟨(upsertFullTarget_identifier s s' newId target stored h).2 hnew, ?_, ?_⟩
  · intro hne
    rw [hrid]
    exact h1 hne
  · intro he
    rw [hrid]
    exact h2 he

/-- C13 (as amended): for every entity the hook `BeforeSave` generates an
identifier only for a record that has none and passes a non-empty one on as it
is; the first save of a record, the one that creates its row, stores that
identifier under the new key; every sequence of successful saves, of any
records, keeps the identifier stored under every key of the projects and of the
targets, whose column is written on create only; and every sequence of
successful `BoxPut`, `ProjectPut` and `TargetPut` on a catalog with unique
primary keys keeps the identifier stored under every key of the three tables,
`BoxPut` resolving the stored entry by its identifier alone.  The validation
has no part in it. -/
theorem ResourceId_assigned_once (P : Platform) (s s' : State)
    (h : Relation.ReflTransGen (Put P) s s')
    (hkeys : ∀ x ∈ s.db.boxes, ∀ y ∈ s.db.boxes, x.ID = y.ID → x = y) :
    ((∀ (t : State) (newId : Except Error String) (b saved : Box),
        b.BeforeSave P.versions t newId = .ok saved →
        (b.ResourceId ≠ "" → saved.ResourceId = b.ResourceId) ∧
        (b.ResourceId = "" → newId = .ok saved.ResourceId)) ∧
      (∀ (t : State) (newId : Except Error String) (p saved : Project),
        p.BeforeSave t newId = .ok saved →
        (p.ResourceId ≠ "" → saved.ResourceId = p.ResourceId) ∧
        (p.ResourceId = "" → newId = .ok saved.ResourceId)) ∧
      (∀ (t : State) (newId : Except Error String) (x saved : Target),
        x.BeforeSave t newId = .ok saved →
        (x.ResourceId ≠ "" → saved.ResourceId = x.ResourceId) ∧
        (x.ResourceId = "" → newId = .ok saved.ResourceId))) ∧
    ((∀ (t t' : State) (newId : Except Error String) (b stored : Box),
        b.ID = 0 → t.upsertFullBox P.versions newId b = .ok (t', stored) →
        t'.boxResourceId stored.ID = some stored.ResourceId ∧
        (b.ResourceId ≠ "" → stored.ResourceId = b.ResourceId) ∧
        (b.ResourceId = "" → newId = .ok stored.ResourceId)) ∧
      (∀ (t t' : State) (newId : Except Error String) (p stored : Project),
        p.ID = 0 → t.upsertFullProject newId p = .ok (t', stored) →
        t'.projectResourceId stored.ID = some stored.ResourceId ∧
        (p.ResourceId ≠ "" → stored.ResourceId = p.ResourceId) ∧
        (p.ResourceId = "" → newId = .ok stored.ResourceId)) ∧
      (∀ (t t' : State) (newId : Except Error String) (x stored : Target),
        x.ID = 0 → t.upsertFullTarget newId x = .ok (t', stored) →
        t'.targetResourceId stored.ID = some stored.ResourceId ∧
        (x.ResourceId ≠ "" → stored.ResourceId = x.ResourceId) ∧
        (x.ResourceId = "" → newId = .ok stored.ResourceId))) ∧
    (∀ t t' : State, Relation.ReflTransGen (Save P.versions) t t' →
      (∀ key r, t.projectResourceId key = some r → t'.projectResourceId key = some r) ∧
      (∀ key r, t.targetResourceId key = some r → t'.targetResourceId key = some r)) ∧
    ((∀ key r, s.boxResourceId key = some r → s'.boxResourceId key = some r) ∧
      (∀ key r, s.projectResourceId key = some r → s'.projectResourceId key = some r) ∧
      (∀ key r, s.targetResourceId key = some r → s'.targetResourceId key = some r)) := by
  refine ⟨⟨?_, ?_, ?_⟩, ⟨?_, ?_, ?_⟩, ?_, (Puts_identifier P s s' h hkeys).1⟩
  · intro t newId b saved hb
    obtain ⟨-, -, -, -, -, -, h1, h2⟩ := Box_BeforeSave_ok P.versions t newId b saved hb
    exact ⟨h1, h2⟩
  · intro t newId p saved hp
    obtain ⟨-, -, -, -, -, -, -, -, h1, h2⟩ := Project_BeforeSave_ok t newId p saved hp
    exact ⟨h1, h2⟩
  · intro t newId x saved hx
    exact Target_BeforeSave_identifier t newId x saved hx
  · intro t t' newId b stored hnew hu
    exact upsertFullBox_first P.versions t t' newId b stored hnew hu
  · intro t t' newId p stored hnew hu
    exact upsertFullProject_first t t' newId p stored hnew hu
  · intro t t' newId x stored hnew hu
    exact upsertFullTarget_first t t' newId x stored hnew hu
  · intro t t' hsaves
    exact Saves_identifier P.versions t t' hsaves

/-- C13 (witness): the Put of the new target `t1` generates `target-1` and
stores it under the key `1`, as the Put of a new project and of a new catalog
entry store `project-1` and `box-1`; the later Put of `t1` under the identifier
`target-9` succeeds, and after it and the Put of a catalog entry the keys still
hold `target-1` and `project-1`. -/
theorem ResourceId_assigned_once_witness :
    examples.scopes.ProjectPut (.ok "project-1") (some examples.first) =
      .ok (examples.scopesWithFirst, examples.firstStored) ∧
    examples.scopesWithFirst.projectResourceId 1 = some "project-1" ∧
    (∃ out, examples.scopesWithFirst.TargetPut (numericPlatform true) (.ok "target-1")
        (some examples.newTarget) = .ok (examples.scopesWithTarget, out) ∧
      out.ResourceId = "target-1") ∧
    examples.scopesWithFirst.targetResourceId 1 = none ∧
    examples.scopesWithTarget.targetResourceId 1 = some "target-1" ∧
    (∃ out, examples.scopesWithTarget.TargetPut (numericPlatform true) (.ok "target-7")
        (some examples.relabelled) = .ok (examples.scopesRelabelled, out) ∧
      out.ResourceId = "target-9") ∧
    examples.scopesRelabelled.BoxPut numericVersions (.ok "box-1") (some examples.newBox) =
      .ok examples.scopesCatalogued ∧
    examples.scopesCatalogued.boxResourceId 1 = some "box-1" ∧
    examples.scopesCatalogued.targetResourceId 1 = some "target-1" ∧
    examples.scopesCatalogued.projectResourceId 1 = some "project-1" := by
  have h1 : Put (numericPlatform true) examples.scopesWithTarget examples.scopesRelabelled :=
    Put.target _ _ (.ok "target-7") (some examples.relabelled) _ rfl
  have h2 : Put (numericPlatform true) examples.scopesRelabelled examples.scopesCatalogued :=
    Put.box _ _ (.ok "box-1") (some examples.newBox) rfl
  have hkeep := (ResourceId_assigned_once (numericPlatform true) examples.scopesWithTarget
    examples.scopesCatalogued ((Relation.ReflTransGen.single h1).tail h2)
    (by intro x hx; cases hx)).2.2.2
  exact ⟨rfl, rfl, ⟨_, rfl, rfl⟩, rfl, rfl, ⟨_, rfl, rfl⟩, rfl, rfl,
    hkeep.2.2 1 "target-1" rfl, hkeep.2.1 1 "project-1" rfl⟩

/-- C13 (as stated, refuted): the validation does not reject a persisted record
whose identifier is not the stored one, for a target and for a project; the
Put of the stored target `t1` under the identifier `target-9` succeeds and
returns `target-9` while the row keeps `target-1`; and the save of the stored
catalog entry `1` under the identifier `box-other` succeeds and overwrites the
stored `box-1.0.0`. -/
theorem ResourceId_modified_not_rejected :
    Target.validate examples.workspace
      { ID := 1, ProjectID := 1, Name := "t1", ResourceId := "target-9", State := 2 } =
      .ok () ∧
    Project.Validate examples.scopesWithFirst
      { ID := 1, BasisID := 1, Name := "p1", Path := "/a", ResourceId := "project-5" } =
      .ok () ∧
    (∃ s' out, examples.workspace.TargetPut (numericPlatform true) (.ok "target-7")
        (some { ResourceId := "target-9", Name := "t1",
                Project := some { ResourceId := "project-1" } }) = .ok (s', out) ∧
      out.ResourceId = "target-9" ∧ s'.targetResourceId 1 = some "target-1") ∧
    examples.workspace.boxResourceId 1 = some "box-1.0.0" ∧
    (∃ s' stored, examples.workspace.upsertFullBox numericVersions (.ok "box-7")
        { examples.ubuntu 1 "1.0.0" with ResourceId := "box-other" } = .ok (s', stored) ∧
      s'.boxResourceId 1 = some "box-other") :=
  ⟨rfl, rfl, ⟨_, _, rfl, rfl, rfl⟩, rfl, ⟨_, _, rfl, rfl⟩⟩

/-! ## The state of a target after a Put -/

/-- The record that `TargetFromProtoFuzzy` resolves is a stored row with its
associations loaded. -/
theorem TargetFromProtoFuzzy_row (P : Platform) (s : State) (t : vagrant_server.Target)
    (target : Target) (h : s.TargetFromProtoFuzzy P (some t) = .ok target) :
    ∃ row ∈ s.db.targets, target = s.loadTarget row := by
  have hfirst : ∀ (cond : Target → Bool),
      (match First Target.ID cond s.db.targets with
        | .error err => (.error err : Except Error Target)
        | .ok row => .ok (s.loadTarget row)) = .ok target →
      ∃ row ∈ s.db.targets, target = s.loadTarget row := by
    intro cond hm
    cases hf : First Target.ID cond s.db.targets with
    | error e => rw [hf] at hm; cases hm
    | ok row =>
      rw [hf] at hm
      cases hm
      exact ⟨row, (First_ok _ _ _ _ hf).1, rfl⟩
  unfold State.TargetFromProtoFuzzy at h
  cases hp : s.TargetFromProto (some t) with
  | ok found =>
    rw [hp] at h
    cases h
    unfold State.TargetFromProto State.TargetFromProtoRef at hp
    simp only at hp
    by_cases hid : t.ResourceId = ""
    · rw [if_pos hid] at hp
      cases hp
    · rw [if_neg hid] at hp
      exact hfirst _ hp
  | error e =>
    rw [hp] at h
    simp only at h
    by_cases hn : (!e.isNotFound) = true
    · rw [if_pos hn] at h
      cases h
    · rw [if_neg hn] at h
      by_cases h1 : (t.Uuid = "" && t.Name = "") = true
      · rw [if_pos h1] at h
        cases h
      · rw [if_neg h1] at h
        by_cases h2 : (t.Project.isNone && t.Uuid = "") = true
        · rw [if_pos h2] at h
          cases h
        · rw [if_neg h2] at h
          cases hproj : t.Project with
          | some project =>
            rw [hproj] at h
            exact hfirst _ h
          | none =>
            rw [hproj] at h
            exact hfirst _ h

/-- The soft merge takes the identifier of the external record when it has
one, and keeps the `ProjectID` column of the internal record. -/
theorem softDecodeTarget_identifier (s : State) (t : vagrant_server.Target)
    (target decoded : Target) (h : s.softDecodeTarget t target = .ok decoded) :
    decoded.ResourceId = (if t.ResourceId ≠ "" then t.ResourceId else target.ResourceId) ∧
    decoded.ProjectID = target.ProjectID ∧
    (t.Project = none → decoded.Project = target.Project) := by
  unfold State.softDecodeTarget at h
  simp only at h
  split at h
  · cases h
  · cases h
  · rename_i project parent hproject hparent
    cases h
    refine ⟨rfl, rfl, ?_⟩
    intro hnone
    rw [hnone] at hproject
    simp only [Except.ok.injEq] at hproject
    exact hproject.symm

/-- The reset of `Record` at the head of the second half of `TargetPut` leaves
the key and the identifier of the record. -/
theorem resetRecord_fields (c : Prop) [Decidable c] (target : Target) :
    (if c then { target with Record := none } else target).ID = target.ID ∧
    (if c then { target with Record := none } else target).ResourceId = target.ResourceId ∧
    (if c then { target with Record := none } else target).ProjectID = target.ProjectID ∧
    (if c then { target with Record := none } else target).Project = target.Project := by
  by_cases h : c
  · rw [if_pos h]
    exact ⟨rfl, rfl, rfl, rfl⟩
  · rw [if_neg h]
    exact ⟨rfl, rfl, rfl, rfl⟩

/-- The save of a record under the key of a stored row leaves a row of that key
with the identifier of the stored row. -/
theorem upsertFullTarget_row (s s' : State) (newId : Except Error String)
    (target saved rf : Target) (h : s.upsertFullTarget newId target = .ok (s', saved))
    (hrf : rf ∈ s.db.targets) (hid : rf.ID = target.ID) (hnz : target.ID ≠ 0) :
    ∃ row ∈ s'.db.targets, row.ID = saved.ID ∧ row.ResourceId = rf.ResourceId := by
  obtain ⟨rec, hrec, -, hcases⟩ := upsertFullTarget_ok s s' newId target saved h
  obtain ⟨-, hrecID, -⟩ := Target_BeforeSave_ok s newId target rec hrec
  rcases hcases with ⟨hz, -, -⟩ | ⟨-, hsaved, -, hrows⟩ | ⟨-, -, hnone, -⟩
  · exact absurd (hrecID.symm.trans hz) hnz
  · refine ⟨{ rec.row with ResourceId := rf.ResourceId }, ?_, ?_, rfl⟩
    · rw [hrows]
      refine List.mem_map.mpr ⟨rf, hrf, ?_⟩
      rw [if_pos (hid.trans hrecID.symm)]
    · rw [hsaved]
      rfl
  · exact absurd (hid.trans hrecID.symm) (hnone rf hrf)

/-- C5: after a successful `TargetPut` the record returned and the stored
target carry the state of the input record verbatim, whatever the input state
and the state stored before are.  The stored target is a row under the key of
the target that the Put resolved, every row of its key carries the state, and
it is the row under the identifier of the record returned whenever the input
record carries no other identifier than the resolved target. -/
theorem TargetPut_state_verbatim (P : Platform) (s s' : State)
    (newId : Except Error String) (t out : vagrant_server.Target)
    (hput : s.TargetPut P newId (some t) = .ok (s', out)) :
    out.State = t.State ∧
    ∃ row ∈ s'.db.targets,
      (∀ target, s.TargetFromProtoFuzzy P (some t) = .ok target → target.ID ≠ 0 →
        row.ID = target.ID) ∧
      ((∀ target, s.TargetFromProtoFuzzy P (some t) = .ok target → target.ID ≠ 0 →
          target.ResourceId ≠ "" ∧ (t.ResourceId = "" ∨ t.ResourceId = target.ResourceId)) →
        row.ResourceId = out.ResourceId) ∧
      ∀ r ∈ s'.db.targets, r.ID = row.ID → r.State = t.State := by
  rcases TargetPut_ok P s s' newId t out hput with ⟨target, hfuzzy, honto⟩ | ⟨⟨e, hfuzzy⟩, honto⟩
  · obtain ⟨decoded, saved, hdec, hup, hout⟩ :=
      targetPutOnto_ok s s' newId { t with Project := none } out target honto
    obtain ⟨hS, hsavedID, row, hrow, hrid, hrowID, hall⟩ :=
      upsertFullTarget_stored s s' newId
        { decoded with State := ({ t with Project := none } : vagrant_server.Target).State }
        saved hup
    obtain ⟨hdecID, -, -⟩ := softDecodeTarget_ok s _ _ decoded hdec
    obtain ⟨hdecR, -, -⟩ := softDecodeTarget_identifier s _ _ decoded hdec
    have hdecID0 : decoded.ID = target.ID :=
      hdecID.trans (resetRecord_fields _ target).1
    have hdecR0 : decoded.ResourceId =
        (if t.ResourceId ≠ "" then t.ResourceId else target.ResourceId) := by
      rw [hdecR, (resetRecord_fields _ target).2.1]
    subst hout
    refine ⟨hS, ?_⟩
    by_cases hnz : target.ID = 0
    · refine ⟨row, hrow, ?_, ?_, ?_⟩
      · intro target0 h0 hne
        rw [hfuzzy] at h0
        cases h0
        exact absurd hnz hne
      · intro _
        exact hrid (hdecID0.trans hnz)
      · intro r hr hk
        exact (hall r hr hk).1
    · obtain ⟨rf, hrf, hload⟩ := TargetFromProtoFuzzy_row P s t target hfuzzy
      have hrfID : rf.ID = target.ID := by rw [hload]; rfl
      have hrfR : rf.ResourceId = target.ResourceId := by rw [hload]; rfl
      have hdnz : decoded.ID ≠ 0 := fun hz => hnz (hdecID0.symm.trans hz)
      obtain ⟨row1, hrow1, hrow1ID, hrow1R⟩ :=
        upsertFullTarget_row s s' newId _ saved rf hup hrf (hrfID.trans hdecID0.symm) hdnz
      have hsID : saved.ID = target.ID := (hsavedID hdnz).trans hdecID0
      refine ⟨row1, hrow1, ?_, ?_, ?_⟩
      · intro target0 h0 _
        rw [hfuzzy] at h0
        cases h0
        exact hrow1ID.trans hsID
      · intro hsame
        obtain ⟨hne, hor⟩ := hsame target hfuzzy hnz
        have hdecT : decoded.ResourceId = target.ResourceId := by
          rw [hdecR0]
          rcases hor with he | he
          · rw [if_neg (not_not.mpr he)]
          · by_cases hte : t.ResourceId = ""
            · rw [if_neg (not_not.mpr hte)]
            · rw [if_pos hte]
              exact he
        obtain ⟨rec, hrec, -, hcases⟩ := upsertFullTarget_ok s s' newId _ saved hup
        obtain ⟨hkeep, -⟩ := Target_BeforeSave_identifier s newId _ rec hrec
        have hrecR : rec.ResourceId = target.ResourceId :=
          (hkeep (by show decoded.ResourceId ≠ ""; rw [hdecT]; exact hne)).trans hdecT
        have hsavedR : saved.ResourceId = rec.ResourceId := by
          rcases hcases with ⟨-, hst, -⟩ | ⟨-, hst, -⟩ | ⟨-, hst, -⟩
          · rw [hst]
          · rw [hst]
          · rw [hst]
        show row1.ResourceId = saved.ResourceId
        rw [hrow1R, hrfR, hsavedR, hrecR]
      · intro r hr hk
        exact (hall r hr (hk.trans (hrow1ID.trans hrowID.symm))).1
  · obtain ⟨decoded, saved, hdec, hup, hout⟩ := targetPutOnto_ok s s' newId t out {} honto
    obtain ⟨hS, -, row, hrow, hrid, -, hall⟩ :=
      upsertFullTarget_stored s s' newId { decoded with State := t.State } saved hup
    obtain ⟨hdecID, -, -⟩ := softDecodeTarget_ok s _ _ decoded hdec
    have hdecID0 : decoded.ID = 0 :=
      hdecID.trans (resetRecord_fields _ {}).1
    subst hout
    refine ⟨hS, row, hrow, ?_, ?_, ?_⟩
    · intro target0 h0
      rw [hfuzzy] at h0
      cases h0
    · intro _
      exact hrid hdecID0
    · intro r hr hk
      exact (hall r hr hk).1

/-- C5 (witness): the Put of `rename`, whose state is `UNKNOWN`, on `target-1`,
stored in the state `2` under the key `1`. -/
theorem TargetPut_state_verbatim_witness :
    examples.renamed.State = examples.rename.State ∧
    ∃ row ∈ examples.workspaceRenamed.db.targets,
      row.ID = 1 ∧ row.ResourceId = examples.renamed.ResourceId ∧
      ∀ r ∈ examples.workspaceRenamed.db.targets, r.ID = row.ID →
        r.State = examples.rename.State := by
  have hfound : examples.workspace.TargetFromProtoFuzzy (numericPlatform true)
      (some examples.rename) =
      .ok (examples.workspace.loadTarget
        { ID := 1, ProjectID := 1, Name := "t1", ResourceId := "target-1", State := 2,
          Record := some "record", Configuration := some "config", Uuid := some "uuid-1" }) :=
    rfl
  obtain ⟨hstate, row, hrow, hkey, hrid, hall⟩ :=
    TargetPut_state_verbatim (numericPlatform true) examples.workspace
      examples.workspaceRenamed (.ok "generated") examples.rename examples.renamed rfl
  refine ⟨hstate, row, hrow, hkey _ hfound (by decide), hrid ?_, hall⟩
  intro target hf _
  rw [hfound] at hf
  cases hf
  exact ⟨by decide, Or.inr rfl⟩

/-! ## The parent check of a target -/

/-- The errors in a failed `validation.ValidateStruct` are the errors of the
fields. -/
theorem validateStruct_error_mem (fields : List (List (String × String)))
    (e : String × String) :
    (∃ errs, validateStruct fields = .error (.Validation errs) ∧ e ∈ errs) ↔
      e ∈ fields.flatten := by
  unfold validateStruct
  cases h : fields.flatten with
  | nil => simp
  | cons a l => simp

/-- The error of a field carries the name of the field and the message of its
first failing rule. -/
theorem field_mem (name : String) (rules : List (Option String)) (n m : String) :
    (n, m) ∈ field name rules ↔ n = name ∧ rules.findSome? id = some m := by
  unfold field
  cases h : rules.findSome? id with
  | none => simp
  | some msg =>
    simp only [List.mem_singleton, Prod.mk.injEq, Option.some.injEq]
    exact ⟨fun ⟨h1, h2⟩ => ⟨h1, h2.symm⟩, fun ⟨h1, h2⟩ => ⟨h1, h2.symm⟩⟩

/-- The project loaded with a target row has the key that the column
`ProjectID` of the row holds. -/
theorem loadTarget_project (s : State) (row : Target) (p : Project)
    (h : (s.loadTarget row).Project = some p) :
    (s.loadTarget row).ProjectID = p.ID := by
  have hmap : (s.projectOf row).map s.loadProject = some p := h
  cases hq : s.projectOf row with
  | none => rw [hq] at hmap; cases hmap
  | some q =>
    rw [hq] at hmap
    simp only [Option.map_some', Option.some.injEq] at hmap
    unfold State.projectOf at hq
    have hid := List.find?_some hq
    simp only [decide_eq_true_eq] at hid
    rw [← hmap]
    exact hid.symm

/-- Every record that a successful `TargetPut` hands to the save has its
column `ProjectID` unset or equal to the key of its associated project: a new
record has no `ProjectID`, and a stored target comes with the project of its
column, the project of the incoming record being dropped. -/
theorem TargetPut_saved_keys (P : Platform) (s s' : State)
    (newId : Except Error String) (t out : vagrant_server.Target)
    (h : s.TargetPut P newId (some t) = .ok (s', out)) :
    ∃ record stored, s.upsertFullTarget newId record = .ok (s', stored) ∧
      ∀ p, record.Project = some p → record.ProjectID = 0 ∨ record.ProjectID = p.ID := by
  rcases TargetPut_ok P s s' newId t out h with ⟨target, hfuzzy, honto⟩ | ⟨-, honto⟩
  · obtain ⟨decoded, saved, hdec, hup, -⟩ :=
      targetPutOnto_ok s s' newId { t with Project := none } out target honto
    obtain ⟨-, hpid, hproject⟩ := softDecodeTarget_identifier s _ _ decoded hdec
    obtain ⟨row, -, hload⟩ := TargetFromProtoFuzzy_row P s t target hfuzzy
    refine ⟨_, saved, hup, ?_⟩
    intro p hp
    have hp1 : target.Project = some p := by
      have h1 : decoded.Project = some p := hp
      rw [hproject rfl, (resetRecord_fields _ target).2.2.2] at h1
      exact h1
    right
    show decoded.ProjectID = p.ID
    rw [hpid, (resetRecord_fields _ target).2.2.1, hload]
    rw [hload] at hp1
    exact loadTarget_project s row p hp1
  · obtain ⟨decoded, saved, hdec, hup, -⟩ := targetPutOnto_ok s s' newId t out {} honto
    obtain ⟨-, hpid, -⟩ := softDecodeTarget_identifier s _ _ decoded hdec
    refine ⟨_, saved, hup, ?_⟩
    intro p _
    left
    show decoded.ProjectID = 0
    rw [hpid, (resetRecord_fields _ {}).2.2.1]

/-- C16 (as amended): the parent check of `Target.validate` fails, with the
error `project must match parent project` on the field `ProjectID` or
`Project`, exactly when the effective project of the parent is set and the
column `ProjectID` of the target is set and differs from it, or its associated
project has another key.  For a target whose column `ProjectID` is unset or
holds the key of its associated project this is: the target has a project, the
effective project of the parent is set, and the two effective projects
differ.  Every record that a successful `TargetPut` hands to the save is such a
target. -/
theorem Target_validate_parent_check (s : State) (t : Target) (parent : ParentTarget)
    (hparent : t.resolveParent s = .ok parent) :
    ((∃ errs, t.validate s = .error (.Validation errs) ∧
        (("ProjectID", "project must match parent project") ∈ errs ∨
          ("Project", "project must match parent project") ∈ errs)) ↔
      (parent.effectiveProjectID ≠ 0 ∧
        ((t.ProjectID ≠ 0 ∧ t.ProjectID ≠ parent.effectiveProjectID) ∨
          ∃ p, t.Project = some p ∧ p.ID ≠ parent.effectiveProjectID))) ∧
    ((∀ p, t.Project = some p → t.ProjectID = 0 ∨ t.ProjectID = p.ID) →
      ((∃ errs, t.validate s = .error (.Validation errs) ∧
          (("ProjectID", "project must match parent project") ∈ errs ∨
            ("Project", "project must match parent project") ∈ errs)) ↔
        (parent.effectiveProjectID ≠ 0 ∧ (t.Project.isSome ∨ t.ProjectID ≠ 0) ∧
          t.effectiveProjectID ≠ parent.effectiveProjectID))) ∧
    (∀ (P : Platform) (s0 s1 : State) (newId : Except Error String)
        (x out : vagrant_server.Target), s0.TargetPut P newId (some x) = .ok (s1, out) →
      ∃ record stored, s0.upsertFullTarget newId record = .ok (s1, stored) ∧
        ∀ p, record.Project = some p → record.ProjectID = 0 ∨ record.ProjectID = p.ID) := by
  have hgeneral : (∃ errs, t.validate s = .error (.Validation errs) ∧
        (("ProjectID", "project must match parent project") ∈ errs ∨
          ("Project", "project must match parent project") ∈ errs)) ↔
      (parent.effectiveProjectID ≠ 0 ∧
        ((t.ProjectID ≠ 0 ∧ t.ProjectID ≠ parent.effectiveProjectID) ∨
          ∃ p, t.Project = some p ∧ p.ID ≠ parent.effectiveProjectID)) := by
    have hsplit : ∀ (a b : String × String),
        (∃ errs, t.validate s = .error (.Validation errs) ∧ (a ∈ errs ∨ b ∈ errs)) ↔
        ((∃ errs, t.validate s = .error (.Validation errs) ∧ a ∈ errs) ∨
          (∃ errs, t.validate s = .error (.Validation errs) ∧ b ∈ errs)) := by
      intro a b
      constructor
      · rintro ⟨errs, he, ha | hb⟩
        · exact Or.inl ⟨errs, he, ha⟩
        · exact Or.inr ⟨errs, he, hb⟩
      · rintro (⟨errs, he, ha⟩ | ⟨errs, he, hb⟩)
        · exact ⟨errs, he, Or.inl ha⟩
        · exact ⟨errs, he, Or.inr hb⟩
    rw [hsplit]
    unfold Target.validate
    simp only [hparent]
    rw [validateStruct_error_mem, validateStruct_error_mem]
    generalize parent.effectiveProjectID = ppid
    cases hP : t.Project with
    | none =>
      by_cases hz : t.ProjectID = 0 <;> by_cases hp : ppid = 0 <;>
        by_cases hm : t.ProjectID = ppid <;>
        simp [field_mem, List.findSome?, when_, required, checkSameProject, checkUnique,
          checkNotModified, hz, hp, hm]
    | some p =>
      by_cases hz : t.ProjectID = 0 <;> by_cases hp : ppid = 0 <;>
        by_cases hm : t.ProjectID = ppid <;> by_cases hq : p.ID = ppid <;>
        simp [field_mem, List.findSome?, when_, required, checkSameProject, checkUnique,
          checkNotModified, hz, hp, hm, hq]
  refine ⟨hgeneral, ?_, TargetPut_saved_keys⟩
  intro hkey
  rw [hgeneral]
  unfold Target.effectiveProjectID
  cases hP : t.Project with
  | none => simp
  | some p =>
    rcases hkey p hP with hz | he
    · simp [hz]
    · simp [he]

/-- C16 (witness): the subtarget `foreignSub` declares its parent by the key
`1`, a target of the project `1`, and is itself of the project `2`: the parent
check rejects it on the field `Project`, the two effective projects being set
and different; the same subtarget of the project `1` is accepted. -/
theorem Target_validate_parent_check_witness :
    examples.foreignSub.resolveParent examples.workspace =
      .ok { ID := 1, ResourceId := "target-1", ProjectID := 1 } ∧
    examples.foreignSub.validate examples.workspace =
      .error (.Validation [("Project", "project must match parent project")]) ∧
    ((1 : Nat) ≠ 0 ∧ (examples.foreignSub.Project.isSome ∨ examples.foreignSub.ProjectID ≠ 0) ∧
      examples.foreignSub.effectiveProjectID ≠ 1) ∧
    ({ examples.foreignSub with
        Project := some { ID := 1, BasisID := 1, Name := "p1", Path := "/a",
                          ResourceId := "project-1" } } : Target).validate
      examples.workspace = .ok () :=
  ⟨rfl, rfl,
    ((Target_validate_parent_check examples.workspace examples.foreignSub
        { ID := 1, ResourceId := "target-1", ProjectID := 1 } rfl).2.1
      (fun _ _ => Or.inl rfl)).mp
      ⟨_, rfl, Or.inr (List.mem_singleton.mpr rfl)⟩,
    rfl⟩

/-- C16 (as stated, refuted): the parent check of `Target.validate` compares
the raw column `ProjectID` with the project of the parent as well.  The
target `staleKey` has the effective project `1` (its associated project), its
parent has the effective project `1`, and the write is rejected on the field
`ProjectID`, which holds `2`; with the column unset, or equal to `1`, the same
target is accepted. -/
theorem Target_validate_compares_raw_ProjectID :
    (match examples.staleKey.Project with
      | some project => project.ID
      | none => examples.staleKey.ProjectID) = 1 ∧
    (examples.staleKey.Parent.map
      (fun parent => match parent.Project with
        | some project => project.ID
        | none => parent.ProjectID)) = some 1 ∧
    examples.staleKey.validate examples.workspace =
      .error (.Validation [("ProjectID", "project must match parent project")]) ∧
    ({ examples.staleKey with ProjectID := 0 } : Target).validate examples.workspace =
      .ok () ∧
    ({ examples.staleKey with ProjectID := 1 } : Target).validate examples.workspace =
      .ok () :=
  ⟨rfl, rfl, rfl, rfl, rfl⟩

/-! ## The cascade of a delete -/

/-- A row that meets a chain of alternatives meets one that is not the empty
struct, unless every alternative is the empty struct. -/
theorem orChain_true {α : Type} [DecidableEq α] (zero : α) (cond : α → α → Bool)
    (qs : List α) (row : α) (h : orChain zero cond qs row = true) :
    (∀ q ∈ qs, q = zero) ∨ ∃ q ∈ qs, q ≠ zero ∧ cond q row = true := by
  unfold orChain at h
  cases hf : qs.filter (fun q => decide (q ≠ zero)) with
  | nil =>
    left
    intro q hq
    by_contra hne
    have : q ∈ qs.filter (fun q => decide (q ≠ zero)) :=
      List.mem_filter.mpr ⟨hq, by simpa using hne⟩
    rw [hf] at this
    cases this
  | cons a as =>
    right
    rw [hf] at h
    simp only at h
    rw [List.any_eq_true] at h
    obtain ⟨q, hq, hc⟩ := h
    rw [← hf] at hq
    obtain ⟨hq1, hq2⟩ := List.mem_filter.mp hq
    exact ⟨q, hq1, by simpa using hq2, hc⟩

/-- A filter after a filter that keeps every row the first one keeps. -/
theorem filter_filter_of_imp {α : Type} (p q : α → Bool) (l : List α)
    (h : ∀ x ∈ l, p x = true → q x = true) : (l.filter q).filter p = l.filter p := by
  induction l with
  | nil => rfl
  | cons a as ih =>
    have ih' := ih (fun x hx => h x (List.mem_cons_of_mem _ hx))
    by_cases hp : p a = true
    · have hq := h a (List.mem_cons_self _ _) hp
      simp [List.filter, hp, hq, ih']
    · by_cases hq : q a = true
      · simp [List.filter, hp, hq, ih']
      · simp [List.filter, hp, hq, ih']

/-- The row that the hook of a target finds for a stored target of a project
is of that project. -/
theorem Target_find_project (s : State) (hc : s.Consistent) (cur : State)
    (hcur : ∀ row ∈ cur.db.targets, row ∈ s.db.targets) (t target : Target)
    (ht : t ∈ s.db.targets) (hk : t.ProjectID ≠ 0) (h : t.find cur = .ok target) :
    target.ProjectID = t.ProjectID ∧
      ∀ row ∈ cur.subtargetsOf target, row ∈ s.db.targets ∧ row.ProjectID = t.ProjectID := by
  unfold Target.find at h
  split at h
  · cases h
  · rename_i r hr
    cases h
    obtain ⟨hmem, hcond⟩ := First_ok _ _ _ _ hr
    have hrs := hcur r hmem
    have hproject : r.ProjectID = t.ProjectID := by
      rcases orChain_true _ _ _ _ hcond with hall | ⟨q, hq, hne, hq2⟩
      · have := hall { ProjectID := t.ProjectID, Name := t.Name }
          (List.mem_cons_of_mem _ (List.mem_cons_of_mem _ (List.mem_cons_self _ _)))
        exact absurd (congrArg Target.ProjectID this) hk
      · simp only [List.mem_cons, List.mem_singleton, List.not_mem_nil, or_false] at hq
        rcases hq with hq | hq | hq | hq
        · subst hq
          rw [Target_cond_resourceId] at hq2
          by_cases hid : t.ResourceId = ""
          · rw [hid] at hne
            exact absurd rfl hne
          · rw [hc.targetResourceId r hrs t ht (hq2 hid)]
        · subst hq
          cases hu : t.Uuid with
          | none =>
            rw [hu] at hne
            exact absurd rfl hne
          | some u =>
            rw [hu] at hq2
            simp [Target.cond] at hq2
            rw [hc.targetUuid t ht r hrs (by rw [hu]; rfl) (by rw [hu, hq2])]
        · subst hq
          simp only [Target.cond, hk] at hq2
          have hq3 : (t.Name = "" ∨ r.Name = t.Name) ∧ r.ProjectID = t.ProjectID := by
            simpa using hq2
          exact hq3.2
        · subst hq
          by_cases hid : t.ID = 0
          · rw [hid] at hne
            exact absurd rfl hne
          · simp [Target.cond, hid] at hq2
            rw [hc.targetKey r hrs t ht hq2]
    refine ⟨hproject, ?_⟩
    intro row hrow
    unfold State.subtargetsOf at hrow
    obtain ⟨hrow1, hrow2⟩ := List.mem_filter.mp hrow
    have hparent : row.ParentID = some r.ID := by simpa [State.loadTarget] using hrow2
    exact ⟨hcur row hrow1, (hc.subtargets row (hcur row hrow1) r hrs hparent).trans hproject⟩

theorem Cascade_refl (k : Nat) (cur : State) : State.Cascade k cur cur :=
  ⟨fun _ h => h, rfl, rfl, rfl, rfl, rfl, rfl⟩

theorem Cascade_trans (k : Nat) (a b c : State) (hab : State.Cascade k a b)
    (hbc : State.Cascade k b c) : State.Cascade k a c := by
  obtain ⟨h1, h2, h3, h4, h5, h6, h7⟩ := hab
  obtain ⟨g1, g2, g3, g4, g5, g6, g7⟩ := hbc
  exact ⟨fun row h => h1 row (g1 row h), g2.trans h2, g3.trans h3, g4.trans h4, g5.trans h5,
    g6.trans h6, g7.trans h7⟩

/-- The operation `tx.Delete(targets)` on stored targets of the project `k` of
a consistent store removes targets of `k` only, the listed ones among them, and
touches no other table. -/
theorem deleteTargets_cascade (s : State) (hc : s.Consistent) (k : Nat) (hk : k ≠ 0) :
    ∀ (fuel : Nat) (cur cur' : State) (L : List Target),
      (∀ t ∈ L, t ∈ s.db.targets ∧ t.ProjectID = k) →
      (∀ row ∈ cur.db.targets, row ∈ s.db.targets) →
      cur.deleteTargets fuel L = .ok cur' →
      State.Cascade k cur cur' ∧ (∀ row ∈ cur'.db.targets, ∀ t ∈ L, row.ID ≠ t.ID) := by
  intro fuel
  induction fuel with
  | zero =>
    intro cur cur' L _ _ h
    unfold State.deleteTargets at h
    cases h
  | succ fuel ih =>
    have hstep : ∀ (cur cur1 : State) (t : Target), t ∈ s.db.targets → t.ProjectID = k →
        (∀ row ∈ cur.db.targets, row ∈ s.db.targets) →
        Target.BeforeDelete (State.deleteTargets fuel) cur t = .ok cur1 →
        State.Cascade k cur cur1 := by
      intro cur cur1 t ht htk hcur h
      unfold Target.BeforeDelete at h
      cases hfind : t.find cur with
      | error e => rw [hfind] at h; cases h
      | ok target =>
        rw [hfind] at h
        simp only at h
        obtain ⟨-, hsubs⟩ := Target_find_project s hc cur hcur t target ht
          (by rw [htk]; exact hk) hfind
        by_cases hlen : (cur.subtargetsOf target).length > 0
        · rw [if_pos hlen] at h
          exact (ih cur cur1 _ (fun row hrow => ⟨(hsubs row hrow).1,
            (hsubs row hrow).2.trans htk⟩) hcur h).1
        · rw [if_neg hlen] at h
          cases h
          exact Cascade_refl k cur
    have hfold : ∀ (L : List Target) (cur cur2 : State),
        (∀ t ∈ L, t ∈ s.db.targets ∧ t.ProjectID = k) →
        (∀ row ∈ cur.db.targets, row ∈ s.db.targets) →
        L.foldlM (fun s t => Target.BeforeDelete (State.deleteTargets fuel) s t) cur =
          .ok cur2 →
        State.Cascade k cur cur2 := by
      intro L
      induction L with
      | nil =>
        intro cur cur2 _ _ h
        cases h
        exact Cascade_refl k cur
      | cons t ts ihL =>
        intro cur cur2 hL hcur h
        rw [List.foldlM_cons] at h
        cases h1 : Target.BeforeDelete (State.deleteTargets fuel) cur t with
        | error e =>
          rw [h1] at h
          cases h
        | ok cur1 =>
          rw [h1] at h
          have hc1 := hstep cur cur1 t (hL t (List.mem_cons_self _ _)).1
            (hL t (List.mem_cons_self _ _)).2 hcur h1
          have hc2 := ihL cur1 cur2 (fun x hx => hL x (List.mem_cons_of_mem _ hx))
            (fun row hrow => hcur row (hc1.1 row hrow)) h
          exact Cascade_trans k cur cur1 cur2 hc1 hc2
    intro cur cur' L hL hcur h
    unfold State.deleteTargets at h
    cases h1 : L.foldlM (fun s t => Target.BeforeDelete (State.deleteTargets fuel) s t) cur with
    | error e => rw [h1] at h; cases h
    | ok cur2 =>
      rw [h1] at h
      simp only at h
      have hc2 := hfold L cur cur2 hL hcur h1
      unfold deleteByIDs at h
      by_cases hall : (L.map Target.ID).all (fun id => decide (id = 0)) = true
      · rw [if_pos hall] at h
        cases h
      · rw [if_neg hall] at h
        simp only at h
        cases h
        have hkeep : ∀ row ∈ cur2.db.targets, row.ProjectID ≠ k →
            ∀ t ∈ L, row.ID ≠ t.ID := by
          intro row hrow hne t ht heq
          have := hc.targetKey row (hcur row (hc2.1 row hrow)) t (hL t ht).1 heq
          rw [this] at hne
          exact hne (hL t ht).2
        refine ⟨Cascade_trans k cur cur2 _ hc2 ⟨?_, ?_, rfl, rfl, rfl, rfl, rfl⟩, ?_⟩
        · intro row hrow
          exact (List.mem_filter.mp hrow).1
        · apply filter_filter_of_imp
          intro row hrow hp
          have hne : row.ProjectID ≠ k := by simpa using hp
          have hnot : (L.map Target.ID).contains row.ID = false := by
            apply Bool.eq_false_iff.mpr
            intro hcon
            obtain ⟨t, ht, hid⟩ := List.mem_map.mp (List.elem_iff.mp hcon)
            exact hkeep row hrow hne t ht hid.symm
          rw [hnot]
          rfl
        · intro row hrow t ht heq
          obtain ⟨hrow1, hrow2⟩ := List.mem_filter.mp hrow
          have hnz := hc.targetNotNull row (hcur row (hc2.1 row hrow1))
          have hcon : (L.map Target.ID).contains row.ID = true :=
            List.elem_iff.mpr (List.mem_map.mpr ⟨t, ht, heq.symm⟩)
          rw [hcon] at hrow2
          simp [hnz] at hrow2

/-- The row that the hook of a project finds for a stored project is that
project. -/
theorem Project_find_self (s : State) (hc : s.Consistent) (r0 : Project)
    (h0 : r0 ∈ s.db.projects) (project : Project)
    (h : (s.loadProject r0).find s = .ok project) : project = s.loadProject r0 := by
  unfold Project.find at h
  split at h
  · cases h
  · rename_i r hr
    cases h
    obtain ⟨hmem, hcond⟩ := First_ok _ _ _ _ hr
    obtain ⟨hb, hn, hp⟩ := hc.projectNotNull r0 h0
    have hb' : (s.loadProject r0).BasisID = r0.BasisID := rfl
    have hn' : (s.loadProject r0).Name = r0.Name := rfl
    have hp' : (s.loadProject r0).Path = r0.Path := rfl
    have hi' : (s.loadProject r0).ID = r0.ID := rfl
    have hr' : (s.loadProject r0).ResourceId = r0.ResourceId := rfl
    rw [hb', hn', hp', hi', hr'] at hcond
    have hself : r = r0 := by
      rcases orChain_true _ _ _ _ hcond with hall | ⟨q, hq, hne, hq2⟩
      · have := hall { BasisID := r0.BasisID, Name := r0.Name }
          (List.mem_cons_of_mem _ (List.mem_cons_self _ _))
        exact absurd (congrArg Project.BasisID this) hb
      · simp only [List.mem_cons, List.mem_singleton, List.not_mem_nil, or_false] at hq
        rcases hq with hq | hq | hq | hq
        · subst hq
          rw [Project_cond_resourceId] at hq2
          by_cases hid : r0.ResourceId = ""
          · rw [hid] at hne
            exact absurd rfl hne
          · exact hc.projectResourceId r hmem r0 h0 (hq2 hid)
        · subst hq
          have hq3 : r.BasisID = r0.BasisID ∧ r.Name = r0.Name := by
            simpa [Project.cond, hb, hn] using hq2
          exact hc.projectName r hmem r0 h0 hq3.1 hq3.2
        · subst hq
          have hq3 : r.BasisID = r0.BasisID ∧ r.Path = r0.Path := by
            simpa [Project.cond, hb, hp] using hq2
          exact hc.projectPath r hmem r0 h0 hq3.1 hq3.2
        · subst hq
          by_cases hid : r0.ID = 0
          · rw [hid] at hne
            exact absurd rfl hne
          · have hq3 : r.ID = r0.ID := by simpa [Project.cond, hid] using hq2
            exact hc.projectKey r hmem r0 h0 hq3
    rw [hself]

/-- The delete of the configuration record removes the rows of the key and
touches no other table. -/
theorem deleteConfiguration_ok (s s1 : State) (key : Option Nat)
    (h : s.deleteConfiguration key = .ok s1) :
    s1.db.vagrantfiles = s.db.vagrantfiles.filter (fun v => some v.ID ≠ key) ∧
    s1.db.bases = s.db.bases ∧ s1.db.projects = s.db.projects ∧
    s1.db.targets = s.db.targets ∧ s1.db.boxes = s.db.boxes ∧ s1.db.jobs = s.db.jobs := by
  unfold State.deleteConfiguration at h
  cases key with
  | none =>
    cases h
    refine ⟨?_, rfl, rfl, rfl, rfl, rfl⟩
    symm
    rw [List.filter_eq_self]
    intro v _
    simp
  | some id =>
    simp only at h
    by_cases hz : id = 0
    · rw [if_pos hz] at h
      cases h
    · rw [if_neg hz] at h
      cases h
      refine ⟨?_, rfl, rfl, rfl, rfl, rfl⟩
      apply List.filter_congr
      intro v _
      simp [Vagrantfile.cond, hz]

/-- The delete of the targets of the project `k` of a consistent store removes
exactly the targets of `k` and touches no other table. -/
theorem deleteTargetsOf_ok (s : State) (hc : s.Consistent) (k : Nat) (hk : k ≠ 0)
    (s1 s2 : State) (h1 : s1.db.targets = s.db.targets)
    (h : s1.deleteTargetsOf (s.db.targets.filter (fun row => row.ProjectID = k)) = .ok s2) :
    s2.db.targets = s.db.targets.filter (fun row => row.ProjectID ≠ k) ∧
    s2.db.bases = s1.db.bases ∧ s2.db.vagrantfiles = s1.db.vagrantfiles ∧
    s2.db.projects = s1.db.projects ∧ s2.db.boxes = s1.db.boxes ∧
    s2.db.jobs = s1.db.jobs := by
  unfold State.deleteTargetsOf at h
  by_cases hlen : (s.db.targets.filter (fun row => decide (row.ProjectID = k))).length > 0
  · rw [if_pos hlen] at h
    have hL : ∀ t ∈ s.db.targets.filter (fun row => decide (row.ProjectID = k)),
        t ∈ s.db.targets ∧ t.ProjectID = k := by
      intro t ht
      obtain ⟨ht1, ht2⟩ := List.mem_filter.mp ht
      exact ⟨ht1, by simpa using ht2⟩
    obtain ⟨⟨hmem, hfilter, g1, g2, g3, g4, g5⟩, hgone⟩ :=
      deleteTargets_cascade s hc k hk _ s1 s2 _ hL (by rw [h1]; exact fun _ h => h) h
    refine ⟨?_, g1, g2, g3, g4, g5⟩
    rw [← h1, ← hfilter]
    symm
    rw [List.filter_eq_self]
    intro row hrow
    have hrow1 : row ∈ s.db.targets := by
      rw [← h1]
      exact hmem row hrow
    by_contra hne
    have hrk : row.ProjectID = k := by simpa using hne
    exact hgone row hrow row (List.mem_filter.mpr ⟨hrow1, by simpa using hrk⟩) rfl
  · rw [if_neg hlen] at h
    cases h
    refine ⟨?_, rfl, rfl, rfl, rfl, rfl⟩
    rw [h1]
    symm
    rw [List.filter_eq_self]
    intro row hrow
    by_contra hne
    have hrk : row.ProjectID = k := by simpa using hne
    have : row ∈ s.db.targets.filter (fun row => decide (row.ProjectID = k)) :=
      List.mem_filter.mpr ⟨hrow, by simpa using hrk⟩
    apply hlen
    exact List.length_pos_of_mem this

/-- The delete of the jobs scoped to the project `k` of a consistent store
removes exactly these jobs and touches no other table. -/
theorem deleteJobsOf_ok (s : State) (hc : s.Consistent) (k : Nat)
    (s2 s3 : State) (h2 : s2.db.jobs = s.db.jobs)
    (h : s2.deleteJobsOf (s.db.jobs.filter
      (fun row => row.ScopeType = projectScopeType && row.ScopeID = k)) = .ok s3) :
    s3.db.jobs = s.db.jobs.filter
      (fun row => !(decide (row.ScopeType = projectScopeType) && decide (row.ScopeID = k))) ∧
    s3.db.bases = s2.db.bases ∧ s3.db.vagrantfiles = s2.db.vagrantfiles ∧
    s3.db.projects = s2.db.projects ∧ s3.db.boxes = s2.db.boxes ∧
    s3.db.targets = s2.db.targets := by
  unfold State.deleteJobsOf at h
  split at h
  · rename_i hlen
    unfold deleteByIDs at h
    by_cases hall : ((s.db.jobs.filter (fun row =>
        decide (row.ScopeType = projectScopeType) && decide (row.ScopeID = k))).map
          InternalJob.ID).all (fun id => decide (id = 0)) = true
    · rw [if_pos hall] at h
      cases h
    · rw [if_neg hall] at h
      simp only at h
      cases h
      refine ⟨?_, rfl, rfl, rfl, rfl, rfl⟩
      show s2.db.jobs.filter _ = _
      rw [h2]
      apply List.filter_congr
      intro row hrow
      by_cases hsc : (decide (row.ScopeType = projectScopeType) && decide (row.ScopeID = k))
          = true
      · have hmem : row ∈ s.db.jobs.filter (fun row =>
            decide (row.ScopeType = projectScopeType) && decide (row.ScopeID = k)) :=
          List.mem_filter.mpr ⟨hrow, hsc⟩
        have hcon : ((s.db.jobs.filter (fun row =>
            decide (row.ScopeType = projectScopeType) && decide (row.ScopeID = k))).map
              InternalJob.ID).contains row.ID = true :=
          List.elem_iff.mpr (List.mem_map.mpr ⟨row, hmem, rfl⟩)
        rw [hcon, hsc]
        simp [hc.jobNotNull row hrow]
      · have hnot : ((s.db.jobs.filter (fun row =>
            decide (row.ScopeType = projectScopeType) && decide (row.ScopeID = k))).map
              InternalJob.ID).contains row.ID = false := by
          apply Bool.eq_false_iff.mpr
          intro hcon
          obtain ⟨j, hj, hid⟩ := List.mem_map.mp (List.elem_iff.mp hcon)
          obtain ⟨hj1, hj2⟩ := List.mem_filter.mp hj
          rw [hc.jobKey j hj1 row hrow hid] at hj2
          exact hsc hj2
        rw [hnot, Bool.eq_false_iff.mpr hsc]
        rfl
  · rename_i hlen
    cases h
    refine ⟨?_, rfl, rfl, rfl, rfl, rfl⟩
    rw [h2]
    symm
    rw [List.filter_eq_self]
    intro row hrow
    by_contra hne
    have hsc : (decide (row.ScopeType = projectScopeType) && decide (row.ScopeID = k)) = true := by
      simpa using hne
    apply hlen
    exact List.length_pos_of_mem (List.mem_filter.mpr ⟨hrow, hsc⟩)

/-- C17: in a store that meets the constraints of its schema (`Consistent`), a
successful `ProjectDelete` of a stored project leaves the project table without
the project, the configuration table without its configuration record, the
target table without its targets and the job table without the jobs scoped to
it; every table is otherwise what it was, in the same order, so that every
other project is still stored with its targets, its jobs and its configuration
record, and the root scopes and the catalog are untouched. -/
theorem ProjectDelete_cascade (s s' : State) (ref : vagrant_plugin_sdk.Ref_Project)
    (P : Project) (hc : s.Consistent) (hP : s.ProjectFromProtoRef (some ref) = .ok P)
    (hdel : s.ProjectDelete (some ref) = .ok s') :
    ((∀ row ∈ s'.db.projects, row.ID ≠ P.ID) ∧
      (∀ v ∈ s'.db.vagrantfiles, some v.ID ≠ P.VagrantfileID) ∧
      (∀ t ∈ s'.db.targets, t.ProjectID ≠ P.ID) ∧
      (∀ j ∈ s'.db.jobs, ¬ (j.ScopeType = projectScopeType ∧ j.ScopeID = P.ID))) ∧
    (s'.db.projects = s.db.projects.filter (fun row => row.ID ≠ P.ID) ∧
      s'.db.vagrantfiles = s.db.vagrantfiles.filter (fun v => some v.ID ≠ P.VagrantfileID) ∧
      s'.db.targets = s.db.targets.filter (fun row => row.ProjectID ≠ P.ID) ∧
      s'.db.jobs = s.db.jobs.filter (fun row =>
        !(decide (row.ScopeType = projectScopeType) && decide (row.ScopeID = P.ID))) ∧
      s'.db.bases = s.db.bases ∧ s'.db.boxes = s.db.boxes) ∧
    (∀ Q ∈ s.db.projects, Q.ID ≠ P.ID →
      Q ∈ s'.db.projects ∧ s'.targetsOf Q = s.targetsOf Q ∧ s'.jobsOf Q = s.jobsOf Q ∧
      ∀ v ∈ s.db.vagrantfiles, Q.VagrantfileID = some v.ID → v ∈ s'.db.vagrantfiles) := by
  -- the resolution returns a stored row with its associations
  obtain ⟨r0, h0, hload⟩ : ∃ r0 ∈ s.db.projects, P = s.loadProject r0 := by
    unfold State.ProjectFromProtoRef at hP
    simp only at hP
    split at hP
    · cases hP
    · split at hP
      · cases hP
      · rename_i r hr
        cases hP
        exact ⟨r, (First_ok _ _ _ _ hr).1, rfl⟩
  subst hload
  -- the steps of the delete
  unfold State.ProjectDelete at hdel
  rw [hP] at hdel
  simp only at hdel
  cases hd : s.deleteProject (s.loadProject r0) with
  | error e => rw [hd] at hdel; cases hdel
  | ok s4 =>
    rw [hd] at hdel
    cases hdel
    unfold State.deleteProject at hd
    cases hb : (s.loadProject r0).BeforeDelete s with
    | error e => rw [hb] at hd; cases hd
    | ok s3 =>
      rw [hb] at hd
      simp only at hd
      unfold deleteByID at hd
      by_cases hz : (s.loadProject r0).ID = 0
      · rw [if_pos hz] at hd
        cases hd
      · rw [if_neg hz] at hd
        simp only at hd
        cases hd
        unfold Project.BeforeDelete at hb
        cases hfind : (s.loadProject r0).find s with
        | error e => rw [hfind] at hb; cases hb
        | ok project =>
          rw [hfind] at hb
          simp only at hb
          have hself := Project_find_self s hc r0 h0 project hfind
          subst hself
          cases h1 : s.deleteConfiguration (s.loadProject r0).VagrantfileID with
          | error e => rw [h1] at hb; cases hb
          | ok s1 =>
            rw [h1] at hb
            simp only at hb
            cases h2 : s1.deleteTargetsOf (s.targetsOf (s.loadProject r0)) with
            | error e => rw [h2] at hb; cases hb
            | ok s2 =>
              rw [h2] at hb
              simp only at hb
              obtain ⟨a1, a2, a3, a4, a5, a6⟩ := deleteConfiguration_ok s s1 _ h1
              obtain ⟨b1, b2, b3, b4, b5, b6⟩ :=
                deleteTargetsOf_ok s hc (s.loadProject r0).ID hz s1 s2 a4 h2
              obtain ⟨c1, c2, c3, c4, c5, c6⟩ :=
                deleteJobsOf_ok s hc (s.loadProject r0).ID s2 s3 (b6.trans a6) hb
              have hprojects : s3.db.projects = s.db.projects := c4.trans (b4.trans a3)
              have hvagrantfiles : s3.db.vagrantfiles = s.db.vagrantfiles.filter
                  (fun v => some v.ID ≠ (s.loadProject r0).VagrantfileID) :=
                c3.trans (b3.trans a1)
              have htargets : s3.db.targets = s.db.targets.filter
                  (fun row => row.ProjectID ≠ (s.loadProject r0).ID) := c6.trans b1
              have hframe :
                  (List.filter (fun row => decide (row.ID ≠ (s.loadProject r0).ID))
                      s3.db.projects =
                    s.db.projects.filter (fun row => row.ID ≠ (s.loadProject r0).ID)) ∧
                  s3.db.vagrantfiles = s.db.vagrantfiles.filter
                    (fun v => some v.ID ≠ (s.loadProject r0).VagrantfileID) ∧
                  s3.db.targets = s.db.targets.filter
                    (fun row => row.ProjectID ≠ (s.loadProject r0).ID) ∧
                  s3.db.jobs = s.db.jobs.filter (fun row =>
                    !(decide (row.ScopeType = projectScopeType) &&
                      decide (row.ScopeID = (s.loadProject r0).ID))) ∧
                  s3.db.bases = s.db.bases ∧ s3.db.boxes = s.db.boxes :=
                ⟨by rw [hprojects], hvagrantfiles, htargets, c1, c2.trans (b2.trans a2),
                  c5.trans (b5.trans a5)⟩
              obtain ⟨f1, f2, f3, f4, f5, f6⟩ := hframe
              refine ⟨⟨?_, ?_, ?_, ?_⟩, ⟨f1, f2, f3, f4, f5, f6⟩, ?_⟩
              · intro row hrow
                have hrow' : row ∈ List.filter
                    (fun row => decide (row.ID ≠ (s.loadProject r0).ID)) s3.db.projects := hrow
                simpa using (List.mem_filter.mp hrow').2
              · intro v hv
                have hv' : v ∈ s3.db.vagrantfiles := hv
                rw [f2] at hv'
                simpa using (List.mem_filter.mp hv').2
              · intro t ht
                have ht' : t ∈ s3.db.targets := ht
                rw [f3] at ht'
                simpa using (List.mem_filter.mp ht').2
              · intro j hj
                have hj' : j ∈ s3.db.jobs := hj
                rw [f4] at hj'
                have hj2 := (List.mem_filter.mp hj').2
                intro hboth
                simp [hboth.1, hboth.2] at hj2
              · intro Q hQ hne
                refine ⟨?_, ?_, ?_, ?_⟩
                · show Q ∈ List.filter
                    (fun row => decide (row.ID ≠ (s.loadProject r0).ID)) s3.db.projects
                  rw [f1]
                  exact List.mem_filter.mpr ⟨hQ, by simpa using hne⟩
                · show List.filter (fun row => decide (row.ProjectID = Q.ID)) s3.db.targets =
                    List.filter (fun row => decide (row.ProjectID = Q.ID)) s.db.targets
                  rw [f3]
                  apply filter_filter_of_imp
                  intro row _ hp
                  have hq : row.ProjectID = Q.ID := by simpa using hp
                  rw [hq]
                  simpa using hne
                · show List.filter (fun row =>
                      decide (row.ScopeType = projectScopeType) && decide (row.ScopeID = Q.ID))
                      s3.db.jobs =
                    List.filter (fun row =>
                      decide (row.ScopeType = projectScopeType) && decide (row.ScopeID = Q.ID))
                      s.db.jobs
                  rw [f4]
                  apply filter_filter_of_imp
                  intro row _ hp
                  have hq : row.ScopeType = projectScopeType ∧ row.ScopeID = Q.ID := by
                    simpa using hp
                  rw [hq.2]
                  simp [hne]
                · intro v hv hQv
                  show v ∈ s3.db.vagrantfiles
                  rw [f2]
                  refine List.mem_filter.mpr ⟨hv, ?_⟩
                  have hdiff : some v.ID ≠ (s.loadProject r0).VagrantfileID := by
                    intro heq
                    have hsame : Q = r0 := hc.configuration Q hQ r0 h0
                      (by rw [hQv]; rfl) (hQv.trans heq)
                    rw [hsame] at hne
                    exact hne rfl
                  simpa using hdiff

/-- The store `fleet` meets the constraints of its schema. -/
theorem fleet_Consistent : examples.fleet.Consistent where
  projectKey := by decide
  projectResourceId := by decide
  projectName := by decide
  projectPath := by decide
  projectNotNull := by decide
  configuration := by decide
  targetKey := by decide
  targetNotNull := by decide
  targetResourceId := by decide
  targetUuid := by decide
  subtargets := by decide
  jobKey := by decide
  jobNotNull := by decide

/-- C17 (witness): the delete of `project-1` from the store `fleet` removes the
project, its configuration record, its two targets and its job, and leaves
`project-2` with its target, its job and its configuration record. -/
theorem ProjectDelete_cascade_witness :
    examples.fleet.Consistent ∧
    examples.fleet.ProjectDelete (some { ResourceId := "project-1" }) =
      .ok examples.fleetWithoutFirst ∧
    ((∀ row ∈ examples.fleetWithoutFirst.db.projects, row.ID ≠ 1) ∧
      (∀ v ∈ examples.fleetWithoutFirst.db.vagrantfiles, some v.ID ≠ some 1) ∧
      (∀ t ∈ examples.fleetWithoutFirst.db.targets, t.ProjectID ≠ 1) ∧
      (∀ j ∈ examples.fleetWithoutFirst.db.jobs,
        ¬ (j.ScopeType = projectScopeType ∧ j.ScopeID = 1))) ∧
    examples.fleetWithoutFirst.db.targets =
      examples.fleet.db.targets.filter (fun row => row.ProjectID ≠ 1) :=
  ⟨fleet_Consistent, rfl,
    (ProjectDelete_cascade examples.fleet examples.fleetWithoutFirst
      { ResourceId := "project-1" }
      (examples.fleet.loadProject
        { ID := 1, BasisID := 1, Name := "p1", Path := "/a", ResourceId := "project-1",
          VagrantfileID := some 1 })
      fleet_Consistent rfl rfl).1,
    (ProjectDelete_cascade examples.fleet examples.fleetWithoutFirst
      { ResourceId := "project-1" }
      (examples.fleet.loadProject
        { ID := 1, BasisID := 1, Name := "p1", Path := "/a", ResourceId := "project-1",
          VagrantfileID := some 1 })
      fleet_Consistent rfl rfl).2.1.2.2.1⟩

end state

namespace plugin

/-! ## The chain of parents -/

/-- The loop along a finite chain appends the names of the chain to the slice
when the fuel covers the chain, and has not ended when it does not. -/
theorem parentsLoop_chain (h : Heap) (i : Ptr) (chain : List Nat) (hc : Chain h i chain) :
    ∀ (fuel : Nat) (n : List String),
      (chain.length ≤ fuel →
        parentsLoop h fuel i n = some (n ++ chain.map (fun a => (h a).Name))) ∧
      (fuel < chain.length → parentsLoop h fuel i n = none) := by
  induction hc with
  | root =>
    intro fuel n
    refine ⟨fun _ => ?_, fun hlt => absurd hlt (Nat.not_lt_zero _)⟩
    cases fuel <;> simp [parentsLoop]
  | link a chain _ ih =>
    intro fuel n
    cases fuel with
    | zero =>
      refine ⟨fun hle => absurd hle (by simp), fun _ => rfl⟩
    | succ fuel =>
      obtain ⟨h1, h2⟩ := ih fuel (n ++ [(h a).Name])
      refine ⟨fun hle => ?_, fun hlt => ?_⟩
      · have hle' : chain.length ≤ fuel := Nat.le_of_succ_le_succ hle
        show parentsLoop h fuel (h a).Parent (n ++ [(h a).Name]) = _
        rw [h1 hle']
        simp
      · have hlt' : fuel < chain.length := Nat.lt_of_succ_lt_succ hlt
        show parentsLoop h fuel (h a).Parent (n ++ [(h a).Name]) = _
        exact h2 hlt'

/-- A loop that ends has walked a finite chain within its fuel. -/
theorem parentsLoop_some (h : Heap) :
    ∀ (fuel : Nat) (i : Ptr) (n r : List String), parentsLoop h fuel i n = some r →
      ∃ chain, Chain h i chain ∧ chain.length ≤ fuel := by
  intro fuel
  induction fuel with
  | zero =>
    intro i n r hr
    cases i with
    | none => exact ⟨[], Chain.root, Nat.le_refl _⟩
    | some a => cases hr
  | succ fuel ih =>
    intro i n r hr
    cases i with
    | none => exact ⟨[], Chain.root, Nat.zero_le _⟩
    | some a =>
      obtain ⟨chain, hchain, hlen⟩ := ih (h a).Parent (n ++ [(h a).Name]) r hr
      exact ⟨a :: chain, Chain.link a chain hchain, Nat.succ_le_succ hlen⟩

/-- C21: for an instance whose parent chain is finite, `Parents` ends after one
iteration for each instance of the chain (every fuel that covers the chain
gives the result, a smaller one does not end) and returns the names along the
chain in order from the instance itself to its root ancestor; its first
element is the name of the instance; `ParentCount` is the length of the chain,
one more than `ParentCount` of the parent, and `1` for an instance without
parent; for a nil instance `Parents` is empty and `ParentCount` is `0`,
whatever the fuel. -/
theorem Parents_chain (h : Heap) (i : Ptr) (chain : List Nat) (hc : Chain h i chain) :
    (∀ fuel, chain.length ≤ fuel →
      Instance.Parents h fuel i = some (chain.map (fun a => (h a).Name))) ∧
    (∀ fuel, fuel < chain.length → Instance.Parents h fuel i = none) ∧
    (∀ a, i = some a → (chain.map (fun a => (h a).Name)).head? = some (h a).Name) ∧
    (∀ fuel, chain.length ≤ fuel → Instance.ParentCount h fuel i = some chain.length) ∧
    (∀ a fuel, i = some a → chain.length ≤ fuel →
      (∃ count, Instance.ParentCount h fuel (h a).Parent = some count ∧
        Instance.ParentCount h fuel i = some (1 + count)) ∧
      ((h a).Parent = none → Instance.ParentCount h fuel i = some 1)) ∧
    (∀ fuel, Instance.Parents h fuel none = some [] ∧
      Instance.ParentCount h fuel none = some 0) := by
  have hparents : ∀ fuel, chain.length ≤ fuel →
      Instance.Parents h fuel i = some (chain.map (fun a => (h a).Name)) := by
    intro fuel hle
    unfold Instance.Parents
    rw [((parentsLoop_chain h i chain hc) fuel []).1 hle]
    rfl
  have hcount : ∀ fuel, chain.length ≤ fuel →
      Instance.ParentCount h fuel i = some chain.length := by
    intro fuel hle
    unfold Instance.ParentCount
    rw [hparents fuel hle]
    simp
  refine ⟨hparents, ?_, ?_, hcount, ?_, ?_⟩
  · intro fuel hlt
    unfold Instance.Parents
    exact ((parentsLoop_chain h i chain hc) fuel []).2 hlt
  · intro a ha
    subst ha
    cases hc with
    | link _ rest _ => rfl
  · intro a fuel ha hle
    subst ha
    cases hc with
    | link _ rest hrest =>
      have hle' : rest.length ≤ fuel := Nat.le_of_succ_le hle
      have hparent : Instance.ParentCount h fuel (h a).Parent = some rest.length := by
        unfold Instance.ParentCount Instance.Parents
        rw [((parentsLoop_chain h _ rest hrest) fuel []).1 hle']
        simp
      refine ⟨⟨rest.length, hparent, ?_⟩, ?_⟩
      · rw [hcount fuel hle, List.length_cons, Nat.add_comm]
      · intro hnone
        rw [hcount fuel hle]
        rw [hnone] at hrest
        cases hrest
        rfl
  · intro fuel
    cases fuel <;> exact ⟨rfl, rfl⟩

/-- C21 (witness): in the heap `family` the chain of `leaf` is `leaf`, `mid`,
`top`; three iterations give the three names and the count `3`, two do not
end, and an instance that is its own parent gives no result. -/
theorem Parents_chain_witness :
    Chain examples.family (some 2) [2, 1, 0] ∧
    Instance.Parents examples.family 3 (some 2) = some ["leaf", "mid", "top"] ∧
    Instance.Parents examples.family 2 (some 2) = none ∧
    Instance.ParentCount examples.family 3 (some 2) = some 3 ∧
    Instance.ParentCount examples.family 3 (some 0) = some 1 ∧
    Instance.Parents examples.family 100 (some 3) = none :=
  have hc : Chain examples.family (some 2) [2, 1, 0] :=
    Chain.link 2 [1, 0] (Chain.link 1 [0] (Chain.link 0 [] Chain.root))
  ⟨hc,
    (Parents_chain examples.family (some 2) [2, 1, 0] hc).1 3 (Nat.le_refl _),
    (Parents_chain examples.family (some 2) [2, 1, 0] hc).2.1 2 (Nat.lt_succ_self _),
    (Parents_chain examples.family (some 2) [2, 1, 0] hc).2.2.2.1 3 (Nat.le_refl _),
    rfl, rfl⟩

end plugin
